import Mathlib

/-!
Verification of the `skiplist` crate (indexed skip list, ordered skip list,
skip set, level generator) against its specification.

The embedding is a pointer-machine model: every allocated node lives in an
arena (a `List` of nodes) and a pointer is an arena index, with `none`
standing for the null pointer.  Loops of the source are modelled by
fuel-bounded recursion; a result of `none` at the outer level models a
`panic!`/`unreachable!()`/out-of-bounds abort of the original program.
-/

namespace SkipListVerif

/-- `Node<V>` of `src/skiplist.rs`: `value` is `None` only for the head
sentinel, `next` is the owning forward pointer of the level-0 chain, `prev`
the raw back pointer, `links`/`links_len` the per-level forward pointers and
the spans (number of level-0 steps) they cover. -/
structure Node (V : Type) where
  value : Option V
  next : Option Nat
  prev : Option Nat
  links : List (Option Nat)
  links_len : List Nat
deriving DecidableEq

instance {V : Type} : Inhabited (Node V) :=
  ⟨⟨none, none, none, [], []⟩⟩

/-- `Node::new(value, levels)`. -/
def Node.new {V : Type} (value : Option V) (levels : Nat) : Node V :=
  ⟨value, none, none, List.replicate levels none, List.replicate levels 0⟩

/-- `Node::increase_level`. -/
def Node.increaseLevel {V : Type} (nd : Node V) : Node V :=
  { nd with links := nd.links ++ [none], links_len := nd.links_len ++ [0] }

/-- Write the level-`l` forward pointer. -/
def Node.setLink {V : Type} (nd : Node V) (l : Nat) (p : Option Nat) : Node V :=
  { nd with links := nd.links.set l p }

/-- Write the level-`l` span. -/
def Node.setSpan {V : Type} (nd : Node V) (l : Nat) (k : Nat) : Node V :=
  { nd with links_len := nd.links_len.set l k }

/-- Read `links[l]`; `none` models the out-of-bounds panic of `Vec` indexing,
`some none` is a stored null pointer. -/
def Node.linkAt {V : Type} (nd : Node V) (l : Nat) : Option (Option Nat) :=
  nd.links.get? l

/-- Read `links_len[l]`; `none` models the out-of-bounds panic. -/
def Node.spanAt {V : Type} (nd : Node V) (l : Nat) : Option Nat :=
  nd.links_len.get? l

/-- `SkipList<V>`: the arena holds every node ever allocated (slot 0 is the
head sentinel); `length` is the element count.  The level generator is kept
outside the structure: each `insert` receives the drawn level explicitly. -/
structure SkipList (V : Type) where
  arena : List (Node V)
  length : Nat
deriving DecidableEq

/-- Dereference an arena pointer. -/
def getN {V : Type} (s : SkipList V) (id : Nat) : Node V :=
  s.arena.getD id default

/-- Store a node back through an arena pointer. -/
def setN {V : Type} (s : SkipList V) (id : Nat) (nd : Node V) : SkipList V :=
  { s with arena := s.arena.set id nd }

/-- Mutate the node an arena pointer refers to. -/
def updN {V : Type} (s : SkipList V) (id : Nat) (f : Node V → Node V) : SkipList V :=
  setN s id (f (getN s id))

/-- `SkipList::new()` (the level generator's configuration plays no role in
the data structure itself). -/
def SkipList.new (V : Type) : SkipList V :=
  ⟨[Node.new none 0], 0⟩

/-- The `while level >= self.head.links.len() { self.head.increase_level() }`
loop of `insert`, acting on a node. -/
def Node.growGo {V : Type} (fuel : Nat) (nd : Node V) (level : Nat) : Node V :=
  match fuel with
  | 0 => nd
  | fuel + 1 =>
    if level < nd.links.length then nd
    else Node.growGo fuel nd.increaseLevel level

def Node.grow {V : Type} (nd : Node V) (level : Nat) : Node V :=
  Node.growGo (level + 2) nd level

/-- Grow the head sentinel so that it has at least `level + 1` levels. -/
def growHead {V : Type} (s : SkipList V) (level : Nat) : SkipList V :=
  updN s 0 (fun h => h.grow level)

/-- The descent loop of `SkipList::insert` (`src/skiplist.rs:115-157`),
threading the mutated state.  Returns the state together with the final
`cur_ptr` (the level-0 predecessor).  `none` models a panic or exhausted
fuel; the top-level caller supplies enough fuel for every well-formed
state. -/
def insertLoop {V : Type} (fuel : Nat) (s : SkipList V)
    (nodeId level actual curPtr curIndex curLevel : Nat) :
    Option (SkipList V × Nat) :=
  match fuel with
  | 0 => none
  | fuel + 1 =>
    match (getN s curPtr).linkAt curLevel with
    | none => none
    | some none =>
      let s1 := if curLevel ≤ level then
          updN s curPtr (fun nd =>
            (nd.setLink curLevel (some nodeId)).setSpan curLevel (actual - curIndex))
        else s
      if curLevel = 0 then some (s1, curPtr)
      else insertLoop fuel s1 nodeId level actual curPtr curIndex (curLevel - 1)
    | some (some np) =>
      match (getN s curPtr).spanAt curLevel with
      | none => none
      | some curSpan =>
        let nextIndex := curIndex + curSpan
        if nextIndex < actual then
          insertLoop fuel s nodeId level actual np nextIndex curLevel
        else
          let s1 := if curLevel ≤ level then
              let sA := updN s nodeId (fun nd =>
                (nd.setLink curLevel (some np)).setSpan curLevel (nextIndex + 1 - actual))
              updN sA curPtr (fun nd =>
                (nd.setLink curLevel (some nodeId)).setSpan curLevel (actual - curIndex))
            else
              updN s curPtr (fun nd => nd.setSpan curLevel (curSpan + 1))
          if curLevel = 0 then some (s1, curPtr)
          else insertLoop fuel s1 nodeId level actual curPtr curIndex (curLevel - 1)

/-- `SkipList::insert(index, value)`.  The level drawn by the level
generator is passed in explicitly (`choose()` is modelled separately);
`none` models the `panic!` on `index > length`. -/
def SkipList.insert {V : Type} (s : SkipList V) (index : Nat) (value : V) (level : Nat) :
    Option (SkipList V) :=
  if index > s.length then none
  else
    let nodeId := s.arena.length
    let s0 : SkipList V := { s with arena := s.arena ++ [Node.new (some value) (level + 1)] }
    let s1 := growHead s0 level
    let fuel := (s1.arena.length + 2) * ((getN s1 0).links.length + 2)
    match insertLoop fuel s1 nodeId level (index + 1) 0 0 ((getN s1 0).links.length - 1) with
    | none => none
    | some (s2, prePtr) =>
      let s3 := updN s2 nodeId (fun nd => { nd with prev := some prePtr })
      let s4 := match (getN s3 prePtr).next with
        | none => updN s3 prePtr (fun nd => { nd with next := some nodeId })
        | some nx =>
          let sA := updN s3 nx (fun nd => { nd with prev := some nodeId })
          let sB := updN sA nodeId (fun nd => { nd with next := some nx })
          updN sB prePtr (fun nd => { nd with next := some nodeId })
      some { s4 with length := s4.length + 1 }

/-- The descent loop of `SkipList::remove` (`src/skiplist.rs:201-245`).
The `unreachable!()` on a null level-0 link is modelled by `none`. -/
def removeLoop {V : Type} (fuel : Nat) (s : SkipList V)
    (actual curPtr curIndex curLevel : Nat) : Option (SkipList V × Nat) :=
  match fuel with
  | 0 => none
  | fuel + 1 =>
    match (getN s curPtr).linkAt curLevel with
    | none => none
    | some none =>
      if curLevel = 0 then none
      else removeLoop fuel s actual curPtr curIndex (curLevel - 1)
    | some (some np) =>
      match (getN s curPtr).spanAt curLevel, (getN s np).spanAt curLevel with
      | some curSpan, some nextSpan =>
        let nextIndex := curIndex + curSpan
        if nextIndex < actual then
          removeLoop fuel s actual np nextIndex curLevel
        else
          let step : Option (SkipList V) :=
            if nextIndex = actual then
              match (getN s np).linkAt curLevel with
              | none => none
              | some nl =>
                let sA := updN s curPtr (fun nd => nd.setLink curLevel nl)
                some (if nextSpan = 0 then
                    updN sA curPtr (fun nd => nd.setSpan curLevel 0)
                  else
                    updN sA curPtr (fun nd => nd.setSpan curLevel (curSpan + nextSpan - 1)))
            else
              some (updN s curPtr (fun nd => nd.setSpan curLevel (curSpan - 1)))
          match step with
          | none => none
          | some s1 =>
            if curLevel = 0 then some (s1, curPtr)
            else removeLoop fuel s1 actual curPtr curIndex (curLevel - 1)
      | _, _ => none

/-- `SkipList::remove(index)`; returns the removed value and the new state,
`none` for the out-of-bounds panic (`index > length` guard, or the
`unreachable!()` hit when `index == length`). -/
def SkipList.remove {V : Type} (s : SkipList V) (index : Nat) : Option (V × SkipList V) :=
  if index > s.length then none
  else
    let fuel := (s.arena.length + 2) * ((getN s 0).links.length + 2)
    match removeLoop fuel s (index + 1) 0 0 ((getN s 0).links.length - 1) with
    | none => none
    | some (s1, prePtr) =>
      match (getN s1 prePtr).next with
      | none => none
      | some theId =>
        let theNode := getN s1 theId
        let s2 := updN s1 prePtr (fun nd => { nd with next := none })
        let s3 := updN s2 theId (fun nd => { nd with next := none })
        let s4 := match theNode.next with
          | none => s3
          | some nxt =>
            let sA := updN s3 nxt (fun nd => { nd with prev := some prePtr })
            updN sA prePtr (fun nd => { nd with next := some nxt })
        match theNode.value with
        | none => none
        | some v => some (v, { s4 with length := s4.length - 1 })

/-- The span-arithmetic descent of `SkipList::_get_ptr`
(`src/skiplist.rs:380-391`). -/
def getPtrLoop {V : Type} (fuel : Nat) (s : SkipList V)
    (actual curPtr curIndex curLevel : Nat) : Option Nat :=
  match fuel with
  | 0 => none
  | fuel + 1 =>
    if actual = curIndex then some curPtr
    else
      match (getN s curPtr).spanAt curLevel with
      | none => none
      | some sp =>
        let nextIndex := curIndex + sp
        if nextIndex ≤ actual ∧ curIndex ≠ nextIndex then
          match (getN s curPtr).linkAt curLevel with
          | some (some np) => getPtrLoop fuel s actual np nextIndex curLevel
          | _ => none
        else
          if curLevel = 0 then none
          else getPtrLoop fuel s actual curPtr curIndex (curLevel - 1)

/-- `SkipList::_get_ptr(index)`: `none` models its panic (and the underflow
of `cur_level` on a malformed state). -/
def SkipList.getPtr {V : Type} (s : SkipList V) (index : Nat) : Option Nat :=
  if s.length ≤ index then none
  else getPtrLoop ((s.arena.length + 2) * ((getN s 0).links.length + 2)) s
    (index + 1) 0 0 ((getN s 0).links.length - 1)

/-- `SkipList::get(index)`. -/
def SkipList.get {V : Type} (s : SkipList V) (index : Nat) : Option V :=
  if s.length ≤ index then none
  else match s.getPtr index with
    | none => none
    | some id => (getN s id).value

/-- `SkipList::front()`. -/
def SkipList.front {V : Type} (s : SkipList V) : Option V :=
  match (getN s 0).next with
  | none => none
  | some id => (getN s id).value

/-- `SkipList::back()`. -/
def SkipList.back {V : Type} (s : SkipList V) : Option V :=
  if s.length = 0 then none else s.get (s.length - 1)

/-- `SkipList::pop_front()`: the outer `Option` models a panic inside
`remove`, the inner one is the Rust return value. -/
def SkipList.popFront {V : Type} (s : SkipList V) : Option (Option V × SkipList V) :=
  if s.length = 0 then some (none, s)
  else (s.remove 0).map (fun p => (some p.1, p.2))

/-- `SkipList::pop_back()`. -/
def SkipList.popBack {V : Type} (s : SkipList V) : Option (Option V × SkipList V) :=
  if s.length = 0 then some (none, s)
  else (s.remove (s.length - 1)).map (fun p => (some p.1, p.2))

/-- Follow the `next` chain collecting node ids (used to model `Iter`). -/
def chainIds {V : Type} (s : SkipList V) : Nat → Option Nat → List Nat
  | 0, _ => []
  | _, none => []
  | fuel + 1, some id => id :: chainIds s fuel (getN s id).next

/-- The ids of the elements in level-0 order, starting from `head.next`. -/
def SkipList.iterIds {V : Type} (s : SkipList V) : List Nat :=
  chainIds s (s.arena.length + 1) (getN s 0).next

/-- The value sequence produced by `SkipList::iter()` (`Iter::next` unwraps
each node's value; on well-formed states every chain node has one). -/
def SkipList.toList {V : Type} (s : SkipList V) : List V :=
  s.iterIds.filterMap (fun id => (getN s id).value)

/-- Advance `i` single level-0 steps from a starting pointer. -/
def stepNext {V : Type} (s : SkipList V) : Nat → Option Nat → Option Nat
  | 0, cur => cur
  | _ + 1, none => none
  | i + 1, some id => stepNext s i (getN s id).next

/-- Sequential access: start at `front()` and advance `i` steps along the
level-0 forward chain, then read the value there. -/
def SkipList.seqGet {V : Type} (s : SkipList V) (i : Nat) : Option V :=
  match stepNext s i (getN s 0).next with
  | none => none
  | some id => (getN s id).value

/-- The walk of `ReverseIter::next` (`src/skiplist.rs:1191-1206`): yield the
current value, stop once `prev` is the valueless head sentinel. -/
def revWalk {V : Type} (s : SkipList V) : Nat → Option Nat → List V
  | 0, _ => []
  | _, none => []
  | fuel + 1, some id =>
    match (getN s id).value with
    | none => []
    | some v =>
      match (getN s id).prev with
      | none => [v]
      | some pid =>
        match (getN s pid).value with
        | none => [v]
        | some _ => v :: revWalk s fuel (some pid)

/-- The value sequence produced by `SkipList::reverse_iter()`. -/
def SkipList.reverseIterList {V : Type} (s : SkipList V) : List V :=
  if s.length = 0 then []
  else match s.getPtr (s.length - 1) with
    | none => []
    | some id => revWalk s (s.arena.length + 1) (some id)

/-- `std::ops::Bound<usize>` as it reaches `_normalize_range`. -/
inductive Bnd where
  | unbounded : Bnd
  | included : Nat → Bnd
  | excluded : Nat → Bnd
deriving DecidableEq

/-- `SkipList::_normalize_range`: clamp the right end to `length`, panic
(`none`) when `left > right` afterwards. -/
def SkipList.normalizeRange {V : Type} (s : SkipList V) (lo hi : Bnd) : Option (Nat × Nat) :=
  let left := match lo with
    | .unbounded => 0
    | .included i => i
    | .excluded i => i + 1
  let right := match hi with
    | .unbounded => s.length
    | .included i => i + 1
    | .excluded i => i
  let right := if right > s.length then s.length else right
  if left > right then none else some (left, right)

/-- The `Range` iterator state (`current`, `left`). -/
structure RangeIt where
  current : Option Nat
  left : Nat
deriving DecidableEq

/-- `SkipList::range(bounds)`: note the early empty-iterator return when the
list is empty, before any normalization. -/
def SkipList.range {V : Type} (s : SkipList V) (lo hi : Bnd) : Option RangeIt :=
  if s.length = 0 then some ⟨none, 0⟩
  else match s.normalizeRange lo hi with
    | none => none
    | some (left, right) =>
      if left = right then some ⟨none, 0⟩
      else match s.getPtr left with
        | none => none
        | some id => some ⟨some id, right - left⟩

/-- Run `Range::next` to exhaustion, collecting the yielded values. -/
def rangeToList {V : Type} (s : SkipList V) : Nat → RangeIt → List V
  | 0, _ => []
  | fuel + 1, it =>
    match it.current with
    | none => []
    | some id =>
      let left := it.left - 1
      let nxt : Option Nat := if left > 0 then (getN s id).next else none
      match (getN s id).value with
      | none => []
      | some v => v :: rangeToList s fuel ⟨nxt, left⟩

/-- The `ReverseRange` iterator state. -/
structure RevRangeIt where
  current : Option Nat
  left : Nat
deriving DecidableEq

/-- `SkipList::reverse_range(bounds)`. -/
def SkipList.reverseRange {V : Type} (s : SkipList V) (lo hi : Bnd) : Option RevRangeIt :=
  if s.length = 0 then some ⟨none, 0⟩
  else match s.normalizeRange lo hi with
    | none => none
    | some (left, right) =>
      if left = right then some ⟨none, 0⟩
      else match s.getPtr (right - 1) with
        | none => none
        | some id => some ⟨some id, right - left⟩

/-- Run `ReverseRange::next` to exhaustion, collecting the yielded values. -/
def revRangeToList {V : Type} (s : SkipList V) : Nat → RevRangeIt → List V
  | 0, _ => []
  | fuel + 1, it =>
    match it.current with
    | none => []
    | some id =>
      let left := it.left - 1
      match (getN s id).value with
      | none => []
      | some v =>
        match (getN s id).prev with
        | none => [v]
        | some pid =>
          match (getN s pid).value with
          | none => [v]
          | some _ =>
            v :: revRangeToList s fuel ⟨if left = 0 then none else some pid, left⟩

/-- The prev-collecting descent of `SkipList::remove_range`
(`src/skiplist.rs:300-324`): record the node from which each level was left,
advancing while the next position is still short of `left`. -/
def rrWalk {V : Type} (fuel : Nat) (s : SkipList V) (left : Nat)
    (curPtr curIndex curLevel : Nat)
    (prevPtrs : List (Option Nat)) (prevIdxs : List Nat) :
    Option (List (Option Nat) × List Nat) :=
  match fuel with
  | 0 => none
  | fuel + 1 =>
    let prevPtrs := prevPtrs.set curLevel (some curPtr)
    let prevIdxs := prevIdxs.set curLevel curIndex
    match (getN s curPtr).linkAt curLevel with
    | none => none
    | some none =>
      if curLevel = 0 then some (prevPtrs, prevIdxs)
      else rrWalk fuel s left curPtr curIndex (curLevel - 1) prevPtrs prevIdxs
    | some (some np) =>
      match (getN s curPtr).spanAt curLevel with
      | none => none
      | some curLen =>
        if curIndex + curLen < left then
          rrWalk fuel s left np (curIndex + curLen) curLevel prevPtrs prevIdxs
        else if curLevel = 0 then some (prevPtrs, prevIdxs)
        else rrWalk fuel s left curPtr curIndex (curLevel - 1) prevPtrs prevIdxs

/-- The inner `while` of `remove_range`'s per-level fix-up
(`src/skiplist.rs:330-334`): scan forward until the position reaches `right`
or the chain ends. -/
def rrScan {V : Type} (s : SkipList V) (i right : Nat) :
    Nat → Nat → Option Nat → Option (Nat × Option Nat)
  | 0, _, _ => none
  | fuel + 1, nextIndex, nextPtr =>
    match nextPtr with
    | none => some (nextIndex, none)
    | some id =>
      if nextIndex < right then
        match (getN s id).spanAt i, (getN s id).linkAt i with
        | some sp, some l => rrScan s i right fuel (nextIndex + sp) l
        | _, _ => none
      else some (nextIndex, some id)

/-- The `for i in 0..total_level` fix-up loop of `remove_range`
(`src/skiplist.rs:326-344`). -/
def rrFixLevels {V : Type} (right left : Nat)
    (prevPtrs : List (Option Nat)) (prevIdxs : List Nat) :
    Nat → Nat → SkipList V → Option (SkipList V)
  | 0, _, s => some s
  | cnt + 1, i, s =>
    match prevPtrs.get? i, prevIdxs.get? i with
    | some (some pid), some pidx =>
      match (getN s pid).spanAt i, (getN s pid).linkAt i with
      | some plen, some plink =>
        match rrScan s i right (s.arena.length + 2) (pidx + plen) plink with
        | none => none
        | some (nextIndex, nextPtr) =>
          match nextPtr with
          | none =>
            let s1 := updN s pid (fun nd => (nd.setLink i none).setSpan i 0)
            rrFixLevels right left prevPtrs prevIdxs cnt (i + 1) s1
          | some tid =>
            let s1 := updN s pid (fun nd =>
              (nd.setLink i (some tid)).setSpan i ((nextIndex - pidx) - (right - left)))
            rrFixLevels right left prevPtrs prevIdxs cnt (i + 1) s1
      | _, _ => none
    | _, _ => none

/-- The `for _ in left..right { next_node = next_node.and_then(|mut n|
n.next.take()) }` splice of `remove_range` (`src/skiplist.rs:348-352`). -/
def rrDrop {V : Type} : Nat → SkipList V → Option Nat → SkipList V × Option Nat
  | 0, s, cur => (s, cur)
  | cnt + 1, s, cur =>
    match cur with
    | none => rrDrop cnt s none
    | some id =>
      let nxt := (getN s id).next
      rrDrop cnt (updN s id (fun nd => { nd with next := none })) nxt

/-- `SkipList::remove_range(range)`; returns the removed count and the new
state, `none` for the `Invalid range` panic. -/
def SkipList.removeRange {V : Type} (s : SkipList V) (lo hi : Bnd) :
    Option (Nat × SkipList V) :=
  match s.normalizeRange lo hi with
  | none => none
  | some (left0, right0) =>
    if left0 = right0 then some (0, s)
    else
      let left := left0 + 1
      let right := right0 + 1
      let totalLevel := (getN s 0).links.length
      let fuel := (s.arena.length + 2) * (totalLevel + 2)
      match rrWalk fuel s left 0 0 (totalLevel - 1)
          (List.replicate totalLevel none) (List.replicate totalLevel 0) with
      | none => none
      | some (prevPtrs, prevIdxs) =>
        match rrFixLevels right left prevPtrs prevIdxs totalLevel 0 s with
        | none => none
        | some s1 =>
          match prevPtrs.get? 0 with
          | some (some p0) =>
            let first := (getN s1 p0).next
            let s2 := updN s1 p0 (fun nd => { nd with next := none })
            let dropped := rrDrop (right - left) s2 first
            let s3 := dropped.1
            let nxt := dropped.2
            let s4 := updN s3 p0 (fun nd => { nd with next := nxt })
            let s5 := match nxt with
              | none => s4
              | some nid => updN s4 nid (fun nd => { nd with prev := some p0 })
            some (right - left, { s5 with length := s5.length - (right - left) })
          | _ => none

/-- `OrderedSkipList<V>` of `src/ordered_skiplist.rs`: the inner indexed
skip list plus the `duplicatable` flag fixed at construction.  The `Ord`
instance of `V` is modelled by an explicit comparator passed to each
value-directed operation. -/
structure OrderedSkipList (V : Type) where
  sk : SkipList V
  duplicatable : Bool
deriving DecidableEq

/-- `OrderedSkipList::new()` (non-duplicatable). -/
def OrderedSkipList.new (V : Type) : OrderedSkipList V :=
  ⟨SkipList.new V, false⟩

/-- `OrderedSkipList::new_duplicatable()`. -/
def OrderedSkipList.newDuplicatable (V : Type) : OrderedSkipList V :=
  ⟨SkipList.new V, true⟩

/-- The prev-collecting, value-directed descent of
`OrderedSkipList::insert` (`src/ordered_skiplist.rs:518-556`).  Note the
tie-break: on `Equal` the walk records `has_equal` and descends without
advancing. -/
def oiWalk {V : Type} (cmp : V → V → Ordering) (fuel : Nat) (s : SkipList V) (value : V)
    (curPtr curIndex curLevel : Nat) (hasEqual : Bool)
    (prevPtrs : List (Option Nat)) (prevIdxs : List Nat) :
    Option (Nat × Nat × Bool × List (Option Nat) × List Nat) :=
  match fuel with
  | 0 => none
  | fuel + 1 =>
    let prevPtrs := prevPtrs.set curLevel (some curPtr)
    let prevIdxs := prevIdxs.set curLevel curIndex
    match (getN s curPtr).linkAt curLevel, (getN s curPtr).spanAt curLevel with
    | some nextPtr, some curLen =>
      match nextPtr with
      | none =>
        if curLevel = 0 then some (curPtr, curIndex, hasEqual, prevPtrs, prevIdxs)
        else oiWalk cmp fuel s value curPtr curIndex (curLevel - 1) hasEqual prevPtrs prevIdxs
      | some np =>
        match (getN s np).value with
        | none => none
        | some nv =>
          match cmp nv value with
          | .lt => oiWalk cmp fuel s value np (curIndex + curLen) curLevel hasEqual prevPtrs prevIdxs
          | .eq =>
            if curLevel = 0 then some (curPtr, curIndex, true, prevPtrs, prevIdxs)
            else oiWalk cmp fuel s value curPtr curIndex (curLevel - 1) true prevPtrs prevIdxs
          | .gt =>
            if curLevel = 0 then some (curPtr, curIndex, hasEqual, prevPtrs, prevIdxs)
            else oiWalk cmp fuel s value curPtr curIndex (curLevel - 1) hasEqual prevPtrs prevIdxs
    | _, _ => none

/-- The `// modify links` loop of `OrderedSkipList::insert`
(`src/ordered_skiplist.rs:573-596`). -/
def oiFix {V : Type} (level nodeIndex nodeId : Nat)
    (prevPtrs : List (Option Nat)) (prevIdxs : List Nat) :
    Nat → Nat → SkipList V → Option (SkipList V)
  | 0, _, s => some s
  | cnt + 1, i, s =>
    match prevPtrs.get? i, prevIdxs.get? i with
    | some (some pid), some pidx =>
      match (getN s pid).linkAt i with
      | none => none
      | some plink =>
        match plink with
        | none =>
          if i > level then
            oiFix level nodeIndex nodeId prevPtrs prevIdxs cnt (i + 1) s
          else
            let s1 := updN s pid (fun nd =>
              (nd.setLink i (some nodeId)).setSpan i (nodeIndex - pidx))
            oiFix level nodeIndex nodeId prevPtrs prevIdxs cnt (i + 1) s1
        | some tgt =>
          match (getN s pid).spanAt i with
          | none => none
          | some plen =>
            if i > level then
              let s1 := updN s pid (fun nd => nd.setSpan i (plen + 1))
              oiFix level nodeIndex nodeId prevPtrs prevIdxs cnt (i + 1) s1
            else
              let sA := updN s nodeId (fun nd =>
                (nd.setLink i (some tgt)).setSpan i (pidx + plen + 1 - nodeIndex))
              let sB := updN sA pid (fun nd =>
                (nd.setLink i (some nodeId)).setSpan i (nodeIndex - pidx))
              oiFix level nodeIndex nodeId prevPtrs prevIdxs cnt (i + 1) sB
    | _, _ => none

/-- `OrderedSkipList::insert(value)`; the drawn level is explicit.  Returns
the replaced value (for a non-duplicatable list hitting an equal element)
or `none`, together with the new state.  The node of the source is created
up front but neither read nor linked before the replace-early-return, so
this embedding allocates it into the arena at its first use. -/
def OrderedSkipList.insert {V : Type} (cmp : V → V → Ordering)
    (o : OrderedSkipList V) (value : V) (level : Nat) :
    Option (Option V × OrderedSkipList V) :=
  let sk0 := growHead o.sk level
  let totalLevel := (getN sk0 0).links.length
  let fuel := (sk0.arena.length + 2) * (totalLevel + 2)
  match oiWalk cmp fuel sk0 value 0 0 (totalLevel - 1) false
      (List.replicate totalLevel none) (List.replicate totalLevel 0) with
  | none => none
  | some (curPtr, _curIndex, hasEqual, prevPtrs, prevIdxs) =>
    if hasEqual && !o.duplicatable then
      match (getN sk0 curPtr).next with
      | none => some (none, { o with sk := sk0 })
      | some nid =>
        let old := (getN sk0 nid).value
        let sk1 := updN sk0 nid (fun nd => { nd with value := some value })
        some (old, { o with sk := sk1 })
    else
      let nodeId := sk0.arena.length
      let sk1 : SkipList V :=
        { sk0 with arena := sk0.arena ++ [Node.new (some value) (level + 1)] }
      let nodeIndex := prevIdxs.getD 0 0 + 1
      match oiFix level nodeIndex nodeId prevPtrs prevIdxs totalLevel 0 sk1 with
      | none => none
      | some sk2 =>
        let oldNext := (getN sk2 curPtr).next
        let sk3 := match oldNext with
          | none => sk2
          | some nx => updN sk2 nx (fun nd => { nd with prev := some nodeId })
        let sk4 := updN sk3 nodeId (fun nd =>
          { nd with next := oldNext, prev := some curPtr })
        let sk5 := updN sk4 curPtr (fun nd => { nd with next := some nodeId })
        some (none, { o with sk := { sk5 with length := sk5.length + 1 } })

/-- The descent of `OrderedSkipList::get_first`
(`src/ordered_skiplist.rs:432-466`). -/
def getFirstLoop {V : Type} (cmp : V → V → Ordering) (fuel : Nat) (s : SkipList V) (q : V)
    (curPtr curIndex curLevel : Nat) (hasEqual : Bool) : Option (Nat × Nat × Bool) :=
  match fuel with
  | 0 => none
  | fuel + 1 =>
    match (getN s curPtr).linkAt curLevel with
    | none => none
    | some none =>
      if curLevel = 0 then some (curPtr, curIndex, hasEqual)
      else getFirstLoop cmp fuel s q curPtr curIndex (curLevel - 1) hasEqual
    | some (some np) =>
      match (getN s np).value with
      | none => none
      | some nv =>
        match cmp nv q with
        | .lt =>
          match (getN s curPtr).spanAt curLevel with
          | none => none
          | some sp => getFirstLoop cmp fuel s q np (curIndex + sp) curLevel hasEqual
        | .eq =>
          if curLevel = 0 then some (curPtr, curIndex, true)
          else getFirstLoop cmp fuel s q curPtr curIndex (curLevel - 1) true
        | .gt =>
          if curLevel = 0 then some (curPtr, curIndex, hasEqual)
          else getFirstLoop cmp fuel s q curPtr curIndex (curLevel - 1) hasEqual

/-- `OrderedSkipList::get_first(q)`: the outer `Option` models a panic,
the inner one the Rust return value `(index, value)`. -/
def OrderedSkipList.getFirst {V : Type} (cmp : V → V → Ordering)
    (o : OrderedSkipList V) (q : V) : Option (Option (Nat × V)) :=
  if o.sk.length = 0 then some none
  else
    let sk := o.sk
    let totalLevel := (getN sk 0).links.length
    match getFirstLoop cmp ((sk.arena.length + 2) * (totalLevel + 2)) sk q
        0 0 (totalLevel - 1) false with
    | none => none
    | some (curPtr, curIndex, hasEqual) =>
      if !hasEqual then some none
      else
        match (getN sk curPtr).next with
        | none => some none
        | some nid =>
          match (getN sk nid).value with
          | none => some none
          | some v => some (some (curIndex, v))

/-- `SkipSet::contains(q)` = `get_first(q).is_some()`
(`src/skipset.rs:84-90` through `get`). -/
def setContains {V : Type} (cmp : V → V → Ordering)
    (o : OrderedSkipList V) (q : V) : Option Bool :=
  (o.getFirst cmp q).map Option.isSome

/-- The merge loop of `DifferenceTraverse::next`
(`src/skipset.rs:548-572`), run to exhaustion over the two ascending value
sequences: equal consumes both, greater advances the right side, less emits
the left element; a drained right side drains the left. -/
def dtGo {V : Type} (cmp : V → V → Ordering) : Nat → List V → List V → List V
  | 0, _, _ => []
  | _ + 1, [], _ => []
  | fuel + 1, l :: ls, [] => l :: dtGo cmp fuel ls []
  | fuel + 1, l :: ls, r :: rs =>
    match cmp l r with
    | .eq => dtGo cmp fuel ls rs
    | .gt => dtGo cmp fuel (l :: ls) rs
    | .lt => l :: dtGo cmp fuel ls (r :: rs)

def dtList {V : Type} (cmp : V → V → Ordering) (l1 l2 : List V) : List V :=
  dtGo cmp (l1.length + l2.length) l1 l2

/-- The probe loop of `DifferenceSearch::next` (`src/skipset.rs:584-597`),
run to exhaustion: emit each left element the right set does not contain.
A panic inside `contains` propagates as `none`. -/
def dsList {V : Type} (contains : V → Option Bool) : List V → Option (List V)
  | [] => some []
  | v :: rest =>
    match contains v with
    | none => none
    | some true => dsList contains rest
    | some false => (dsList contains rest).map (fun tl => v :: tl)

/-- `SkipSet::difference_traverse` as a value sequence: both sides iterate
ascending via `iter()`. -/
def differenceTraverseList {V : Type} (cmp : V → V → Ordering)
    (s1 s2 : OrderedSkipList V) : List V :=
  dtList cmp s1.sk.toList s2.sk.toList

/-- `SkipSet::difference_search` as a value sequence: iterate the left set,
probing membership in the right one by its own index-descent search. -/
def differenceSearchList {V : Type} (cmp : V → V → Ordering)
    (s1 s2 : OrderedSkipList V) : Option (List V) :=
  dsList (setContains cmp s2) s1.sk.toList

/-- The threshold-squaring loop of `LevelGenerator::choose`
(`src/level_generator.rs:50-53`), with the uniform sample and the
probability as exact rationals: while `sample < p && level < limit`,
increment the level and square the threshold.  The argument counts the
levels still allowed below `cur_level_limit`. -/
def chooseGo (sample : ℚ) : ℚ → Nat → Nat
  | _, 0 => 0
  | p, r + 1 => if sample < p then chooseGo sample (p * p) r + 1 else 0

/-- `LevelGenerator::choose`'s loop from level 0 with threshold `p` and
`cur_level_limit = limit`. -/
def chooseLevel (sample p : ℚ) (limit : Nat) : Nat :=
  chooseGo sample p limit

/-! ## The abstract view

A well-formed skip list is determined by the sequence `xs` of its elements
paired with their drawn levels, the head height `hh`, and the arena ids
`ids` of the elements in level-0 order.  `entryHeight`, `heightAt` and
`nextAbove` describe the canonical link structure: at level `l`, a node at
position `k` links to the next position whose node has more than `l`
levels. -/

/-- Number of levels of the element at 1-based position `q` (0 off the
ends; the head sentinel at position 0 is handled by `heightAt`). -/
def entryHeight {V : Type} (xs : List (V × Nat)) : Nat → Nat
  | 0 => 0
  | q + 1 => ((xs.get? q).map (fun e => e.2 + 1)).getD 0

/-- Number of levels of the node at position `k` (`0` is the head). -/
def heightAt {V : Type} (hh : Nat) (xs : List (V × Nat)) (k : Nat) : Nat :=
  if k = 0 then hh else entryHeight xs k

/-- Scan positions `q, q+1, …` for the first one whose entry has more than
`l` levels. -/
def nextAboveGo {V : Type} (xs : List (V × Nat)) (l : Nat) : Nat → Nat → Option Nat
  | 0, _ => none
  | fuel + 1, q => if l < entryHeight xs q then some q else nextAboveGo xs l fuel (q + 1)

/-- The canonical level-`l` link target from position `k`: the first
position after `k` whose element has more than `l` levels. -/
def nextAbove {V : Type} (xs : List (V × Nat)) (l k : Nat) : Option Nat :=
  nextAboveGo xs l (xs.length - k) (k + 1)

/-- Arena id of the node at position `k` (the head sentinel is arena slot
0). -/
def fid (ids : List Nat) (k : Nat) : Nat :=
  (0 :: ids).getD k 0

/-- The canonical-form invariant tying a state to its abstract view: the
chain of `next`/`prev` pointers lists `ids` in order, every node carries its
value and exactly `level + 1` link slots, and each link slot at level `l`
holds the canonical target `nextAbove` together with its position
distance as the span. -/
structure Canonical {V : Type} (s : SkipList V) (hh : Nat) (ids : List Nat)
    (xs : List (V × Nat)) : Prop where
  len_eq : s.length = xs.length
  ids_len : ids.length = xs.length
  head_lt : 0 < s.arena.length
  ids_bounds : ∀ i ∈ ids, i < s.arena.length ∧ 0 < i
  ids_nodup : ids.Nodup
  head_value : (getN s 0).value = none
  head_links : (getN s 0).links.length = hh
  head_spans : (getN s 0).links_len.length = hh
  height_le : ∀ k < xs.length, entryHeight xs (k + 1) ≤ hh
  node_value : ∀ k < xs.length,
    (ids.get? k).bind (fun id => (getN s id).value) = (xs.get? k).map Prod.fst
  node_links : ∀ k < xs.length,
    (ids.get? k).map (fun id => (getN s id).links.length) =
      (xs.get? k).map (fun e => e.2 + 1)
  node_spans : ∀ k < xs.length,
    (ids.get? k).map (fun id => (getN s id).links_len.length) =
      (xs.get? k).map (fun e => e.2 + 1)
  nexts : ∀ k ≤ xs.length, (getN s (fid ids k)).next = ids.get? k
  prevs : ∀ k, 1 ≤ k → k ≤ xs.length →
    (getN s (fid ids k)).prev = some (fid ids (k - 1))
  links_ok : ∀ k ≤ xs.length, ∀ l < heightAt hh xs k,
    (getN s (fid ids k)).linkAt l = some ((nextAbove xs l k).map (fid ids)) ∧
    (getN s (fid ids k)).spanAt l =
      some (((nextAbove xs l k).map (fun q => q - k)).getD 0)

/-! ## Arena access lemmas -/

theorem getN_eq {V : Type} (s : SkipList V) (id : Nat) :
    getN s id = (s.arena.get? id).getD default := rfl

theorem arena_setN {V : Type} (s : SkipList V) (id : Nat) (nd : Node V) :
    (setN s id nd).arena.length = s.arena.length := by
  simp [setN]

theorem length_setN {V : Type} (s : SkipList V) (id : Nat) (nd : Node V) :
    (setN s id nd).length = s.length := rfl

theorem getN_setN_same {V : Type} (s : SkipList V) (id : Nat) (nd : Node V)
    (h : id < s.arena.length) : getN (setN s id nd) id = nd := by
  simp [getN_eq, setN, List.getElem?_set_eq_of_lt, h]

theorem getN_setN_ne {V : Type} (s : SkipList V) (id id' : Nat) (nd : Node V)
    (h : id ≠ id') : getN (setN s id nd) id' = getN s id' := by
  simp [getN_eq, setN, List.getElem?_set_ne, h]

theorem arena_updN {V : Type} (s : SkipList V) (id : Nat) (f : Node V → Node V) :
    (updN s id f).arena.length = s.arena.length := arena_setN ..

theorem length_updN {V : Type} (s : SkipList V) (id : Nat) (f : Node V → Node V) :
    (updN s id f).length = s.length := rfl

theorem getN_updN_same {V : Type} (s : SkipList V) (id : Nat) (f : Node V → Node V)
    (h : id < s.arena.length) : getN (updN s id f) id = f (getN s id) := by
  simp [updN, getN_setN_same _ _ _ h]

theorem getN_updN_ne {V : Type} (s : SkipList V) (id id' : Nat) (f : Node V → Node V)
    (h : id ≠ id') : getN (updN s id f) id' = getN s id' := by
  simp [updN, getN_setN_ne _ _ _ _ h]

@[simp] theorem value_setLink {V : Type} (nd : Node V) (l : Nat) (p : Option Nat) :
    (nd.setLink l p).value = nd.value := rfl

@[simp] theorem next_setLink {V : Type} (nd : Node V) (l : Nat) (p : Option Nat) :
    (nd.setLink l p).next = nd.next := rfl

@[simp] theorem prev_setLink {V : Type} (nd : Node V) (l : Nat) (p : Option Nat) :
    (nd.setLink l p).prev = nd.prev := rfl

@[simp] theorem links_len_setLink {V : Type} (nd : Node V) (l : Nat) (p : Option Nat) :
    (nd.setLink l p).links_len = nd.links_len := rfl

@[simp] theorem value_setSpan {V : Type} (nd : Node V) (l k : Nat) :
    (nd.setSpan l k).value = nd.value := rfl

@[simp] theorem next_setSpan {V : Type} (nd : Node V) (l k : Nat) :
    (nd.setSpan l k).next = nd.next := rfl

@[simp] theorem prev_setSpan {V : Type} (nd : Node V) (l k : Nat) :
    (nd.setSpan l k).prev = nd.prev := rfl

@[simp] theorem links_setSpan {V : Type} (nd : Node V) (l k : Nat) :
    (nd.setSpan l k).links = nd.links := rfl

@[simp] theorem links_length_setLink {V : Type} (nd : Node V) (l : Nat) (p : Option Nat) :
    (nd.setLink l p).links.length = nd.links.length := by
  simp [Node.setLink]

@[simp] theorem links_len_length_setSpan {V : Type} (nd : Node V) (l k : Nat) :
    (nd.setSpan l k).links_len.length = nd.links_len.length := by
  simp [Node.setSpan]

theorem linkAt_setLink_same {V : Type} (nd : Node V) (l : Nat) (p : Option Nat)
    (h : l < nd.links.length) : (nd.setLink l p).linkAt l = some p := by
  simp [Node.setLink, Node.linkAt, List.getElem?_set_eq_of_lt, h]

theorem linkAt_setLink_ne {V : Type} (nd : Node V) (l l' : Nat) (p : Option Nat)
    (h : l ≠ l') : (nd.setLink l p).linkAt l' = nd.linkAt l' := by
  simp [Node.setLink, Node.linkAt, List.getElem?_set_ne, h]

theorem spanAt_setSpan_same {V : Type} (nd : Node V) (l k : Nat)
    (h : l < nd.links_len.length) : (nd.setSpan l k).spanAt l = some k := by
  simp [Node.setSpan, Node.spanAt, List.getElem?_set_eq_of_lt, h]

theorem spanAt_setSpan_ne {V : Type} (nd : Node V) (l l' k : Nat)
    (h : l ≠ l') : (nd.setSpan l k).spanAt l' = nd.spanAt l' := by
  simp [Node.setSpan, Node.spanAt, List.getElem?_set_ne, h]

@[simp] theorem linkAt_setSpan {V : Type} (nd : Node V) (l l' k : Nat) :
    (nd.setSpan l k).linkAt l' = nd.linkAt l' := rfl

@[simp] theorem spanAt_setLink {V : Type} (nd : Node V) (l l' : Nat) (p : Option Nat) :
    (nd.setLink l p).spanAt l' = nd.spanAt l' := rfl

/-! ## `nextAbove` theory -/

theorem nextAboveGo_eq_some {V : Type} (xs : List (V × Nat)) (l : Nat) :
    ∀ fuel q0 q, nextAboveGo xs l fuel q0 = some q ↔
      q0 ≤ q ∧ q < q0 + fuel ∧ l < entryHeight xs q ∧
        ∀ r, q0 ≤ r → r < q → entryHeight xs r ≤ l := by
  intro fuel
  induction fuel with
  | zero => intro q0 q; simp [nextAboveGo]; omega
  | succ fuel ih =>
    intro q0 q
    simp only [nextAboveGo]
    by_cases h : l < entryHeight xs q0
    · simp only [if_pos h]
      constructor
      · rintro ⟨rfl⟩
        exact ⟨le_refl _, by omega, h, fun r h1 h2 => by omega⟩
      · rintro ⟨h1, h2, h3, h4⟩
        rcases Nat.eq_or_lt_of_le h1 with rfl | hlt
        · rfl
        · exact absurd h (by simpa using h4 q0 (le_refl _) hlt)
    · simp only [if_neg h, ih]
      constructor
      · rintro ⟨h1, h2, h3, h4⟩
        refine ⟨by omega, by omega, h3, fun r hr1 hr2 => ?_⟩
        rcases Nat.eq_or_lt_of_le hr1 with rfl | hr
        · omega
        · exact h4 r hr hr2
      · rintro ⟨h1, h2, h3, h4⟩
        have : q0 ≠ q := by rintro rfl; exact h h3
        exact ⟨by omega, by omega, h3, fun r hr1 hr2 => h4 r (by omega) hr2⟩

theorem entryHeight_pos_bound {V : Type} (xs : List (V × Nat)) (q : Nat)
    (h : 0 < entryHeight xs q) : 1 ≤ q ∧ q ≤ xs.length := by
  match q with
  | 0 => simp [entryHeight] at h
  | q + 1 =>
    simp only [entryHeight] at h
    rcases hq : xs.get? q with _ | e
    · rw [hq] at h; simp at h
    · obtain ⟨hlt, -⟩ := List.get?_eq_some.mp hq
      omega

theorem nextAbove_some_iff {V : Type} (xs : List (V × Nat)) (l k q : Nat) :
    nextAbove xs l k = some q ↔
      k < q ∧ l < entryHeight xs q ∧ ∀ r, k < r → r < q → entryHeight xs r ≤ l := by
  rw [nextAbove, nextAboveGo_eq_some]
  constructor
  · rintro ⟨h1, _h2, h3, h4⟩
    exact ⟨by omega, h3, fun r hr1 hr2 => h4 r (by omega) hr2⟩
  · rintro ⟨h1, h3, h4⟩
    have hq := entryHeight_pos_bound xs q (by omega)
    exact ⟨by omega, by omega, h3, fun r hr1 hr2 => h4 r (by omega) hr2⟩

theorem nextAbove_none_iff {V : Type} (xs : List (V × Nat)) (l k : Nat) :
    nextAbove xs l k = none ↔ ∀ q, k < q → entryHeight xs q ≤ l := by
  constructor
  · intro h q hq
    by_contra hlt
    push_neg at hlt
    have hq2 := entryHeight_pos_bound xs q (by omega)
    -- the scan would have found some position; contradiction
    rcases hna : nextAbove xs l k with _ | q'
    · -- show the scan cannot be `none` when a candidate exists
      exfalso
      -- find the least candidate by strong induction: directly show the go
      -- function returns `some` when a candidate is within range
      have : ∀ fuel q0, q0 ≤ q → q < q0 + fuel →
          (∀ r, q0 ≤ r → r < q → True) → nextAboveGo xs l fuel q0 ≠ none := by
        intro fuel
        induction fuel with
        | zero => intro q0 h1 h2 _; omega
        | succ fuel ih =>
          intro q0 h1 h2 _
          simp only [nextAboveGo]
          by_cases hc : l < entryHeight xs q0
          · simp [hc]
          · simp only [if_neg hc]
            have : q0 ≠ q := by rintro rfl; exact hc hlt
            exact ih (q0 + 1) (by omega) (by omega) (fun _ _ _ => trivial)
      exact this (xs.length - k) (k + 1) (by omega) (by omega) (fun _ _ _ => trivial)
        (by rw [← nextAbove]; exact hna)
    · rw [hna] at h; cases h
  · intro h
    rcases hna : nextAbove xs l k with _ | q'
    · rfl
    · have := (nextAbove_some_iff xs l k q').mp hna
      have := h q' this.1
      omega

theorem nextAbove_pos_le {V : Type} {xs : List (V × Nat)} {l k q : Nat}
    (h : nextAbove xs l k = some q) : k < q ∧ q ≤ xs.length := by
  have h' := (nextAbove_some_iff xs l k q).mp h
  exact ⟨h'.1, (entryHeight_pos_bound xs q (by omega)).2⟩

/-- At level 0 every element counts, so the canonical link from `k` goes to
`k + 1` whenever a position `k + 1 ≤ n` exists. -/
theorem nextAbove_zero {V : Type} (xs : List (V × Nat)) (k : Nat)
    (h : k < xs.length) : nextAbove xs 0 k = some (k + 1) := by
  rw [nextAbove_some_iff]
  refine ⟨by omega, ?_, fun r h1 h2 => by omega⟩
  simp only [entryHeight]
  rcases hq : xs.get? k with _ | e
  · rw [List.get?_eq_none] at hq; omega
  · simp [hq]

theorem nextAbove_zero_last {V : Type} (xs : List (V × Nat)) :
    nextAbove xs 0 xs.length = none := by
  rw [nextAbove_none_iff]
  intro q hq
  rcases Nat.eq_zero_or_pos (entryHeight xs q) with h | h
  · omega
  · have := entryHeight_pos_bound xs q h; omega

/-! ## Consequences of `Canonical` -/

theorem fid_zero (ids : List Nat) : fid ids 0 = 0 := rfl

theorem fid_succ (ids : List Nat) (k : Nat) : fid ids (k + 1) = ids.getD k 0 := rfl

theorem get?_eq_fid {V : Type} {s : SkipList V} {hh : Nat} {ids : List Nat}
    {xs : List (V × Nat)} (C : Canonical s hh ids xs) {k : Nat} (h : k < xs.length) :
    ids.get? k = some (fid ids (k + 1)) := by
  rw [fid_succ]
  have hk : k < ids.length := by rw [C.ids_len]; exact h
  rw [List.getD_eq_getElem?_getD, List.get?_eq_getElem?]
  rcases hx : ids[k]? with _ | v
  · rw [List.getElem?_eq_none_iff] at hx; omega
  · simp [hx]

theorem Canonical.fid_mem {V : Type} {s : SkipList V} {hh : Nat} {ids : List Nat}
    {xs : List (V × Nat)} (C : Canonical s hh ids xs) {k : Nat}
    (h1 : 1 ≤ k) (h2 : k ≤ xs.length) : fid ids k ∈ ids := by
  obtain ⟨k, rfl⟩ := Nat.exists_eq_add_of_le h1
  have hfe : (1 : Nat) + k = k + 1 := by omega
  rw [hfe]
  exact List.get?_mem (get?_eq_fid C (k := k) (by omega))

theorem Canonical.fid_lt {V : Type} {s : SkipList V} {hh : Nat} {ids : List Nat}
    {xs : List (V × Nat)} (C : Canonical s hh ids xs) {k : Nat}
    (h : k ≤ xs.length) : fid ids k < s.arena.length := by
  rcases Nat.eq_zero_or_pos k with rfl | hk
  · exact C.head_lt
  · exact (C.ids_bounds _ (C.fid_mem hk h)).1

theorem Canonical.fid_pos {V : Type} {s : SkipList V} {hh : Nat} {ids : List Nat}
    {xs : List (V × Nat)} (C : Canonical s hh ids xs) {k : Nat}
    (h1 : 1 ≤ k) (h2 : k ≤ xs.length) : 0 < fid ids k :=
  (C.ids_bounds _ (C.fid_mem h1 h2)).2

theorem Canonical.cons_nodup {V : Type} {s : SkipList V} {hh : Nat} {ids : List Nat}
    {xs : List (V × Nat)} (C : Canonical s hh ids xs) : (0 :: ids).Nodup := by
  refine List.nodup_cons.mpr ⟨fun h => ?_, C.ids_nodup⟩
  have := (C.ids_bounds 0 h).2
  omega

theorem Canonical.fid_inj {V : Type} {s : SkipList V} {hh : Nat} {ids : List Nat}
    {xs : List (V × Nat)} (C : Canonical s hh ids xs) {k j : Nat}
    (h : k ≤ xs.length) (h' : j ≤ xs.length) (he : fid ids k = fid ids j) :
    k = j := by
  have hlen : (0 :: ids).length = xs.length + 1 := by simp [C.ids_len]
  have hk : k < (0 :: ids).length := by omega
  have hj : j < (0 :: ids).length := by omega
  have e1 : fid ids k = (0 :: ids).get ⟨k, hk⟩ := by
    simp [fid, List.getD_eq_getElem?_getD, List.getElem?_eq_getElem hk,
      List.get_eq_getElem]
  have e2 : fid ids j = (0 :: ids).get ⟨j, hj⟩ := by
    simp [fid, List.getD_eq_getElem?_getD, List.getElem?_eq_getElem hj,
      List.get_eq_getElem]
  have := C.cons_nodup.get_inj_iff.mp (e1 ▸ e2 ▸ he)
  exact congrArg Fin.val this

theorem Canonical.n_lt_arena {V : Type} {s : SkipList V} {hh : Nat} {ids : List Nat}
    {xs : List (V × Nat)} (C : Canonical s hh ids xs) :
    xs.length < s.arena.length := by
  have hN : (0 :: ids).toFinset.card = (0 :: ids).length :=
    List.toFinset_card_of_nodup C.cons_nodup
  have hsub : (0 :: ids).toFinset ⊆ Finset.range s.arena.length := by
    intro x hx
    rw [List.mem_toFinset, List.mem_cons] at hx
    rw [Finset.mem_range]
    rcases hx with rfl | hx
    · exact C.head_lt
    · exact (C.ids_bounds _ hx).1
  have := Finset.card_le_card hsub
  rw [hN, Finset.card_range] at this
  simp only [List.length_cons, C.ids_len] at this
  omega

theorem Canonical.heightAt_le_hh {V : Type} {s : SkipList V} {hh : Nat} {ids : List Nat}
    {xs : List (V × Nat)} (C : Canonical s hh ids xs) {k : Nat}
    (h : k ≤ xs.length) : heightAt hh xs k ≤ hh := by
  rcases Nat.eq_zero_or_pos k with rfl | hk
  · simp [heightAt]
  · have : k - 1 < xs.length := by omega
    have := C.height_le (k - 1) this
    simp only [heightAt, Nat.pos_iff_ne_zero.mp hk, if_neg (Nat.pos_iff_ne_zero.mp hk)]
    have hke : k - 1 + 1 = k := by omega
    rw [hke] at this
    exact this

theorem Canonical.heightAt_pos {V : Type} {s : SkipList V} {hh : Nat} {ids : List Nat}
    {xs : List (V × Nat)} (C : Canonical s hh ids xs) {k : Nat}
    (h1 : 1 ≤ k) (h2 : k ≤ xs.length) : 0 < heightAt hh xs k := by
  have hne : k ≠ 0 := by omega
  simp only [heightAt, if_neg hne]
  obtain ⟨k, rfl⟩ := Nat.exists_eq_add_of_le h1
  simp only [entryHeight, Nat.add_comm 1 k]
  rcases hx : xs.get? k with _ | e
  · rw [List.get?_eq_none] at hx; omega
  · simp [hx]

theorem Canonical.hh_pos {V : Type} {s : SkipList V} {hh : Nat} {ids : List Nat}
    {xs : List (V × Nat)} (C : Canonical s hh ids xs) (h : 0 < xs.length) :
    0 < hh := by
  have h1 := C.heightAt_pos (k := 1) (by omega) (by omega)
  have h2 := C.heightAt_le_hh (k := 1) (by omega)
  omega

theorem Canonical.links_length_at {V : Type} {s : SkipList V} {hh : Nat} {ids : List Nat}
    {xs : List (V × Nat)} (C : Canonical s hh ids xs) {k : Nat} (h : k ≤ xs.length) :
    (getN s (fid ids k)).links.length = heightAt hh xs k := by
  rcases Nat.eq_zero_or_pos k with rfl | hk
  · simpa [heightAt] using C.head_links
  · obtain ⟨k, rfl⟩ := Nat.exists_eq_add_of_le hk
    have hke : (1 : Nat) + k = k + 1 := by omega
    rw [hke]
    have hkx : k < xs.length := by omega
    have := C.node_links k hkx
    rw [get?_eq_fid C hkx] at this
    simp only [Option.map_some'] at this
    have hne : k + 1 ≠ 0 := by omega
    simp only [heightAt, if_neg hne, entryHeight]
    rcases hx : xs.get? k with _ | e
    · rw [List.get?_eq_none] at hx; omega
    · rw [hx] at this
      simp only [Option.map_some', Option.some.injEq] at this
      simp [hx, this]

theorem Canonical.links_len_length_at {V : Type} {s : SkipList V} {hh : Nat}
    {ids : List Nat} {xs : List (V × Nat)} (C : Canonical s hh ids xs) {k : Nat}
    (h : k ≤ xs.length) :
    (getN s (fid ids k)).links_len.length = heightAt hh xs k := by
  rcases Nat.eq_zero_or_pos k with rfl | hk
  · simpa [heightAt] using C.head_spans
  · obtain ⟨k, rfl⟩ := Nat.exists_eq_add_of_le hk
    have hke : (1 : Nat) + k = k + 1 := by omega
    rw [hke]
    have hkx : k < xs.length := by omega
    have := C.node_spans k hkx
    rw [get?_eq_fid C hkx] at this
    simp only [Option.map_some'] at this
    have hne : k + 1 ≠ 0 := by omega
    simp only [heightAt, if_neg hne, entryHeight]
    rcases hx : xs.get? k with _ | e
    · rw [List.get?_eq_none] at hx; omega
    · rw [hx] at this
      simp only [Option.map_some', Option.some.injEq] at this
      simp [hx, this]

theorem Canonical.value_at {V : Type} {s : SkipList V} {hh : Nat} {ids : List Nat}
    {xs : List (V × Nat)} (C : Canonical s hh ids xs) {k : Nat} (h : k < xs.length) :
    (getN s (fid ids (k + 1))).value = (xs.get? k).map Prod.fst := by
  have := C.node_value k h
  rw [get?_eq_fid C h] at this
  simpa using this

/-! ## The empty list is canonical -/

theorem canonical_new (V : Type) : Canonical (SkipList.new V) 0 [] [] := by
  refine ⟨rfl, rfl, by simp [SkipList.new], by simp, by simp, rfl, rfl, rfl,
    by simp, by simp, by simp, by simp, ?_, ?_, ?_⟩
  · intro k hk
    have hk0 : k = 0 := by simpa using hk
    subst hk0
    rfl
  · intro k h1 h2
    exact absurd (Nat.le_trans h1 h2) (by simp)
  · intro k hk l hl
    have hk0 : k = 0 := by simpa using hk
    subst hk0
    simp [heightAt] at hl

/-! ## `_get_ptr` descends to the node at the requested position -/

theorem getPtrLoop_spec {V : Type} {s : SkipList V} {hh : Nat} {ids : List Nat}
    {xs : List (V × Nat)} (C : Canonical s hh ids xs) {a : Nat}
    (ha : a ≤ xs.length) :
    ∀ fuel cp cl, cp ≤ a → cl < heightAt hh xs cp →
      (a - cp) + cl + 1 ≤ fuel →
      getPtrLoop fuel s a (fid ids cp) cp cl = some (fid ids a) := by
  intro fuel
  induction fuel with
  | zero => intro cp cl _ _ hf; omega
  | succ fuel ih =>
    intro cp cl hcp hcl hf
    rcases Nat.eq_or_lt_of_le hcp with rfl | hlt
    · simp [getPtrLoop]
    · have hkn : cp ≤ xs.length := by omega
      obtain ⟨hlink, hspan⟩ := C.links_ok cp hkn cl hcl
      simp only [getPtrLoop, if_neg (by omega : ¬ a = cp), hspan]
      rcases hna : nextAbove xs cl cp with _ | q
      · -- null link, span 0: descend; level 0 is impossible since the
        -- level-0 link to position cp+1 exists
        rw [hna] at hlink hspan
        simp only [Option.map_none', Option.getD_none, Nat.add_zero,
          if_neg (by omega : ¬ (cp ≤ a ∧ cp ≠ cp))]
        have hcl0 : cl ≠ 0 := by
          rintro rfl
          rw [nextAbove_zero xs cp (by omega)] at hna
          cases hna
        rw [if_neg hcl0]
        exact ih cp (cl - 1) hcp (by omega) (by omega)
      · have hq := nextAbove_pos_le hna
        rw [hna] at hlink hspan
        simp only [Option.map_some', Option.getD_some]
        by_cases hqa : cp + (q - cp) ≤ a
        · rw [if_pos ⟨hqa, by omega⟩, hlink]
          have hqe : cp + (q - cp) = q := by omega
          rw [hqe]
          refine ih q cl (by omega) ?_ (by omega)
          have hq0 : q ≠ 0 := by omega
          simp only [heightAt, if_neg hq0]
          exact ((nextAbove_some_iff xs cl cp q).mp hna).2.1
        · rw [if_neg (by omega : ¬ (cp + (q - cp) ≤ a ∧ cp ≠ cp + (q - cp)))]
          have hcl0 : cl ≠ 0 := by
            rintro rfl
            rw [nextAbove_zero xs cp (by omega)] at hna
            cases hna
            omega
          rw [if_neg hcl0]
          exact ih cp (cl - 1) hcp (by omega) (by omega)

theorem getPtr_spec {V : Type} {s : SkipList V} {hh : Nat} {ids : List Nat}
    {xs : List (V × Nat)} (C : Canonical s hh ids xs) {index : Nat}
    (h : index < xs.length) :
    s.getPtr index = some (fid ids (index + 1)) := by
  have hlen : ¬ s.length ≤ index := by rw [C.len_eq]; omega
  rw [SkipList.getPtr, if_neg hlen]
  have hhh : 0 < hh := C.hh_pos (by omega)
  have hH : (getN s 0).links.length = hh := C.head_links
  rw [hH]
  have harena := C.n_lt_arena
  have hfuel : (index + 1 - 0) + (hh - 1) + 1 ≤ (s.arena.length + 2) * (hh + 2) := by
    have hexp : (s.arena.length + 2) * (hh + 2) =
        s.arena.length * hh + 2 * s.arena.length + 2 * hh + 4 := by ring
    omega
  have := getPtrLoop_spec C (a := index + 1) (by omega)
    ((s.arena.length + 2) * (hh + 2)) 0 (hh - 1) (by omega)
    (by simp [heightAt]; omega) hfuel
  simpa [fid_zero] using this

/-- `get` returns exactly the abstract value sequence, including `none` out
of bounds. -/
theorem get_spec {V : Type} {s : SkipList V} {hh : Nat} {ids : List Nat}
    {xs : List (V × Nat)} (C : Canonical s hh ids xs) (index : Nat) :
    s.get index = (xs.get? index).map Prod.fst := by
  by_cases h : index < xs.length
  · rw [SkipList.get, if_neg (by rw [C.len_eq]; omega), getPtr_spec C h]
    exact C.value_at h
  · rw [SkipList.get, if_pos (by rw [C.len_eq]; omega)]
    rw [List.get?_eq_none.mpr (by omega)]
    rfl

/-! ## The level-0 chain -/

theorem chainIds_spec {V : Type} {s : SkipList V} {hh : Nat} {ids : List Nat}
    {xs : List (V × Nat)} (C : Canonical s hh ids xs) :
    ∀ fuel k, k ≤ xs.length → xs.length - k < fuel →
      chainIds s fuel (ids.get? k) = ids.drop k := by
  intro fuel
  induction fuel with
  | zero => intro k _ h; omega
  | succ fuel ih =>
    intro k hk hf
    have hlen : ids.length = xs.length := C.ids_len
    rcases Nat.eq_or_lt_of_le hk with rfl | hlt
    · rw [List.get?_eq_none.mpr (by omega), List.drop_eq_nil_of_le (by omega)]
      rfl
    · rw [get?_eq_fid C hlt]
      show fid ids (k + 1) :: chainIds s fuel (getN s (fid ids (k + 1))).next = _
      rw [C.nexts (k + 1) (by omega), ih (k + 1) (by omega) (by omega)]
      have hk' : k < ids.length := by rw [C.ids_len]; omega
      rw [List.drop_eq_getElem_cons hk']
      congr 1
      have := get?_eq_fid C hlt
      rw [List.get?_eq_getElem?, List.getElem?_eq_getElem hk'] at this
      exact (Option.some.injEq .. ▸ this).symm

theorem iterIds_spec {V : Type} {s : SkipList V} {hh : Nat} {ids : List Nat}
    {xs : List (V × Nat)} (C : Canonical s hh ids xs) :
    s.iterIds = ids := by
  have h0 := C.nexts 0 (by omega)
  rw [fid_zero] at h0
  show chainIds s (s.arena.length + 1) (getN s 0).next = ids
  rw [h0, chainIds_spec C _ 0 (by omega) (by have := C.n_lt_arena; omega),
    List.drop_zero]

theorem toList_drop {V : Type} {s : SkipList V} {hh : Nat} {ids : List Nat}
    {xs : List (V × Nat)} (C : Canonical s hh ids xs) :
    ∀ fuel k, k ≤ xs.length → xs.length - k < fuel →
      (ids.drop k).filterMap (fun id => (getN s id).value) =
        (xs.drop k).map Prod.fst := by
  intro fuel
  induction fuel with
  | zero => intro k _ h; omega
  | succ fuel ih =>
    intro k hk hf
    have hlen : ids.length = xs.length := C.ids_len
    rcases Nat.eq_or_lt_of_le hk with rfl | hlt
    · rw [List.drop_eq_nil_of_le (by omega), List.drop_eq_nil_of_le (by omega)]
      rfl
    · have hk' : k < ids.length := by rw [C.ids_len]; omega
      have hkx : k < xs.length := hlt
      rw [List.drop_eq_getElem_cons hk', List.drop_eq_getElem_cons hkx]
      have hval := C.value_at hlt
      have hfid : ids[k] = fid ids (k + 1) := by
        have := get?_eq_fid C hlt
        rw [List.get?_eq_getElem?, List.getElem?_eq_getElem hk'] at this
        exact Option.some.injEq .. ▸ this
      rw [List.filterMap_cons, hfid, hval,
        List.get?_eq_getElem?, List.getElem?_eq_getElem hkx]
      simp only [Option.map_some', List.map_cons]
      rw [ih (k + 1) (by omega) (by omega)]

theorem toList_spec {V : Type} {s : SkipList V} {hh : Nat} {ids : List Nat}
    {xs : List (V × Nat)} (C : Canonical s hh ids xs) :
    s.toList = xs.map Prod.fst := by
  rw [SkipList.toList, iterIds_spec C]
  have := toList_drop C (xs.length + 1) 0 (by omega) (by omega)
  simpa using this

theorem stepNext_spec {V : Type} {s : SkipList V} {hh : Nat} {ids : List Nat}
    {xs : List (V × Nat)} (C : Canonical s hh ids xs) :
    ∀ i k, k ≤ xs.length → stepNext s i (ids.get? k) = ids.get? (k + i) := by
  intro i
  induction i with
  | zero => intro k _; rfl
  | succ i ih =>
    intro k hk
    have hlen : ids.length = xs.length := C.ids_len
    rcases Nat.eq_or_lt_of_le hk with rfl | hlt
    · rw [List.get?_eq_none.mpr (by omega), List.get?_eq_none.mpr (by rw [C.ids_len]; omega)]
      rfl
    · rw [get?_eq_fid C hlt]
      show stepNext s i (getN s (fid ids (k + 1))).next = _
      rw [C.nexts (k + 1) (by omega), ih (k + 1) (by omega)]
      congr 1
      omega

theorem seqGet_spec {V : Type} {s : SkipList V} {hh : Nat} {ids : List Nat}
    {xs : List (V × Nat)} (C : Canonical s hh ids xs) (i : Nat) :
    s.seqGet i = (xs.get? i).map Prod.fst := by
  have h0 := C.nexts 0 (by omega)
  rw [fid_zero] at h0
  rw [SkipList.seqGet, h0, stepNext_spec C i 0 (by omega), Nat.zero_add]
  by_cases h : i < xs.length
  · rw [get?_eq_fid C h]
    exact C.value_at h
  · rw [List.get?_eq_none.mpr (by rw [C.ids_len]; omega),
      List.get?_eq_none.mpr (by omega)]
    rfl

theorem revWalk_spec {V : Type} {s : SkipList V} {hh : Nat} {ids : List Nat}
    {xs : List (V × Nat)} (C : Canonical s hh ids xs) :
    ∀ fuel k, 1 ≤ k → k ≤ xs.length → k ≤ fuel →
      revWalk s fuel (some (fid ids k)) = ((xs.take k).map Prod.fst).reverse := by
  intro fuel
  induction fuel with
  | zero => intro k h1 _ h3; omega
  | succ fuel ih =>
    intro k h1 h2 h3
    obtain ⟨j, rfl⟩ := Nat.exists_eq_add_of_le h1
    have hje : (1 : Nat) + j = j + 1 := by omega
    rw [hje] at h2 h3 ⊢
    have hval := C.value_at (k := j) (by omega)
    have hprev := C.prevs (j + 1) (by omega) (by omega)
    have hjx : j < xs.length := by omega
    rcases hx : xs.get? j with _ | e
    · rw [List.get?_eq_none] at hx; omega
    · rw [hx] at hval
      simp only [Option.map_some'] at hval
      show revWalk s (fuel + 1) (some (fid ids (j + 1))) = _
      rw [revWalk, hval, hprev]
      have htake : ((xs.take (j + 1)).map Prod.fst).reverse =
          e.1 :: ((xs.take j).map Prod.fst).reverse := by
        have hx' : xs[j]? = some e := by rw [← List.get?_eq_getElem?]; exact hx
        rw [List.take_succ, hx']
        simp
      rcases Nat.eq_zero_or_pos j with rfl | hj
      · simp only [Nat.add_sub_cancel, fid_zero, C.head_value, htake]
        simp
      · have hprevval := C.value_at (k := j - 1) (by omega)
        have hje2 : j - 1 + 1 = j := by omega
        rw [hje2] at hprevval
        rcases hx2 : xs.get? (j - 1) with _ | e2
        · rw [List.get?_eq_none] at hx2; omega
        · rw [hx2] at hprevval
          simp only [Option.map_some'] at hprevval
          simp only [Nat.add_sub_cancel, hprevval]
          rw [ih j hj (by omega) (by omega), htake]

theorem reverseIterList_spec {V : Type} {s : SkipList V} {hh : Nat} {ids : List Nat}
    {xs : List (V × Nat)} (C : Canonical s hh ids xs) :
    s.reverseIterList = (xs.map Prod.fst).reverse := by
  rw [SkipList.reverseIterList]
  rcases Nat.eq_zero_or_pos xs.length with hn | hn
  · rw [if_pos (by rw [C.len_eq]; omega)]
    have : xs = [] := List.length_eq_zero.mp hn
    simp [this]
  · rw [if_neg (by rw [C.len_eq]; omega), C.len_eq]
    rw [getPtr_spec C (by omega : xs.length - 1 < xs.length)]
    have he : xs.length - 1 + 1 = xs.length := by omega
    show revWalk s (s.arena.length + 1) (some (fid ids (xs.length - 1 + 1))) = _
    rw [he, revWalk_spec C _ xs.length (by omega) (le_refl _)
      (by have := C.n_lt_arena; omega)]
    rw [List.take_length]

/-! ## The per-level predecessor of an insertion/removal point -/

/-- Scan downward from `p` for the last position (or the head, 0) whose
node has more than `l` levels. -/
def levelPredGo {V : Type} (xs : List (V × Nat)) (l : Nat) : Nat → Nat
  | 0 => 0
  | p + 1 => if l < entryHeight xs (p + 1) then p + 1 else levelPredGo xs l p

/-- The last position strictly before `a` whose node has more than `l`
levels (the head sentinel at 0 always qualifies). -/
def levelPred {V : Type} (xs : List (V × Nat)) (l a : Nat) : Nat :=
  levelPredGo xs l (a - 1)

theorem levelPredGo_le {V : Type} (xs : List (V × Nat)) (l : Nat) :
    ∀ p, levelPredGo xs l p ≤ p := by
  intro p
  induction p with
  | zero => simp [levelPredGo]
  | succ p ih =>
    simp only [levelPredGo]
    split
    · omega
    · omega

theorem levelPredGo_height {V : Type} (xs : List (V × Nat)) (l : Nat) :
    ∀ p, levelPredGo xs l p = 0 ∨ l < entryHeight xs (levelPredGo xs l p) := by
  intro p
  induction p with
  | zero => exact Or.inl rfl
  | succ p ih =>
    simp only [levelPredGo]
    split
    · right; assumption
    · exact ih

theorem levelPredGo_max {V : Type} (xs : List (V × Nat)) (l : Nat) :
    ∀ p r, levelPredGo xs l p < r → r ≤ p → entryHeight xs r ≤ l := by
  intro p
  induction p with
  | zero => intro r h1 h2; omega
  | succ p ih =>
    intro r h1 h2
    by_cases hc : l < entryHeight xs (p + 1)
    · simp only [levelPredGo, if_pos hc] at h1
      omega
    · simp only [levelPredGo, if_neg hc] at h1
      rcases Nat.eq_or_lt_of_le h2 with rfl | hr
      · omega
      · exact ih r h1 (by omega)

theorem levelPred_le {V : Type} (xs : List (V × Nat)) (l a : Nat) :
    levelPred xs l a ≤ a - 1 := levelPredGo_le ..

theorem levelPred_height {V : Type} (xs : List (V × Nat)) (l a : Nat) :
    levelPred xs l a = 0 ∨ l < entryHeight xs (levelPred xs l a) := levelPredGo_height ..

theorem levelPred_max {V : Type} (xs : List (V × Nat)) (l a r : Nat)
    (h1 : levelPred xs l a < r) (h2 : r ≤ a - 1) : entryHeight xs r ≤ l :=
  levelPredGo_max xs l _ r h1 h2

theorem levelPred_eq {V : Type} (xs : List (V × Nat)) (l a cp : Nat)
    (h1 : cp ≤ a - 1) (h2 : cp = 0 ∨ l < entryHeight xs cp)
    (h3 : ∀ r, cp < r → r ≤ a - 1 → entryHeight xs r ≤ l) :
    levelPred xs l a = cp := by
  rcases Nat.lt_trichotomy (levelPred xs l a) cp with h | h | h
  · rcases h2 with rfl | h2
    · omega
    · have := levelPred_max xs l a cp h h1
      omega
  · exact h
  · have h4 := levelPred_le xs l a
    have h5 := h3 _ h h4
    rcases levelPred_height xs l a with h6 | h6
    · omega
    · omega

theorem levelPred_zero_level {V : Type} (xs : List (V × Nat)) (a : Nat)
    (h1 : 1 ≤ a) (h2 : a - 1 ≤ xs.length) : levelPred xs 0 a = a - 1 := by
  apply levelPred_eq xs 0 a (a - 1) (le_refl _)
  · rcases Nat.eq_zero_or_pos (a - 1) with h | h
    · exact Or.inl h
    · right
      obtain ⟨j, hj⟩ := Nat.exists_eq_add_of_le h
      have : a - 1 = j + 1 := by omega
      rw [this]
      simp only [entryHeight]
      rcases hx : xs.get? j with _ | e
      · rw [List.get?_eq_none] at hx; omega
      · simp [hx]
  · intro r hr1 hr2; omega

/-- `nextAbove` starting from the level predecessor lands at or past `a`. -/
theorem nextAbove_levelPred {V : Type} (xs : List (V × Nat)) (l a q : Nat)
    (h1 : 1 ≤ a) (hq : nextAbove xs l (levelPred xs l a) = some q) : a ≤ q := by
  by_contra h
  push_neg at h
  have h2 := (nextAbove_some_iff ..).mp hq
  have := levelPred_max xs l a q h2.1 (by omega)
  omega

/-! ## Transfer lemmas along `insertIdx` -/

theorem get?_insertIdx {α : Type} (x : α) :
    ∀ (i : Nat) (l : List α), i ≤ l.length → ∀ k,
      (l.insertIdx i x).get? k =
        if k < i then l.get? k else if k = i then some x else l.get? (k - 1) := by
  intro i
  induction i with
  | zero =>
    intro l _ k
    match k with
    | 0 => rfl
    | k + 1 => simp [List.insertIdx_zero]
  | succ i ih =>
    intro l hl k
    match l with
    | [] => simp at hl
    | h :: t =>
      rw [List.insertIdx_succ_cons]
      match k with
      | 0 => simp
      | k + 1 =>
        show (t.insertIdx i x).get? k = _
        rw [ih t (by simpa using hl) k]
        rcases Nat.lt_trichotomy k i with hk | rfl | hk
        · rw [if_pos hk, if_pos (by omega)]
          rfl
        · rw [if_neg (by omega), if_pos rfl, if_neg (by omega), if_pos rfl]
        · rw [if_neg (by omega), if_neg (by omega), if_neg (by omega),
            if_neg (by omega)]
          have : k + 1 - 1 = k - 1 + 1 := by omega
          rw [this]
          rfl

theorem entryHeight_insertIdx {V : Type} (xs : List (V × Nat)) (e : V × Nat)
    (index : Nat) (hi : index ≤ xs.length) (q : Nat) :
    entryHeight (xs.insertIdx index e) q =
      if q < index + 1 then entryHeight xs q
      else if q = index + 1 then e.2 + 1
      else entryHeight xs (q - 1) := by
  match q with
  | 0 => simp [entryHeight]
  | q + 1 =>
    simp only [entryHeight]
    rw [get?_insertIdx e index xs hi q]
    rcases Nat.lt_trichotomy q index with hk | rfl | hk
    · rw [if_pos hk, if_pos (by omega)]
    · rw [if_neg (by omega), if_pos rfl, if_neg (by omega), if_pos rfl]
      simp
    · rw [if_neg (by omega), if_neg (by omega), if_neg (by omega),
        if_neg (by omega)]
      match q with
      | q + 1 => simp [entryHeight]

/-- Below the insertion point, a link that stays below it is unchanged. -/
theorem nextAbove_insertIdx_lt {V : Type} {xs : List (V × Nat)} {e : V × Nat}
    {index : Nat} (hi : index ≤ xs.length) {l k q : Nat}
    (h : nextAbove xs l k = some q) (hq : q < index + 1) :
    nextAbove (xs.insertIdx index e) l k = some q := by
  obtain ⟨h1, h2, h3⟩ := (nextAbove_some_iff ..).mp h
  rw [nextAbove_some_iff]
  refine ⟨h1, ?_, ?_⟩
  · rw [entryHeight_insertIdx xs e index hi q, if_pos hq]
    exact h2
  · intro r hr1 hr2
    rw [entryHeight_insertIdx xs e index hi r, if_pos (by omega)]
    exact h3 r hr1 hr2

/-- A link from before the insertion point that would land at or past it
goes to the new node when the new node is tall enough. -/
theorem nextAbove_insertIdx_new {V : Type} {xs : List (V × Nat)} {e : V × Nat}
    {index : Nat} (hi : index ≤ xs.length) {l k : Nat} (hk : k < index + 1)
    (hl : l < e.2 + 1)
    (hna : nextAbove xs l k = none ∨ ∃ q, nextAbove xs l k = some q ∧ index + 1 ≤ q) :
    nextAbove (xs.insertIdx index e) l k = some (index + 1) := by
  rw [nextAbove_some_iff]
  refine ⟨hk, ?_, ?_⟩
  · rw [entryHeight_insertIdx xs e index hi (index + 1), if_neg (by omega),
      if_pos rfl]
    exact hl
  · intro r hr1 hr2
    rw [entryHeight_insertIdx xs e index hi r, if_pos (by omega)]
    rcases hna with hna | ⟨q, hna, hq⟩
    · exact (nextAbove_none_iff ..).mp hna r hr1
    · exact ((nextAbove_some_iff ..).mp hna).2.2 r hr1 (by omega)

/-- A link from before the insertion point that lands at or past it, when
the new node is too short to catch it, shifts its target by one. -/
theorem nextAbove_insertIdx_skip {V : Type} {xs : List (V × Nat)} {e : V × Nat}
    {index : Nat} (hi : index ≤ xs.length) {l k : Nat} (hk : k < index + 1)
    (hl : e.2 + 1 ≤ l) :
    nextAbove (xs.insertIdx index e) l k =
      (nextAbove xs l k).map (fun q => if q < index + 1 then q else q + 1) := by
  rcases hna : nextAbove xs l k with _ | q
  · rw [Option.map_none']
    rw [nextAbove_none_iff]
    intro q hq
    rw [entryHeight_insertIdx xs e index hi q]
    split
    · exact (nextAbove_none_iff ..).mp hna q hq
    · split
      · omega
      · rcases Nat.lt_or_ge (q - 1) (k + 1) with h | h
        · omega
        · exact (nextAbove_none_iff ..).mp hna (q - 1) (by omega)
  · obtain ⟨h1, h2, h3⟩ := (nextAbove_some_iff ..).mp hna
    rw [Option.map_some']
    by_cases hq : q < index + 1
    · rw [if_pos hq]
      exact nextAbove_insertIdx_lt hi hna hq
    · rw [if_neg hq]
      rw [nextAbove_some_iff]
      refine ⟨by omega, ?_, ?_⟩
      · rw [entryHeight_insertIdx xs e index hi (q + 1), if_neg (by omega),
          if_neg (by omega)]
        simpa using h2
      · intro r hr1 hr2
        rw [entryHeight_insertIdx xs e index hi r]
        split
        · exact h3 r hr1 (by omega)
        · split
          · omega
          · exact h3 (r - 1) (by omega) (by omega)

/-- Links from at or past the insertion point shift both ends by one. -/
theorem nextAbove_insertIdx_ge {V : Type} {xs : List (V × Nat)} {e : V × Nat}
    {index : Nat} (hi : index ≤ xs.length) {l k : Nat} (hk : index ≤ k) :
    nextAbove (xs.insertIdx index e) l (k + 1) =
      (nextAbove xs l k).map (fun q => q + 1) := by
  rcases hna : nextAbove xs l k with _ | q
  · rw [Option.map_none', nextAbove_none_iff]
    intro q hq
    rw [entryHeight_insertIdx xs e index hi q, if_neg (by omega),
      if_neg (by omega)]
    exact (nextAbove_none_iff ..).mp hna (q - 1) (by omega)
  · obtain ⟨h1, h2, h3⟩ := (nextAbove_some_iff ..).mp hna
    rw [Option.map_some', nextAbove_some_iff]
    refine ⟨by omega, ?_, ?_⟩
    · rw [entryHeight_insertIdx xs e index hi (q + 1), if_neg (by omega),
        if_neg (by omega)]
      simpa using h2
    · intro r hr1 hr2
      rw [entryHeight_insertIdx xs e index hi r, if_neg (by omega),
        if_neg (by omega)]
      exact h3 (r - 1) (by omega) (by omega)

/-! ## Allocation and head growth preserve canonicity -/

theorem getN_append_lt {V : Type} (s : SkipList V) (nd : Node V) {id : Nat}
    (h : id < s.arena.length) :
    getN { s with arena := s.arena ++ [nd] } id = getN s id := by
  simp [getN_eq, List.getElem?_append_left h]

theorem getN_append_self {V : Type} (s : SkipList V) (nd : Node V) :
    getN { s with arena := s.arena ++ [nd] } s.arena.length = nd := by
  rw [getN_eq]
  show ((s.arena ++ [nd]).get? s.arena.length).getD default = nd
  rw [List.get?_eq_getElem?, List.getElem?_append_right (le_refl _)]
  simp

theorem canonical_append {V : Type} {s : SkipList V} {hh : Nat} {ids : List Nat}
    {xs : List (V × Nat)} (C : Canonical s hh ids xs) (nd : Node V) :
    Canonical { s with arena := s.arena ++ [nd] } hh ids xs := by
  have hg : ∀ k ≤ xs.length,
      getN { s with arena := s.arena ++ [nd] } (fid ids k) = getN s (fid ids k) :=
    fun k hk => getN_append_lt s nd (C.fid_lt hk)
  have hg0 := hg 0 (by omega)
  rw [fid_zero] at hg0
  refine ⟨C.len_eq, C.ids_len, by simp, ?_, C.ids_nodup, ?_, ?_, ?_,
    C.height_le, ?_, ?_, ?_, ?_, ?_, ?_⟩
  · intro i hi
    have := C.ids_bounds i hi
    simp only [List.length_append, List.length_cons, List.length_nil]
    omega
  · rw [hg0]; exact C.head_value
  · rw [hg0]; exact C.head_links
  · rw [hg0]; exact C.head_spans
  · intro k hk
    have h' := C.node_value k hk
    rw [get?_eq_fid C hk] at h' ⊢
    simp only [Option.some_bind] at h' ⊢
    rw [hg (k + 1) (by omega)]
    exact h'
  · intro k hk
    have h' := C.node_links k hk
    rw [get?_eq_fid C hk] at h' ⊢
    simp only [Option.map_some'] at h' ⊢
    rw [hg (k + 1) (by omega)]
    exact h'
  · intro k hk
    have h' := C.node_spans k hk
    rw [get?_eq_fid C hk] at h' ⊢
    simp only [Option.map_some'] at h' ⊢
    rw [hg (k + 1) (by omega)]
    exact h'
  · intro k hk
    rw [hg k hk]
    exact C.nexts k hk
  · intro k h1 h2
    rw [hg k h2]
    exact C.prevs k h1 h2
  · intro k hk l hl
    rw [hg k hk]
    exact C.links_ok k hk l hl

theorem growGo_links {V : Type} :
    ∀ (fuel : Nat) (nd : Node V) (level : Nat),
      level + 1 - nd.links.length ≤ fuel →
      (Node.growGo fuel nd level).links = nd.links ++
        List.replicate (level + 1 - nd.links.length) none ∧
      (Node.growGo fuel nd level).links_len = nd.links_len ++
        List.replicate (level + 1 - nd.links.length) 0 ∧
      (Node.growGo fuel nd level).value = nd.value ∧
      (Node.growGo fuel nd level).next = nd.next ∧
      (Node.growGo fuel nd level).prev = nd.prev := by
  intro fuel
  induction fuel with
  | zero =>
    intro nd level h
    have h0 : level + 1 - nd.links.length = 0 := by omega
    simp [Node.growGo, h0]
  | succ fuel ih =>
    intro nd level h
    by_cases hc : level < nd.links.length
    · have h0 : level + 1 - nd.links.length = 0 := by omega
      simp [Node.growGo, hc, h0]
    · rw [show Node.growGo (fuel + 1) nd level =
        Node.growGo fuel nd.increaseLevel level from by
          rw [Node.growGo, if_neg hc]]
      obtain ⟨h1, h2, h3, h4, h5⟩ := ih nd.increaseLevel level (by
        simp only [Node.increaseLevel, List.length_append, List.length_cons,
          List.length_nil]
        omega)
      have hlen : nd.increaseLevel.links.length = nd.links.length + 1 := by
        simp [Node.increaseLevel]
      have hcnt : level + 1 - nd.increaseLevel.links.length + 1 =
          level + 1 - nd.links.length := by rw [hlen]; omega
      refine ⟨?_, ?_, h3, h4, h5⟩
      · rw [h1]
        show (nd.links ++ [none]) ++ _ = _
        rw [List.append_assoc]
        congr 1
        rw [List.singleton_append, ← List.replicate_succ, hcnt]
      · rw [h2]
        show (nd.links_len ++ [0]) ++ _ = _
        rw [List.append_assoc]
        congr 1
        rw [List.singleton_append, ← List.replicate_succ, hcnt]

theorem grow_links {V : Type} (nd : Node V) (level : Nat) :
    (nd.grow level).links = nd.links ++
      List.replicate (level + 1 - nd.links.length) none ∧
    (nd.grow level).links_len = nd.links_len ++
      List.replicate (level + 1 - nd.links.length) 0 ∧
    (nd.grow level).value = nd.value ∧ (nd.grow level).next = nd.next ∧
    (nd.grow level).prev = nd.prev :=
  growGo_links (level + 2) nd level (by omega)

theorem canonical_growHead {V : Type} {s : SkipList V} {hh : Nat} {ids : List Nat}
    {xs : List (V × Nat)} (C : Canonical s hh ids xs) (level : Nat) :
    Canonical (growHead s level) (max hh (level + 1)) ids xs := by
  obtain ⟨g1, g2, g3, g4, g5⟩ := grow_links (getN s 0) level
  have harena : (growHead s level).arena.length = s.arena.length := arena_updN ..
  have hg0 : getN (growHead s level) 0 = (getN s 0).grow level :=
    getN_updN_same s 0 _ C.head_lt
  have hgpos : ∀ id, 0 < id → getN (growHead s level) id = getN s id :=
    fun id hid => getN_updN_ne s 0 id _ (by omega)
  have hgk : ∀ k, 1 ≤ k → k ≤ xs.length →
      getN (growHead s level) (fid ids k) = getN s (fid ids k) :=
    fun k h1 h2 => hgpos _ (C.fid_pos h1 h2)
  have hlen : (getN s 0).links.length = hh := C.head_links
  have hnew : ((getN s 0).grow level).links.length = max hh (level + 1) := by
    rw [g1]
    simp only [List.length_append, List.length_replicate, hlen]
    omega
  have hnew2 : ((getN s 0).grow level).links_len.length = max hh (level + 1) := by
    rw [g2]
    simp only [List.length_append, List.length_replicate, hlen, C.head_spans]
    omega
  refine ⟨C.len_eq, C.ids_len, by rw [harena]; exact C.head_lt, ?_,
    C.ids_nodup, ?_, ?_, ?_, ?_, ?_, ?_, ?_, ?_, ?_, ?_⟩
  · intro i hi
    rw [harena]
    exact C.ids_bounds i hi
  · rw [hg0, g3]; exact C.head_value
  · rw [hg0]; exact hnew
  · rw [hg0]; exact hnew2
  · intro k hk
    exact (C.height_le k hk).trans (le_max_left ..)
  · intro k hk
    have h' := C.node_value k hk
    rw [get?_eq_fid C hk] at h' ⊢
    simp only [Option.some_bind] at h' ⊢
    rw [hgk (k + 1) (by omega) (by omega)]
    exact h'
  · intro k hk
    have h' := C.node_links k hk
    rw [get?_eq_fid C hk] at h' ⊢
    simp only [Option.map_some'] at h' ⊢
    rw [hgk (k + 1) (by omega) (by omega)]
    exact h'
  · intro k hk
    have h' := C.node_spans k hk
    rw [get?_eq_fid C hk] at h' ⊢
    simp only [Option.map_some'] at h' ⊢
    rw [hgk (k + 1) (by omega) (by omega)]
    exact h'
  · intro k hk
    rcases Nat.eq_zero_or_pos k with rfl | hkpos
    · rw [fid_zero, hg0, g4]
      exact C.nexts 0 (by omega)
    · rw [hgk k hkpos hk]
      exact C.nexts k hk
  · intro k h1 h2
    rw [hgk k h1 h2]
    exact C.prevs k h1 h2
  · intro k hk l hl
    rcases Nat.eq_zero_or_pos k with rfl | hkpos
    · -- head: old levels keep their entries, new levels are null with span 0
      rw [fid_zero, hg0]
      simp only [heightAt, if_pos rfl] at hl
      by_cases hlo : l < hh
      · have := C.links_ok 0 (by omega) l (by simpa [heightAt] using hlo)
        rw [fid_zero] at this
        constructor
        · show ((getN s 0).grow level).links.get? l = _
          rw [g1, List.get?_append (by omega : l < (getN s 0).links.length)]
          exact this.1
        · show ((getN s 0).grow level).links_len.get? l = _
          rw [g2, List.get?_append (by rw [C.head_spans]; omega)]
          exact this.2
      · have hna : nextAbove xs l 0 = none := by
          rw [nextAbove_none_iff]
          intro q hq
          rcases Nat.eq_zero_or_pos (entryHeight xs q) with h | h
          · omega
          · have hb := entryHeight_pos_bound xs q h
            have := C.height_le (q - 1) (by omega)
            have heq : q - 1 + 1 = q := by omega
            rw [heq] at this
            omega
        rw [hna]
        have hlm : l < max hh (level + 1) := by simpa [heightAt] using hl
        constructor
        · show ((getN s 0).grow level).links.get? l = _
          rw [g1, List.get?_append_right (by omega), hlen, List.get?_eq_getElem?]
          have hrep : l - hh < level + 1 - hh := by omega
          simp [List.getElem?_replicate_of_lt hrep]
        · show ((getN s 0).grow level).links_len.get? l = _
          rw [g2, List.get?_append_right (by rw [C.head_spans]; omega),
            C.head_spans, hlen, List.get?_eq_getElem?]
          have hrep : l - hh < level + 1 - hh := by omega
          simp [List.getElem?_replicate_of_lt hrep]
    · rw [hgk k hkpos hk]
      refine C.links_ok k hk l ?_
      simpa [heightAt, Nat.pos_iff_ne_zero.mp hkpos] using hl

/-! ## The insert descent -/

theorem setN_oob {V : Type} (s : SkipList V) (id : Nat) (nd : Node V)
    (h : s.arena.length ≤ id) : setN s id nd = s := by
  simp [setN, List.set_eq_of_length_le h]

/-- Everything the insert descent leaves alone: arena size, length, and the
non-link fields of every node. -/
def sameShape {V : Type} (t s1 : SkipList V) : Prop :=
  t.arena.length = s1.arena.length ∧ t.length = s1.length ∧
  ∀ id, (getN t id).value = (getN s1 id).value ∧
    (getN t id).next = (getN s1 id).next ∧
    (getN t id).prev = (getN s1 id).prev ∧
    (getN t id).links.length = (getN s1 id).links.length ∧
    (getN t id).links_len.length = (getN s1 id).links_len.length

/-- All level-`l` link slots agree between the two states. -/
def sameLevel {V : Type} (t s1 : SkipList V) (l : Nat) : Prop :=
  ∀ id, (getN t id).linkAt l = (getN s1 id).linkAt l ∧
    (getN t id).spanAt l = (getN s1 id).spanAt l

theorem sameShape_refl {V : Type} (s : SkipList V) : sameShape s s :=
  ⟨rfl, rfl, fun _ => ⟨rfl, rfl, rfl, rfl, rfl⟩⟩

theorem sameShape_updN {V : Type} {t s1 : SkipList V} (h : sameShape t s1)
    (id : Nat) (f : Node V → Node V)
    (hf : ∀ nd, (f nd).value = nd.value ∧ (f nd).next = nd.next ∧
      (f nd).prev = nd.prev ∧ (f nd).links.length = nd.links.length ∧
      (f nd).links_len.length = nd.links_len.length) :
    sameShape (updN t id f) s1 := by
  obtain ⟨h1, h2, h3⟩ := h
  refine ⟨by rw [arena_updN, h1], by rw [length_updN, h2], fun id' => ?_⟩
  by_cases hid : id < t.arena.length
  · by_cases he : id = id'
    · subst he
      rw [getN_updN_same t id f hid]
      obtain ⟨f1, f2, f3, f4, f5⟩ := hf (getN t id)
      obtain ⟨g1, g2, g3, g4, g5⟩ := h3 id
      exact ⟨f1.trans g1, f2.trans g2, f3.trans g3, f4.trans g4, f5.trans g5⟩
    · rw [getN_updN_ne t id id' f he]
      exact h3 id'
  · rw [updN, setN_oob _ _ _ (by omega)]
    exact h3 id'

theorem updLS_same {V : Type} (t : SkipList V) (id l : Nat) (p : Option Nat) (k : Nat)
    (hid : id < t.arena.length) (h1 : l < (getN t id).links.length)
    (h2 : l < (getN t id).links_len.length) :
    (getN (updN t id fun nd => (nd.setLink l p).setSpan l k) id).linkAt l = some p ∧
    (getN (updN t id fun nd => (nd.setLink l p).setSpan l k) id).spanAt l = some k := by
  rw [getN_updN_same _ _ _ hid]
  constructor
  · rw [linkAt_setSpan, linkAt_setLink_same _ _ _ h1]
  · rw [spanAt_setSpan_same]
    simpa using h2

theorem updLS_read_ne_level {V : Type} (t : SkipList V) (id id' l l' : Nat)
    (p : Option Nat) (k : Nat) (hne : l ≠ l') :
    (getN (updN t id fun nd => (nd.setLink l p).setSpan l k) id').linkAt l' =
      (getN t id').linkAt l' ∧
    (getN (updN t id fun nd => (nd.setLink l p).setSpan l k) id').spanAt l' =
      (getN t id').spanAt l' := by
  by_cases hid : id < t.arena.length
  · by_cases he : id = id'
    · subst he
      rw [getN_updN_same _ _ _ hid]
      exact ⟨by rw [linkAt_setSpan, linkAt_setLink_ne _ _ _ _ hne],
        by rw [spanAt_setSpan_ne _ _ _ _ hne, spanAt_setLink]⟩
    · rw [getN_updN_ne _ _ _ _ he]
      exact ⟨rfl, rfl⟩
  · rw [updN, setN_oob _ _ _ (by omega)]
    exact ⟨rfl, rfl⟩

theorem updLS_read_ne_id {V : Type} (t : SkipList V) (id id' l : Nat)
    (p : Option Nat) (k : Nat) (he : id ≠ id') :
    getN (updN t id fun nd => (nd.setLink l p).setSpan l k) id' = getN t id' :=
  getN_updN_ne _ _ _ _ he

theorem updS_same {V : Type} (t : SkipList V) (id l k : Nat)
    (hid : id < t.arena.length) (h2 : l < (getN t id).links_len.length) :
    (getN (updN t id fun nd => nd.setSpan l k) id).linkAt l =
      (getN t id).linkAt l ∧
    (getN (updN t id fun nd => nd.setSpan l k) id).spanAt l = some k := by
  rw [getN_updN_same _ _ _ hid]
  exact ⟨by rw [linkAt_setSpan], spanAt_setSpan_same _ _ _ h2⟩

theorem updS_read_ne_level {V : Type} (t : SkipList V) (id id' l l' k : Nat)
    (hne : l ≠ l') :
    (getN (updN t id fun nd => nd.setSpan l k) id').linkAt l' =
      (getN t id').linkAt l' ∧
    (getN (updN t id fun nd => nd.setSpan l k) id').spanAt l' =
      (getN t id').spanAt l' := by
  by_cases hid : id < t.arena.length
  · by_cases he : id = id'
    · subst he
      rw [getN_updN_same _ _ _ hid]
      exact ⟨by rw [linkAt_setSpan], by rw [spanAt_setSpan_ne _ _ _ _ hne]⟩
    · rw [getN_updN_ne _ _ _ _ he]
      exact ⟨rfl, rfl⟩
  · rw [updN, setN_oob _ _ _ (by omega)]
    exact ⟨rfl, rfl⟩

/-- Level `l` of the working state carries its final post-insert content:
the level-`l` predecessor of the insertion point has been rerouted (for
`l ≤ level`) or its span grown (for `l > level` when a link crosses), the
new node's slot is filled for `l ≤ level`, and every other node is
untouched. -/
def insLevelDone {V : Type} (t s1 : SkipList V) (ids : List Nat)
    (xs : List (V × Nat)) (a level nodeId l : Nat) : Prop :=
  (∀ k ≤ xs.length, k ≠ levelPred xs l a →
    (getN t (fid ids k)).linkAt l = (getN s1 (fid ids k)).linkAt l ∧
    (getN t (fid ids k)).spanAt l = (getN s1 (fid ids k)).spanAt l) ∧
  (if l ≤ level then
    (getN t (fid ids (levelPred xs l a))).linkAt l = some (some nodeId) ∧
    (getN t (fid ids (levelPred xs l a))).spanAt l =
      some (a - levelPred xs l a) ∧
    (getN t nodeId).linkAt l =
      some ((nextAbove xs l (levelPred xs l a)).map (fid ids)) ∧
    (getN t nodeId).spanAt l =
      some (((nextAbove xs l (levelPred xs l a)).map (fun q => q + 1 - a)).getD 0)
  else
    (getN t (fid ids (levelPred xs l a))).linkAt l =
      (getN s1 (fid ids (levelPred xs l a))).linkAt l ∧
    (getN t (fid ids (levelPred xs l a))).spanAt l =
      some (((nextAbove xs l (levelPred xs l a)).map
        (fun q => q + 1 - levelPred xs l a)).getD 0))

theorem insLevelDone_mono {V : Type} {t t' s1 : SkipList V} {ids : List Nat}
    {xs : List (V × Nat)} {a level nodeId l : Nat}
    (h : insLevelDone t s1 ids xs a level nodeId l)
    (hsame : ∀ id, (getN t' id).linkAt l = (getN t id).linkAt l ∧
      (getN t' id).spanAt l = (getN t id).spanAt l) :
    insLevelDone t' s1 ids xs a level nodeId l := by
  obtain ⟨h1, h2⟩ := h
  refine ⟨fun k hk hkp => ?_, ?_⟩
  · obtain ⟨e1, e2⟩ := hsame (fid ids k)
    obtain ⟨f1, f2⟩ := h1 k hk hkp
    exact ⟨e1.trans f1, e2.trans f2⟩
  · split at h2 <;> rename_i hcase
    · rw [if_pos hcase]
      obtain ⟨f1, f2, f3, f4⟩ := h2
      obtain ⟨e1, e2⟩ := hsame (fid ids (levelPred xs l a))
      obtain ⟨e3, e4⟩ := hsame nodeId
      exact ⟨e1.trans f1, e2.trans f2, e3.trans f3, e4.trans f4⟩
    · rw [if_neg hcase]
      obtain ⟨f1, f2⟩ := h2
      obtain ⟨e1, e2⟩ := hsame (fid ids (levelPred xs l a))
      exact ⟨e1.trans f1, e2.trans f2⟩

theorem sameLevel_mono {V : Type} {t t' s1 : SkipList V} {l : Nat}
    (h : sameLevel t s1 l)
    (hsame : ∀ id, (getN t' id).linkAt l = (getN t id).linkAt l ∧
      (getN t' id).spanAt l = (getN t id).spanAt l) :
    sameLevel t' s1 l := fun id =>
  ⟨(hsame id).1.trans (h id).1, (hsame id).2.trans (h id).2⟩

theorem insertLoop_go {V : Type} {s1 : SkipList V} {hh : Nat} {ids : List Nat}
    {xs : List (V × Nat)} {v : V} (C : Canonical s1 hh ids xs)
    {nodeId level a : Nat}
    (hfid : ∀ k ≤ xs.length, fid ids k < nodeId)
    (hnodeLt : nodeId < s1.arena.length)
    (hnode : getN s1 nodeId = Node.new (some v) (level + 1))
    (ha1 : 1 ≤ a) (ha2 : a ≤ xs.length + 1) :
    ∀ fuel t cp cl,
      sameShape t s1 →
      (∀ l, l ≤ cl → sameLevel t s1 l) →
      (∀ l, cl < l → l < hh → insLevelDone t s1 ids xs a level nodeId l) →
      cp + 1 ≤ a → cl < heightAt hh xs cp →
      (a - cp) + cl + 1 ≤ fuel →
      ∃ tf, insertLoop fuel t nodeId level a (fid ids cp) cp cl =
          some (tf, fid ids (a - 1)) ∧
        sameShape tf s1 ∧
        ∀ l, l < hh → insLevelDone tf s1 ids xs a level nodeId l := by
  intro fuel
  induction fuel with
  | zero => intro t cp cl _ _ _ _ _ hfu; omega
  | succ fuel ih =>
    intro t cp cl hshape hlevels hdone hcp hcl hfu
    have hkn : cp ≤ xs.length := by omega
    obtain ⟨hlink1, hspan1⟩ := C.links_ok cp hkn cl hcl
    obtain ⟨hlt1, hlt2⟩ := (hlevels cl (le_refl _)) (fid ids cp)
    have hlink := hlt1.trans hlink1
    have hspan := hlt2.trans hspan1
    have hlenl : (getN t (fid ids cp)).links.length = heightAt hh xs cp := by
      rw [(hshape.2.2 (fid ids cp)).2.2.2.1, C.links_length_at hkn]
    have hlens : (getN t (fid ids cp)).links_len.length = heightAt hh xs cp := by
      rw [(hshape.2.2 (fid ids cp)).2.2.2.2, C.links_len_length_at hkn]
    have hnlenl : (getN t nodeId).links.length = level + 1 := by
      rw [(hshape.2.2 nodeId).2.2.2.1, hnode]
      simp [Node.new]
    have hnlens : (getN t nodeId).links_len.length = level + 1 := by
      rw [(hshape.2.2 nodeId).2.2.2.2, hnode]
      simp [Node.new]
    have hfcp : fid ids cp ≠ nodeId := by
      have := hfid cp hkn
      omega
    have haren : t.arena.length = s1.arena.length := hshape.1
    have hcpArena : fid ids cp < t.arena.length := by
      rw [haren]
      exact C.fid_lt hkn
    have hnodeArena : nodeId < t.arena.length := by rw [haren]; exact hnodeLt
    rcases hna : nextAbove xs cl cp with _ | q
    · -- null link at this level
      rw [hna] at hlink hspan
      simp only [Option.map_none', Option.getD_none] at hlink hspan
      have hp : levelPred xs cl a = cp := by
        refine levelPred_eq xs cl a cp (by omega) ?_ ?_
        · rcases Nat.eq_zero_or_pos cp with rfl | hcp0
          · exact Or.inl rfl
          · right
            simpa [heightAt, Nat.pos_iff_ne_zero.mp hcp0] using hcl
        · intro r hr1 _
          exact (nextAbove_none_iff ..).mp hna r hr1
      by_cases hcll : cl ≤ level
      · -- link the new node in at this level
        set t' := updN t (fid ids cp) (fun nd =>
          (nd.setLink cl (some nodeId)).setSpan cl (a - cp)) with ht'
        have hshape' : sameShape t' s1 := by
          refine sameShape_updN hshape _ _ (fun nd => ?_)
          simp
        have hreads : ∀ l', l' ≠ cl → ∀ id,
            (getN t' id).linkAt l' = (getN t id).linkAt l' ∧
            (getN t' id).spanAt l' = (getN t id).spanAt l' := by
          intro l' hl' id
          exact updLS_read_ne_level t _ id cl l' _ _ (fun h => hl' h.symm)
        have hlev' : ∀ l, l < cl → sameLevel t' s1 l := by
          intro l hl
          exact sameLevel_mono (hlevels l (by omega))
            (hreads l (by omega))
        have hdone' : ∀ l, cl ≤ l → l < hh →
            insLevelDone t' s1 ids xs a level nodeId l := by
          intro l hl1 hl2
          rcases Nat.eq_or_lt_of_le hl1 with rfl | hl3
          · -- the level just finished
            refine ⟨fun k hk hkp => ?_, ?_⟩
            · rw [hp] at hkp
              have hne : fid ids k ≠ fid ids cp := by
                intro he
                exact hkp (C.fid_inj hk hkn he)
              rw [updLS_read_ne_id t _ _ _ _ _ (fun h => hne h.symm)]
              exact (hlevels cl (le_refl _)) (fid ids k)
            · rw [if_pos hcll, hp, hna]
              obtain ⟨w1, w2⟩ := updLS_same t (fid ids cp) cl (some nodeId)
                (a - cp) hcpArena (by omega) (by omega)
              refine ⟨w1, w2, ?_, ?_⟩
              · rw [updLS_read_ne_id t _ _ _ _ _ hfcp,
                  ((hlevels cl (le_refl _)) nodeId).1, hnode]
                show (List.replicate (level + 1) none).get? cl = _
                rw [List.get?_eq_getElem?,
                  List.getElem?_replicate_of_lt (by omega)]
                rfl
              · rw [updLS_read_ne_id t _ _ _ _ _ hfcp,
                  ((hlevels cl (le_refl _)) nodeId).2, hnode]
                show (List.replicate (level + 1) 0).get? cl = _
                rw [List.get?_eq_getElem?,
                  List.getElem?_replicate_of_lt (by omega)]
                rfl
          · exact insLevelDone_mono (hdone l hl3 hl2) (hreads l (by omega))
        refine ?_
        show ∃ tf, insertLoop (fuel + 1) t nodeId level a (fid ids cp) cp cl =
          some (tf, fid ids (a - 1)) ∧ _
        rw [insertLoop, hlink]
        simp only [if_pos hcll, ← ht']
        by_cases hcl0 : cl = 0
        · subst hcl0
          rw [if_pos rfl]
          have hpa : cp = a - 1 := by
            rw [← hp, levelPred_zero_level xs a ha1 (by omega)]
          refine ⟨t', by rw [hpa], hshape', fun l hl => hdone' l (by omega) hl⟩
        · rw [if_neg hcl0]
          exact ih t' cp (cl - 1) hshape'
            (fun l hl => hlev' l (by omega))
            (fun l hl1 hl2 => hdone' l (by omega) hl2)
            hcp (by
              rcases levelPred_height xs cl a with h0 | h0
              · rw [hp] at h0
                subst h0
                simpa [heightAt] using (by omega : cl - 1 < heightAt hh xs 0)
              · rw [hp] at h0
                have : cp ≠ 0 := by
                  intro he
                  rw [he] at h0
                  simp [entryHeight] at h0
                simp only [heightAt, if_neg this]
                omega)
            (by omega)
      · -- level above the new node's height: nothing to do
        have hdone' : ∀ l, cl ≤ l → l < hh →
            insLevelDone t s1 ids xs a level nodeId l := by
          intro l hl1 hl2
          rcases Nat.eq_or_lt_of_le hl1 with rfl | hl3
          · refine ⟨fun k hk hkp => (hlevels cl (le_refl _)) (fid ids k), ?_⟩
            rw [if_neg hcll, hp, hna]
            refine ⟨((hlevels cl (le_refl _)) (fid ids cp)).1, ?_⟩
            rw [((hlevels cl (le_refl _)) (fid ids cp)).2, hspan1, hna]
            rfl
          · exact hdone l hl3 hl2
        show ∃ tf, insertLoop (fuel + 1) t nodeId level a (fid ids cp) cp cl =
          some (tf, fid ids (a - 1)) ∧ _
        rw [insertLoop, hlink]
        simp only [if_neg hcll]
        have hcl0 : cl ≠ 0 := by
          intro he
          rw [he, nextAbove_zero xs cp (by omega)] at hna
          cases hna
        rw [if_neg hcl0]
        exact ih t cp (cl - 1) hshape
          (fun l hl => hlevels l (by omega))
          (fun l hl1 hl2 => hdone' l (by omega) hl2)
          hcp (by
            rcases levelPred_height xs cl a with h0 | h0
            · rw [hp] at h0
              subst h0
              simpa [heightAt] using (by omega : cl - 1 < heightAt hh xs 0)
            · rw [hp] at h0
              have : cp ≠ 0 := by
                intro he
                rw [he] at h0
                simp [entryHeight] at h0
              simp only [heightAt, if_neg this]
              omega)
          (by omega)
    · -- a link crosses at this level
      rw [hna] at hlink hspan
      simp only [Option.map_some', Option.getD_some] at hlink hspan
      obtain ⟨hq1, hq2⟩ := nextAbove_pos_le hna
      have hqh : cl < heightAt hh xs q := by
        have hq0 : q ≠ 0 := by omega
        simp only [heightAt, if_neg hq0]
        exact ((nextAbove_some_iff ..).mp hna).2.1
      by_cases hqa : q < a
      · -- keep moving right at this level
        show ∃ tf, insertLoop (fuel + 1) t nodeId level a (fid ids cp) cp cl =
          some (tf, fid ids (a - 1)) ∧ _
        rw [insertLoop, hlink, hspan]
        simp only
        rw [if_pos (by omega : cp + (q - cp) < a)]
        have hqe : cp + (q - cp) = q := by omega
        rw [hqe]
        exact ih t q cl hshape hlevels hdone (by omega) hqh (by omega)
      · -- the link crosses the insertion point: mutate and descend
        push_neg at hqa
        have hp : levelPred xs cl a = cp := by
          refine levelPred_eq xs cl a cp (by omega) ?_ ?_
          · rcases Nat.eq_zero_or_pos cp with rfl | hcp0
            · exact Or.inl rfl
            · right
              simpa [heightAt, Nat.pos_iff_ne_zero.mp hcp0] using hcl
          · intro r hr1 hr2
            exact ((nextAbove_some_iff ..).mp hna).2.2 r hr1 (by omega)
        by_cases hcll : cl ≤ level
        · -- splice the new node in between
          set tA := updN t nodeId (fun nd =>
            (nd.setLink cl (some (fid ids q))).setSpan cl (cp + (q - cp) + 1 - a))
            with htA
          set t' := updN tA (fid ids cp) (fun nd =>
            (nd.setLink cl (some nodeId)).setSpan cl (a - cp)) with ht'
          have hshapeA : sameShape tA s1 := by
            refine sameShape_updN hshape _ _ (fun nd => ?_)
            simp
          have hshape' : sameShape t' s1 := by
            refine sameShape_updN hshapeA _ _ (fun nd => ?_)
            simp
          have hreads : ∀ l', l' ≠ cl → ∀ id,
              (getN t' id).linkAt l' = (getN t id).linkAt l' ∧
              (getN t' id).spanAt l' = (getN t id).spanAt l' := by
            intro l' hl' id
            obtain ⟨e1, e2⟩ :=
              updLS_read_ne_level tA _ id cl l' _ _ (fun h => hl' h.symm)
            obtain ⟨f1, f2⟩ :=
              updLS_read_ne_level t _ id cl l' _ _ (fun h => hl' h.symm)
            exact ⟨e1.trans f1, e2.trans f2⟩
          have hcpArenaA : fid ids cp < tA.arena.length := by
            rw [hshapeA.1]
            exact C.fid_lt hkn
          have hlev' : ∀ l, l < cl → sameLevel t' s1 l := by
            intro l hl
            exact sameLevel_mono (hlevels l (by omega)) (hreads l (by omega))
          have hdone' : ∀ l, cl ≤ l → l < hh →
              insLevelDone t' s1 ids xs a level nodeId l := by
            intro l hl1 hl2
            rcases Nat.eq_or_lt_of_le hl1 with rfl | hl3
            · refine ⟨fun k hk hkp => ?_, ?_⟩
              · rw [hp] at hkp
                have hne : fid ids k ≠ fid ids cp := by
                  intro he
                  exact hkp (C.fid_inj hk hkn he)
                have hne2 : fid ids k ≠ nodeId := by
                  have := hfid k hk
                  omega
                rw [updLS_read_ne_id tA _ _ _ _ _ (fun h => hne h.symm),
                  updLS_read_ne_id t _ _ _ _ _ (fun h => hne2 h.symm)]
                exact (hlevels cl (le_refl _)) (fid ids k)
              · rw [if_pos hcll, hp, hna]
                have hAlenl : (getN tA (fid ids cp)).links.length =
                    heightAt hh xs cp := by
                  rw [(hshapeA.2.2 (fid ids cp)).2.2.2.1, C.links_length_at hkn]
                have hAlens : (getN tA (fid ids cp)).links_len.length =
                    heightAt hh xs cp := by
                  rw [(hshapeA.2.2 (fid ids cp)).2.2.2.2, C.links_len_length_at hkn]
                obtain ⟨w1, w2⟩ := updLS_same tA (fid ids cp) cl (some nodeId)
                  (a - cp) hcpArenaA (by omega) (by omega)
                refine ⟨w1, w2, ?_, ?_⟩
                · rw [(updLS_read_ne_id tA (fid ids cp) nodeId _ _ _ hfcp ▸ rfl :
                    getN t' nodeId = getN tA nodeId)]
                  obtain ⟨u1, u2⟩ := updLS_same t nodeId cl (some (fid ids q))
                    (cp + (q - cp) + 1 - a) hnodeArena (by omega) (by omega)
                  rw [u1]
                  rfl
                · rw [(updLS_read_ne_id tA (fid ids cp) nodeId _ _ _ hfcp ▸ rfl :
                    getN t' nodeId = getN tA nodeId)]
                  obtain ⟨u1, u2⟩ := updLS_same t nodeId cl (some (fid ids q))
                    (cp + (q - cp) + 1 - a) hnodeArena (by omega) (by omega)
                  rw [u2]
                  have : cp + (q - cp) + 1 - a = q + 1 - a := by omega
                  rw [this]
                  rfl
            · exact insLevelDone_mono (hdone l hl3 hl2) (hreads l (by omega))
          show ∃ tf, insertLoop (fuel + 1) t nodeId level a (fid ids cp) cp cl =
            some (tf, fid ids (a - 1)) ∧ _
          rw [insertLoop, hlink, hspan]
          simp only
          rw [if_neg (by omega : ¬ cp + (q - cp) < a)]
          simp only [if_pos hcll, ← htA, ← ht']
          by_cases hcl0 : cl = 0
          · subst hcl0
            rw [if_pos rfl]
            have hpa : cp = a - 1 := by
              rw [← hp, levelPred_zero_level xs a ha1 (by omega)]
            refine ⟨t', by rw [hpa], hshape', fun l hl => hdone' l (by omega) hl⟩
          · rw [if_neg hcl0]
            exact ih t' cp (cl - 1) hshape'
              (fun l hl => hlev' l (by omega))
              (fun l hl1 hl2 => hdone' l (by omega) hl2)
              hcp (by
                rcases levelPred_height xs cl a with h0 | h0
                · rw [hp] at h0
                  subst h0
                  simpa [heightAt] using (by omega : cl - 1 < heightAt hh xs 0)
                · rw [hp] at h0
                  have : cp ≠ 0 := by
                    intro he
                    rw [he] at h0
                    simp [entryHeight] at h0
                  simp only [heightAt, if_neg this]
                  omega)
              (by omega)
        · -- level above the new node: widen the crossing span by one
          set t' := updN t (fid ids cp) (fun nd =>
            nd.setSpan cl (q - cp + 1)) with ht'
          have hshape' : sameShape t' s1 := by
            refine sameShape_updN hshape _ _ (fun nd => ?_)
            simp
          have hreads : ∀ l', l' ≠ cl → ∀ id,
              (getN t' id).linkAt l' = (getN t id).linkAt l' ∧
              (getN t' id).spanAt l' = (getN t id).spanAt l' := by
            intro l' hl' id
            exact updS_read_ne_level t _ id cl l' _ (fun h => hl' h.symm)
          have hlev' : ∀ l, l < cl → sameLevel t' s1 l := by
            intro l hl
            exact sameLevel_mono (hlevels l (by omega)) (hreads l (by omega))
          have hdone' : ∀ l, cl ≤ l → l < hh →
              insLevelDone t' s1 ids xs a level nodeId l := by
            intro l hl1 hl2
            rcases Nat.eq_or_lt_of_le hl1 with rfl | hl3
            · refine ⟨fun k hk hkp => ?_, ?_⟩
              · rw [hp] at hkp
                have hne : fid ids k ≠ fid ids cp := by
                  intro he
                  exact hkp (C.fid_inj hk hkn he)
                rw [getN_updN_ne t _ _ _ (fun h => hne h.symm)]
                exact (hlevels cl (le_refl _)) (fid ids k)
              · rw [if_neg hcll, hp, hna]
                obtain ⟨w1, w2⟩ := updS_same t (fid ids cp) cl (q - cp + 1)
                  hcpArena (by omega)
                refine ⟨w1.trans ((hlevels cl (le_refl _)) (fid ids cp)).1, ?_⟩
                rw [w2]
                have : q - cp + 1 = q + 1 - cp := by omega
                rw [this]
                rfl
            · exact insLevelDone_mono (hdone l hl3 hl2) (hreads l (by omega))
          show ∃ tf, insertLoop (fuel + 1) t nodeId level a (fid ids cp) cp cl =
            some (tf, fid ids (a - 1)) ∧ _
          rw [insertLoop, hlink, hspan]
          simp only
          rw [if_neg (by omega : ¬ cp + (q - cp) < a)]
          simp only [if_neg hcll]
          have hspanEq : (q - cp) + 1 = q - cp + 1 := rfl
          rw [← ht']
          by_cases hcl0 : cl = 0
          · subst hcl0
            omega
          · rw [if_neg hcl0]
            exact ih t' cp (cl - 1) hshape'
              (fun l hl => hlev' l (by omega))
              (fun l hl1 hl2 => hdone' l (by omega) hl2)
              hcp (by
                rcases levelPred_height xs cl a with h0 | h0
                · rw [hp] at h0
                  subst h0
                  simpa [heightAt] using (by omega : cl - 1 < heightAt hh xs 0)
                · rw [hp] at h0
                  have : cp ≠ 0 := by
                    intro he
                    rw [he] at h0
                    simp [entryHeight] at h0
                  simp only [heightAt, if_neg this]
                  omega)
              (by omega)

theorem insertIdx_perm {α : Type} (x : α) :
    ∀ (i : Nat) (l : List α), i ≤ l.length → (l.insertIdx i x).Perm (x :: l) := by
  intro i
  induction i with
  | zero => intro l _; rfl
  | succ i ih =>
    intro l hl
    match l with
    | [] => simp at hl
    | h :: t =>
      rw [List.insertIdx_succ_cons]
      exact ((ih t (by simpa using hl)).cons h).trans (List.Perm.swap x h t)

/-- Positions in the `0 :: ids` table after an insertion. -/
theorem fid_insertIdx (ids : List Nat) (nodeId index : Nat)
    (hidx : index ≤ ids.length) (k : Nat) :
    fid (ids.insertIdx index nodeId) k =
      if k < index + 1 then fid ids k
      else if k = index + 1 then nodeId
      else fid ids (k - 1) := by
  have hc : (0 : Nat) :: ids.insertIdx index nodeId =
      (0 :: ids).insertIdx (index + 1) nodeId := by
    rw [List.insertIdx_succ_cons]
  rw [fid, hc, List.getD_eq_getElem?_getD, ← List.get?_eq_getElem?,
    get?_insertIdx nodeId (index + 1) (0 :: ids) (by simpa using hidx) k]
  split
  · rw [fid, List.getD_eq_getElem?_getD, ← List.get?_eq_getElem?]
  · split
    · simp
    · rw [fid, List.getD_eq_getElem?_getD, ← List.get?_eq_getElem?]

/-- `nextAbove` out of the freshly inserted node: the shifted image of the
link out of the level predecessor. -/
theorem nextAbove_insertIdx_of_pred {V : Type} {xs : List (V × Nat)} {e : V × Nat}
    {index : Nat} (hi : index ≤ xs.length) {l p : Nat} (hple : p ≤ index)
    (hcond : ∀ r, p < r → r ≤ index → entryHeight xs r ≤ l) :
    nextAbove (xs.insertIdx index e) l (index + 1) =
      (nextAbove xs l p).map (fun q => q + 1) := by
  rcases hna : nextAbove xs l p with _ | q
  · rw [Option.map_none', nextAbove_none_iff]
    intro r hr
    rw [entryHeight_insertIdx xs e index hi r, if_neg (by omega),
      if_neg (by omega)]
    exact (nextAbove_none_iff ..).mp hna (r - 1) (by omega)
  · obtain ⟨h1, h2, h3⟩ := (nextAbove_some_iff ..).mp hna
    have hqa : index + 1 ≤ q := by
      by_contra hlt
      push_neg at hlt
      have := hcond q h1 (by omega)
      omega
    rw [Option.map_some', nextAbove_some_iff]
    refine ⟨by omega, ?_, ?_⟩
    · rw [entryHeight_insertIdx xs e index hi (q + 1), if_neg (by omega),
        if_neg (by omega)]
      simpa using h2
    · intro r hr1 hr2
      rw [entryHeight_insertIdx xs e index hi r, if_neg (by omega),
        if_neg (by omega)]
      rcases Nat.lt_or_ge (r - 1) (p + 1) with hc | hc
      · exact hcond (r - 1) (by omega) (by omega)
      · exact h3 (r - 1) (by omega) (by omega)


theorem getN_updN_pn {V : Type} (t : SkipList V) (id : Nat) (f : Node V → Node V)
    (hf : ∀ nd, (f nd).links = nd.links ∧ (f nd).links_len = nd.links_len ∧
      (f nd).value = nd.value) (id' : Nat) :
    (getN (updN t id f) id').links = (getN t id').links ∧
    (getN (updN t id f) id').links_len = (getN t id').links_len ∧
    (getN (updN t id f) id').value = (getN t id').value := by
  by_cases hid : id < t.arena.length
  · by_cases he : id = id'
    · subst he
      rw [getN_updN_same _ _ _ hid]
      exact hf (getN t id)
    · rw [getN_updN_ne _ _ _ _ he]
      exact ⟨rfl, rfl, rfl⟩
  · rw [updN, setN_oob _ _ _ (by omega)]
    exact ⟨rfl, rfl, rfl⟩


theorem getN_arena_of {V : Type} (s : SkipList V) (n id : Nat) :
    getN { arena := s.arena, length := n } id = getN s id := rfl

theorem canonical_insert_final {V : Type} {s1 tf sF : SkipList V} {hh : Nat}
    {ids : List Nat} {xs : List (V × Nat)} {index : Nat} {v : V}
    {level nodeId : Nat}
    (C1 : Canonical s1 hh ids xs)
    (hidx : index ≤ xs.length)
    (hnodeLt : nodeId < s1.arena.length) (hnodepos : 0 < nodeId)
    (hnodemem : nodeId ∉ ids)
    (hnode1 : getN s1 nodeId = Node.new (some v) (level + 1))
    (hlevel : level + 1 ≤ hh)
    (hshapef : sameShape tf s1)
    (hdonef : ∀ l, l < hh → insLevelDone tf s1 ids xs (index + 1) level nodeId l)
    (harena : sF.arena.length = tf.arena.length)
    (hlenF : sF.length = tf.length + 1)
    (hpn : ∀ id, (getN sF id).links = (getN tf id).links ∧
      (getN sF id).links_len = (getN tf id).links_len ∧
      (getN sF id).value = (getN tf id).value)
    (hnextF : ∀ k ≤ xs.length + 1,
      (getN sF (fid (ids.insertIdx index nodeId) k)).next =
        (ids.insertIdx index nodeId).get? k)
    (hprevF : ∀ k, 1 ≤ k → k ≤ xs.length + 1 →
      (getN sF (fid (ids.insertIdx index nodeId) k)).prev =
        some (fid (ids.insertIdx index nodeId) (k - 1))) :
    Canonical sF hh (ids.insertIdx index nodeId) (xs.insertIdx index (v, level)) := by
  have hids_len := C1.ids_len
  have hi_ids : index ≤ ids.length := by omega
  have hxs'len : (xs.insertIdx index (v, level)).length = xs.length + 1 :=
    List.length_insertIdx index xs hidx
  have hids'len : (ids.insertIdx index nodeId).length = ids.length + 1 :=
    List.length_insertIdx index ids hi_ids
  have hfidmap := fid_insertIdx ids nodeId index hi_ids
  have hEH := entryHeight_insertIdx xs (v, level) index hidx
  have htf_arena : tf.arena.length = s1.arena.length := hshapef.1
  have htf_len : tf.length = s1.length := hshapef.2.1
  have hval : ∀ id, (getN sF id).value = (getN s1 id).value :=
    fun id => ((hpn id).2.2).trans (hshapef.2.2 id).1
  have hlinklen : ∀ id, (getN sF id).links.length = (getN s1 id).links.length :=
    fun id => (congrArg List.length (hpn id).1).trans (hshapef.2.2 id).2.2.2.1
  have hspanlen : ∀ id, (getN sF id).links_len.length =
      (getN s1 id).links_len.length :=
    fun id => (congrArg List.length (hpn id).2.1).trans (hshapef.2.2 id).2.2.2.2
  have hlinkAtF : ∀ id l, (getN sF id).linkAt l = (getN tf id).linkAt l :=
    fun id l => by rw [Node.linkAt, Node.linkAt, (hpn id).1]
  have hspanAtF : ∀ id l, (getN sF id).spanAt l = (getN tf id).spanAt l :=
    fun id l => by rw [Node.spanAt, Node.spanAt, (hpn id).2.1]
  have hlint : ∀ id l, (getN tf id).linkAt l = (getN s1 id).linkAt l →
      (getN sF id).linkAt l = (getN s1 id).linkAt l :=
    fun id l h => (hlinkAtF id l).trans h
  refine ⟨?_, ?_, ?_, ?_, ?_, ?_, ?_, ?_, ?_, ?_, ?_, ?_,
    fun k hk => hnextF k (by rw [hxs'len] at hk; omega),
    fun k hk1 hk2 => hprevF k hk1 (by rw [hxs'len] at hk2; omega), ?_⟩
  · rw [hlenF, htf_len, C1.len_eq, hxs'len]
  · rw [hids'len, hxs'len, hids_len]
  · rw [harena, htf_arena]
    exact C1.head_lt
  · intro i hi
    rw [List.mem_insertIdx hi_ids] at hi
    rw [harena, htf_arena]
    rcases hi with rfl | hi
    · exact ⟨hnodeLt, hnodepos⟩
    · exact C1.ids_bounds i hi
  · exact ((insertIdx_perm nodeId index ids hi_ids).nodup_iff).mpr
      (List.nodup_cons.mpr ⟨hnodemem, C1.ids_nodup⟩)
  · rw [hval 0]
    exact C1.head_value
  · rw [hlinklen 0]
    exact C1.head_links
  · rw [hspanlen 0]
    exact C1.head_spans
  · intro k hk
    rw [hEH (k + 1)]
    split
    · exact C1.height_le k (by rw [hxs'len] at hk; omega)
    · split
      · exact hlevel
      · rw [hxs'len] at hk
        have : k + 1 - 1 = k - 1 + 1 := by omega
        rw [this]
        exact C1.height_le (k - 1) (by omega)
  · intro k hk
    rw [hxs'len] at hk
    rw [get?_insertIdx nodeId index ids hi_ids k,
      get?_insertIdx (v, level) index xs hidx k]
    rcases Nat.lt_trichotomy k index with hc | rfl | hc
    · rw [if_pos hc, if_pos hc, get?_eq_fid C1 (by omega), Option.some_bind, hval]
      have h0 := C1.node_value k (by omega)
      rw [get?_eq_fid C1 (by omega), Option.some_bind] at h0
      exact h0
    · rw [if_neg (by omega), if_pos rfl, if_neg (by omega), if_pos rfl,
        Option.some_bind, hval, hnode1]
      rfl
    · rw [if_neg (by omega), if_neg (by omega), if_neg (by omega),
        if_neg (by omega), get?_eq_fid C1 (k := k - 1) (by omega),
        Option.some_bind, hval]
      have h0 := C1.node_value (k - 1) (by omega)
      rw [get?_eq_fid C1 (by omega), Option.some_bind] at h0
      exact h0
  · intro k hk
    rw [hxs'len] at hk
    rw [get?_insertIdx nodeId index ids hi_ids k,
      get?_insertIdx (v, level) index xs hidx k]
    rcases Nat.lt_trichotomy k index with hc | rfl | hc
    · rw [if_pos hc, if_pos hc, get?_eq_fid C1 (by omega), Option.map_some',
        hlinklen]
      have h0 := C1.node_links k (by omega)
      rw [get?_eq_fid C1 (by omega), Option.map_some'] at h0
      exact h0
    · rw [if_neg (by omega), if_pos rfl, if_neg (by omega), if_pos rfl,
        Option.map_some', hlinklen, hnode1]
      simp [Node.new]
    · rw [if_neg (by omega), if_neg (by omega), if_neg (by omega),
        if_neg (by omega), get?_eq_fid C1 (k := k - 1) (by omega),
        Option.map_some', hlinklen]
      have h0 := C1.node_links (k - 1) (by omega)
      rw [get?_eq_fid C1 (by omega), Option.map_some'] at h0
      exact h0
  · intro k hk
    rw [hxs'len] at hk
    rw [get?_insertIdx nodeId index ids hi_ids k,
      get?_insertIdx (v, level) index xs hidx k]
    rcases Nat.lt_trichotomy k index with hc | rfl | hc
    · rw [if_pos hc, if_pos hc, get?_eq_fid C1 (by omega), Option.map_some',
        hspanlen]
      have h0 := C1.node_spans k (by omega)
      rw [get?_eq_fid C1 (by omega), Option.map_some'] at h0
      exact h0
    · rw [if_neg (by omega), if_pos rfl, if_neg (by omega), if_pos rfl,
        Option.map_some', hspanlen, hnode1]
      simp [Node.new]
    · rw [if_neg (by omega), if_neg (by omega), if_neg (by omega),
        if_neg (by omega), get?_eq_fid C1 (k := k - 1) (by omega),
        Option.map_some', hspanlen]
      have h0 := C1.node_spans (k - 1) (by omega)
      rw [get?_eq_fid C1 (by omega), Option.map_some'] at h0
      exact h0
  · -- links_ok
    intro k hk l hl
    rw [hxs'len] at hk
    rw [hlinkAtF, hspanAtF]
    by_cases hka : k < index + 1
    · -- old node, position unchanged
      have hfk : fid (ids.insertIdx index nodeId) k = fid ids k := by
        rw [hfidmap k, if_pos hka]
      have hheq : heightAt hh (xs.insertIdx index (v, level)) k =
          heightAt hh xs k := by
        rcases Nat.eq_zero_or_pos k with rfl | hkpos
        · simp [heightAt]
        · have hkz : k ≠ 0 := by omega
          simp only [heightAt, if_neg hkz]
          rw [hEH k, if_pos hka]
      rw [hfk]
      rw [hheq] at hl
      obtain ⟨L1, L2⟩ := C1.links_ok k (by omega) l hl
      have hlhh : l < hh := hl.trans_le (C1.heightAt_le_hh (by omega))
      obtain ⟨D1, D2⟩ := hdonef l hlhh
      rcases hnb : nextAbove xs l k with _ | q
      · -- no outgoing link before: k is the level predecessor
        have hkp : levelPred xs l (index + 1) = k := by
          refine levelPred_eq xs l (index + 1) k (by omega) ?_ ?_
          · rcases Nat.eq_zero_or_pos k with rfl | hkpos
            · exact Or.inl rfl
            · right
              have hk0 : k ≠ 0 := by omega
              simpa [heightAt, hk0] using hl
          · intro r hr1 _
            exact (nextAbove_none_iff ..).mp hnb r hr1
        rw [hkp] at D2
        by_cases hll : l ≤ level
        · rw [if_pos hll] at D2
          obtain ⟨E1, E2, E3, E4⟩ := D2
          have hna' : nextAbove (xs.insertIdx index (v, level)) l k =
              some (index + 1) :=
            nextAbove_insertIdx_new hidx hka (by omega) (Or.inl hnb)
          rw [hna', E1, E2]
          constructor
          · rw [Option.map_some', hfidmap (index + 1), if_neg (by omega),
              if_pos rfl]
          · rfl
        · rw [if_neg hll] at D2
          obtain ⟨E1, E2⟩ := D2
          have hna' : nextAbove (xs.insertIdx index (v, level)) l k = none := by
            rw [nextAbove_insertIdx_skip hidx hka (by omega), hnb]
            rfl
          rw [hna', E1, L1, E2, hnb]
          exact ⟨rfl, rfl⟩
      · by_cases hqa : q < index + 1
        · -- the link stays below the insertion point
          have hkp : k ≠ levelPred xs l (index + 1) := by
            intro he
            have := nextAbove_levelPred xs l (index + 1) q (by omega)
              (by rw [← he]; exact hnb)
            omega
          obtain ⟨F1, F2⟩ := D1 k (by omega) hkp
          have hna' : nextAbove (xs.insertIdx index (v, level)) l k = some q :=
            nextAbove_insertIdx_lt hidx hnb hqa
          rw [hna', F1, L1, F2, L2, hnb]
          constructor
          · rw [Option.map_some', Option.map_some', hfidmap q, if_pos hqa]
          · rfl
        · -- the link crosses the insertion point: k is the level predecessor
          have hkp : levelPred xs l (index + 1) = k := by
            refine levelPred_eq xs l (index + 1) k (by omega) ?_ ?_
            · rcases Nat.eq_zero_or_pos k with rfl | hkpos
              · exact Or.inl rfl
              · right
                have hk0 : k ≠ 0 := by omega
                simpa [heightAt, hk0] using hl
            · intro r hr1 hr2
              exact ((nextAbove_some_iff ..).mp hnb).2.2 r hr1 (by omega)
          rw [hkp] at D2
          by_cases hll : l ≤ level
          · rw [if_pos hll] at D2
            obtain ⟨E1, E2, E3, E4⟩ := D2
            have hna' : nextAbove (xs.insertIdx index (v, level)) l k =
                some (index + 1) :=
              nextAbove_insertIdx_new hidx hka (by omega)
                (Or.inr ⟨q, hnb, by omega⟩)
            rw [hna', E1, E2]
            constructor
            · rw [Option.map_some', hfidmap (index + 1), if_neg (by omega),
                if_pos rfl]
            · rfl
          · rw [if_neg hll] at D2
            obtain ⟨E1, E2⟩ := D2
            have hna' : nextAbove (xs.insertIdx index (v, level)) l k =
                some (q + 1) := by
              rw [nextAbove_insertIdx_skip hidx hka (by omega), hnb]
              simp only [Option.map_some']
              rw [if_neg (by omega)]
            rw [hna', E1, L1, E2, hnb]
            constructor
            · rw [Option.map_some', Option.map_some', hfidmap (q + 1),
                if_neg (by omega), if_neg (by omega)]
              simp
            · simp
    · by_cases hka2 : k = index + 1
      · -- the freshly inserted node
        subst hka2
        have hfk : fid (ids.insertIdx index nodeId) (index + 1) = nodeId := by
          rw [hfidmap (index + 1), if_neg (by omega), if_pos rfl]
        have hhl : l < level + 1 := by
          have : heightAt hh (xs.insertIdx index (v, level)) (index + 1) =
              level + 1 := by
            simp only [heightAt, if_neg (by omega : ¬ index + 1 = 0)]
            rw [hEH (index + 1), if_neg (by omega), if_pos rfl]
          omega
        have hlhh : l < hh := by omega
        obtain ⟨D1, D2⟩ := hdonef l hlhh
        rw [if_pos (by omega : l ≤ level)] at D2
        obtain ⟨E1, E2, E3, E4⟩ := D2
        rw [hfk]
        have hple : levelPred xs l (index + 1) ≤ index :=
          (levelPred_le xs l (index + 1)).trans (by omega)
        have hna' : nextAbove (xs.insertIdx index (v, level)) l (index + 1) =
            (nextAbove xs l (levelPred xs l (index + 1))).map (fun q => q + 1) :=
          nextAbove_insertIdx_of_pred hidx hple
            (fun r hr1 hr2 => levelPred_max xs l (index + 1) r hr1 (by omega))
        rw [hna', E3, E4]
        rcases hnb : nextAbove xs l (levelPred xs l (index + 1)) with _ | q
        · exact ⟨rfl, rfl⟩
        · have hq := nextAbove_levelPred xs l (index + 1) q (by omega) hnb
          constructor
          · simp only [Option.map_some']
            rw [hfidmap (q + 1), if_neg (by omega), if_neg (by omega)]
            simp
          · simp
      · -- old node shifted one position to the right
        have hj1 : index + 1 < k := by omega
        have hjn : k - 1 ≤ xs.length := by omega
        have hfk : fid (ids.insertIdx index nodeId) k = fid ids (k - 1) := by
          rw [hfidmap k, if_neg (by omega), if_neg (by omega)]
        have hhl : l < heightAt hh xs (k - 1) := by
          have h1 : heightAt hh (xs.insertIdx index (v, level)) k =
              entryHeight xs (k - 1) := by
            simp only [heightAt, if_neg (by omega : ¬ k = 0)]
            rw [hEH k, if_neg (by omega), if_neg (by omega)]
          simp only [heightAt, if_neg (by omega : ¬ k - 1 = 0)]
          omega
        obtain ⟨L1, L2⟩ := C1.links_ok (k - 1) hjn l hhl
        have hlhh : l < hh := hhl.trans_le (C1.heightAt_le_hh hjn)
        obtain ⟨D1, D2⟩ := hdonef l hlhh
        have hkp : k - 1 ≠ levelPred xs l (index + 1) := by
          have := levelPred_le xs l (index + 1)
          omega
        obtain ⟨F1, F2⟩ := D1 (k - 1) hjn hkp
        have hna' : nextAbove (xs.insertIdx index (v, level)) l k =
            (nextAbove xs l (k - 1)).map (fun q => q + 1) := by
          have he : k - 1 + 1 = k := by omega
          rw [← he]
          exact nextAbove_insertIdx_ge hidx (by omega)
        rw [hfk, hna', F1, L1, F2, L2]
        rcases hnb : nextAbove xs l (k - 1) with _ | q
        · exact ⟨rfl, rfl⟩
        · have hq := (nextAbove_pos_le hnb).1
          constructor
          · simp only [Option.map_some']
            rw [hfidmap (q + 1), if_neg (by omega), if_neg (by omega)]
            simp
          · simp only [Option.map_some', Option.getD_some]
            congr 1
            omega

theorem insert_spec {V : Type} {s : SkipList V} {hh : Nat} {ids : List Nat}
    {xs : List (V × Nat)} (C : Canonical s hh ids xs) (index : Nat) (v : V)
    (level : Nat) (hidx : index ≤ xs.length) :
    ∃ s', SkipList.insert s index v level = some s' ∧
      Canonical s' (max hh (level + 1)) (ids.insertIdx index s.arena.length)
        (xs.insertIdx index (v, level)) := by
  have hlen := C.len_eq
  have hidslen := C.ids_len
  have hn_lt := C.n_lt_arena
  have hguard : ¬ index > s.length := by omega
  simp only [SkipList.insert, if_neg hguard]
  set nodeId := s.arena.length with hnodeId
  set s1 := growHead { s with arena := s.arena ++ [Node.new (some v) (level + 1)] } level with hs1
  have C0 : Canonical { s with arena := s.arena ++ [Node.new (some v) (level + 1)] } hh ids xs :=
    canonical_append C _
  have C1 : Canonical s1 (max hh (level + 1)) ids xs := canonical_growHead C0 level
  have harena1 : s1.arena.length = s.arena.length + 1 := by
    rw [hs1, growHead, arena_updN]
    simp
  have hnodeArena : nodeId < s1.arena.length := by omega
  have hnodepos : 0 < nodeId := C.head_lt
  have hnode1 : getN s1 nodeId = Node.new (some v) (level + 1) := by
    rw [hs1, growHead, getN_updN_ne _ 0 nodeId _ (by omega)]
    exact getN_append_self s _
  have hfid : ∀ k ≤ xs.length, fid ids k < nodeId := fun k hk => C.fid_lt hk
  have hH : (getN s1 0).links.length = max hh (level + 1) := C1.head_links
  have hHpos : 1 ≤ max hh (level + 1) := by omega
  rw [hH]
  obtain ⟨tf, hloop, hshapef, hdonef⟩ := insertLoop_go C1 hfid hnodeArena hnode1
    (by omega : 1 ≤ index + 1) (by omega)
    ((s1.arena.length + 2) * (max hh (level + 1) + 2)) s1 0 (max hh (level + 1) - 1)
    (sameShape_refl s1) (fun l _ id => ⟨rfl, rfl⟩) (fun l h1 h2 => by omega)
    (by omega) (by simp [heightAt]; omega)
    (by
      have hexp : (s1.arena.length + 2) * (max hh (level + 1) + 2) =
        s1.arena.length * max hh (level + 1) + 2 * s1.arena.length +
          2 * max hh (level + 1) + 4 := by ring
      omega)
  rw [show fid ids 0 = 0 from rfl] at hloop
  rw [hloop]
  simp only [Nat.add_sub_cancel]
  refine ⟨_, rfl, ?_⟩
  have htf_arena : tf.arena.length = s1.arena.length := hshapef.1
  have hpre_lt : fid ids index < s1.arena.length := C1.fid_lt (by omega)
  have hpre_ne : fid ids index ≠ nodeId := by
    have := hfid index (by omega)
    omega
  have hnodeTf : nodeId < tf.arena.length := by omega
  have hpreTf : fid ids index < tf.arena.length := by omega
  have hnext3 : (getN (updN tf nodeId fun nd =>
      { nd with prev := some (fid ids index) }) (fid ids index)).next =
      ids.get? index := by
    rw [getN_updN_ne _ _ _ _ (fun h => hpre_ne h.symm)]
    exact ((hshapef.2.2 (fid ids index)).2.1).trans (C1.nexts index (by omega))
  have hnodemem : nodeId ∉ ids := by
    intro hmem
    have := (C.ids_bounds nodeId hmem).1
    omega
  have hlevel : level + 1 ≤ max hh (level + 1) := by omega
  rcases hx : ids.get? index with _ | nx
  · -- inserting at the very end: the predecessor had no successor
    have hin : index = xs.length := by
      rw [List.get?_eq_none] at hx
      omega
    rw [hx] at hnext3
    rw [hnext3]
    have hnextA : ∀ id, id ≠ fid ids index →
        (getN (updN (updN tf nodeId fun nd =>
          { nd with prev := some (fid ids index) }) (fid ids index)
          fun nd => { nd with next := some nodeId }) id).next =
        (getN tf id).next := by
      intro id hne
      rw [getN_updN_ne _ _ _ _ (fun h => hne h.symm)]
      by_cases hid : nodeId = id
      · subst hid
        rw [getN_updN_same _ _ _ hnodeTf]
      · rw [getN_updN_ne _ _ _ _ hid]
    have hnextPre : (getN (updN (updN tf nodeId fun nd =>
          { nd with prev := some (fid ids index) }) (fid ids index)
          fun nd => { nd with next := some nodeId }) (fid ids index)).next =
        some nodeId := by
      rw [getN_updN_same _ _ _ (by rw [arena_updN]; exact hpreTf)]
    have hprevA : ∀ id, id ≠ nodeId →
        (getN (updN (updN tf nodeId fun nd =>
          { nd with prev := some (fid ids index) }) (fid ids index)
          fun nd => { nd with next := some nodeId }) id).prev =
        (getN tf id).prev := by
      intro id hne
      by_cases hp : fid ids index = id
      · subst hp
        rw [getN_updN_same _ _ _ (by rw [arena_updN]; exact hpreTf)]
        show (getN (updN tf nodeId fun nd =>
          { nd with prev := some (fid ids index) }) (fid ids index)).prev = _
        rw [getN_updN_ne _ _ _ _ (fun h => hpre_ne h.symm)]
      · rw [getN_updN_ne _ _ _ _ hp]
        rw [getN_updN_ne _ _ _ _ (fun h => hne h.symm)]
    have hprevNode : (getN (updN (updN tf nodeId fun nd =>
          { nd with prev := some (fid ids index) }) (fid ids index)
          fun nd => { nd with next := some nodeId }) nodeId).prev =
        some (fid ids index) := by
      rw [getN_updN_ne _ _ _ _ hpre_ne]
      rw [getN_updN_same _ _ _ hnodeTf]
    refine canonical_insert_final C1 hidx hnodeArena hnodepos hnodemem hnode1
      hlevel hshapef (fun l hl => hdonef l hl)
      (by rw [arena_updN, arena_updN]) rfl ?_ ?_ ?_
    · intro id
      simp only [getN_arena_of]
      have h2 := getN_updN_pn
        (updN tf nodeId fun nd => { nd with prev := some (fid ids index) })
        (fid ids index) (fun nd => { nd with next := some nodeId })
        (fun nd => ⟨rfl, rfl, rfl⟩) id
      have h1 := getN_updN_pn tf nodeId
        (fun nd => { nd with prev := some (fid ids index) })
        (fun nd => ⟨rfl, rfl, rfl⟩) id
      exact ⟨h2.1.trans h1.1, h2.2.1.trans h1.2.1, h2.2.2.trans h1.2.2⟩
    · -- next pointers
      intro k hk
      simp only [getN_arena_of]
      rw [get?_insertIdx nodeId index ids (by omega) k,
        fid_insertIdx ids nodeId index (by omega) k]
      rcases Nat.lt_trichotomy k index with hc | hceq | hc
      · rw [if_pos (show k < index from hc),
          if_pos (show k < index + 1 from by omega)]
        rw [hnextA (fid ids k) (by
          intro he
          have := C1.fid_inj (k := k) (j := index) (by omega) (by omega) he
          omega)]
        exact ((hshapef.2.2 (fid ids k)).2.1).trans (C1.nexts k (by omega))
      · rw [if_neg (show ¬ k < index from by omega),
          if_pos (show k = index from hceq),
          if_pos (show k < index + 1 from by omega), hceq]
        exact hnextPre
      · have hkeq : k = index + 1 := by omega
        subst hkeq
        rw [if_neg (show ¬ index + 1 < index from by omega),
          if_neg (show ¬ index + 1 = index from by omega),
          if_neg (show ¬ index + 1 < index + 1 from by omega),
          if_pos (show index + 1 = index + 1 from rfl)]
        rw [hnextA nodeId (fun h => hpre_ne h.symm)]
        rw [((hshapef.2.2 nodeId).2.1).trans (show (getN s1 nodeId).next = none
          from by rw [hnode1]; rfl)]
        rw [List.get?_eq_none.mpr (by omega)]
    · -- prev pointers
      intro k hk1 hk2
      simp only [getN_arena_of]
      rw [fid_insertIdx ids nodeId index (by omega) k,
        fid_insertIdx ids nodeId index (by omega) (k - 1)]
      rcases Nat.lt_or_ge k (index + 1) with hc | hc
      · rw [if_pos (show k < index + 1 from hc),
          if_pos (show k - 1 < index + 1 from by omega)]
        rw [hprevA (fid ids k) (by
          have := hfid k (by omega)
          omega)]
        exact ((hshapef.2.2 (fid ids k)).2.2.1).trans
          (C1.prevs k hk1 (by omega))
      · have hkeq : k = index + 1 := by omega
        subst hkeq
        rw [if_neg (show ¬ index + 1 < index + 1 from by omega),
          if_pos (show index + 1 = index + 1 from rfl),
          if_pos (show index + 1 - 1 < index + 1 from by omega)]
        simp only [Nat.add_sub_cancel]
        exact hprevNode
  · -- inserting in the middle: fix up the successor too
    have hin : index < xs.length := by
      by_contra hcon
      rw [List.get?_eq_none.mpr (by omega)] at hx
      cases hx
    have hnx : nx = fid ids (index + 1) := by
      have h0 := get?_eq_fid C1 hin
      rw [hx] at h0
      exact Option.some.inj h0
    have hnx_ne_node : nx ≠ nodeId := by
      have := hfid (index + 1) (by omega)
      omega
    have hnx_ne_pre : nx ≠ fid ids index := by
      intro he
      rw [hnx] at he
      have := C1.fid_inj (k := index + 1) (j := index) (by omega) (by omega) he
      omega
    have hnxTf : nx < tf.arena.length := by
      rw [hnx, htf_arena]
      exact C1.fid_lt (by omega)
    rw [hx] at hnext3
    rw [hnext3]
    have hnextA : ∀ id, id ≠ fid ids index → id ≠ nodeId →
        (getN (updN (updN (updN (updN tf nodeId fun nd =>
          { nd with prev := some (fid ids index) }) nx fun nd =>
          { nd with prev := some nodeId }) nodeId fun nd =>
          { nd with next := some nx }) (fid ids index)
          fun nd => { nd with next := some nodeId }) id).next =
        (getN tf id).next := by
      intro id hne1 hne2
      rw [getN_updN_ne _ _ _ _ (fun h => hne1 h.symm)]
      rw [getN_updN_ne _ _ _ _ (fun h => hne2 h.symm)]
      by_cases hid : nx = id
      · subst hid
        rw [getN_updN_same _ _ _ (by rw [arena_updN]; exact hnxTf)]
        show (getN (updN tf nodeId fun nd =>
          { nd with prev := some (fid ids index) }) nx).next = _
        rw [getN_updN_ne _ _ _ _ (fun h => hnx_ne_node h.symm)]
      · rw [getN_updN_ne _ _ _ _ hid]
        by_cases hid2 : nodeId = id
        · subst hid2
          rw [getN_updN_same _ _ _ hnodeTf]
        · rw [getN_updN_ne _ _ _ _ hid2]
    have hnextPre : (getN (updN (updN (updN (updN tf nodeId fun nd =>
          { nd with prev := some (fid ids index) }) nx fun nd =>
          { nd with prev := some nodeId }) nodeId fun nd =>
          { nd with next := some nx }) (fid ids index)
          fun nd => { nd with next := some nodeId }) (fid ids index)).next =
        some nodeId := by
      rw [getN_updN_same _ _ _
        (by rw [arena_updN, arena_updN, arena_updN]; exact hpreTf)]
    have hnextNode : (getN (updN (updN (updN (updN tf nodeId fun nd =>
          { nd with prev := some (fid ids index) }) nx fun nd =>
          { nd with prev := some nodeId }) nodeId fun nd =>
          { nd with next := some nx }) (fid ids index)
          fun nd => { nd with next := some nodeId }) nodeId).next =
        some nx := by
      rw [getN_updN_ne _ _ _ _ hpre_ne]
      rw [getN_updN_same _ _ _ (by rw [arena_updN, arena_updN]; exact hnodeTf)]
    have hprevA : ∀ id, id ≠ nodeId → id ≠ nx →
        (getN (updN (updN (updN (updN tf nodeId fun nd =>
          { nd with prev := some (fid ids index) }) nx fun nd =>
          { nd with prev := some nodeId }) nodeId fun nd =>
          { nd with next := some nx }) (fid ids index)
          fun nd => { nd with next := some nodeId }) id).prev =
        (getN tf id).prev := by
      intro id hne1 hne2
      by_cases hp : fid ids index = id
      · subst hp
        rw [getN_updN_same _ _ _
          (by rw [arena_updN, arena_updN, arena_updN]; exact hpreTf)]
        show (getN (updN (updN (updN tf nodeId fun nd =>
          { nd with prev := some (fid ids index) }) nx fun nd =>
          { nd with prev := some nodeId }) nodeId fun nd =>
          { nd with next := some nx }) (fid ids index)).prev = _
        rw [getN_updN_ne _ _ _ _ (fun h => hpre_ne h.symm)]
        rw [getN_updN_ne _ _ _ _ hnx_ne_pre]
        rw [getN_updN_ne _ _ _ _ (fun h => hpre_ne h.symm)]
      · rw [getN_updN_ne _ _ _ _ hp]
        rw [getN_updN_ne _ _ _ _ (fun h => hne1 h.symm)]
        rw [getN_updN_ne _ _ _ _ (fun h => hne2 h.symm)]
        rw [getN_updN_ne _ _ _ _ (fun h => hne1 h.symm)]
    have hprevNode : (getN (updN (updN (updN (updN tf nodeId fun nd =>
          { nd with prev := some (fid ids index) }) nx fun nd =>
          { nd with prev := some nodeId }) nodeId fun nd =>
          { nd with next := some nx }) (fid ids index)
          fun nd => { nd with next := some nodeId }) nodeId).prev =
        some (fid ids index) := by
      rw [getN_updN_ne _ _ _ _ hpre_ne]
      rw [getN_updN_same _ _ _ (by rw [arena_updN, arena_updN]; exact hnodeTf)]
      show (getN (updN (updN tf nodeId fun nd =>
        { nd with prev := some (fid ids index) }) nx fun nd =>
        { nd with prev := some nodeId }) nodeId).prev = _
      rw [getN_updN_ne _ _ _ _ (fun h => hnx_ne_node h)]
      rw [getN_updN_same _ _ _ hnodeTf]
    have hprevNx : (getN (updN (updN (updN (updN tf nodeId fun nd =>
          { nd with prev := some (fid ids index) }) nx fun nd =>
          { nd with prev := some nodeId }) nodeId fun nd =>
          { nd with next := some nx }) (fid ids index)
          fun nd => { nd with next := some nodeId }) nx).prev =
        some nodeId := by
      rw [getN_updN_ne _ _ _ _ (fun h => hnx_ne_pre h.symm)]
      rw [getN_updN_ne _ _ _ _ (fun h => hnx_ne_node h.symm)]
      rw [getN_updN_same _ _ _ (by rw [arena_updN]; exact hnxTf)]
    refine canonical_insert_final C1 hidx hnodeArena hnodepos hnodemem hnode1
      hlevel hshapef (fun l hl => hdonef l hl)
      (by rw [arena_updN, arena_updN, arena_updN, arena_updN]) rfl ?_ ?_ ?_
    · intro id
      simp only [getN_arena_of]
      have h4 := getN_updN_pn
        (updN (updN (updN tf nodeId fun nd =>
          { nd with prev := some (fid ids index) }) nx fun nd =>
          { nd with prev := some nodeId }) nodeId fun nd =>
          { nd with next := some nx })
        (fid ids index) (fun nd => { nd with next := some nodeId })
        (fun nd => ⟨rfl, rfl, rfl⟩) id
      have h3 := getN_updN_pn
        (updN (updN tf nodeId fun nd =>
          { nd with prev := some (fid ids index) }) nx fun nd =>
          { nd with prev := some nodeId })
        nodeId (fun nd => { nd with next := some nx })
        (fun nd => ⟨rfl, rfl, rfl⟩) id
      have h2 := getN_updN_pn
        (updN tf nodeId fun nd => { nd with prev := some (fid ids index) })
        nx (fun nd => { nd with prev := some nodeId })
        (fun nd => ⟨rfl, rfl, rfl⟩) id
      have h1 := getN_updN_pn tf nodeId
        (fun nd => { nd with prev := some (fid ids index) })
        (fun nd => ⟨rfl, rfl, rfl⟩) id
      exact ⟨h4.1.trans (h3.1.trans (h2.1.trans h1.1)),
        h4.2.1.trans (h3.2.1.trans (h2.2.1.trans h1.2.1)),
        h4.2.2.trans (h3.2.2.trans (h2.2.2.trans h1.2.2))⟩
    · -- next pointers
      intro k hk
      simp only [getN_arena_of]
      rw [get?_insertIdx nodeId index ids (by omega) k,
        fid_insertIdx ids nodeId index (by omega) k]
      rcases Nat.lt_trichotomy k index with hc | hceq | hc
      · rw [if_pos (show k < index from hc),
          if_pos (show k < index + 1 from by omega)]
        rw [hnextA (fid ids k) (by
            intro he
            have := C1.fid_inj (k := k) (j := index) (by omega) (by omega) he
            omega) (by
            have := hfid k (by omega)
            omega)]
        exact ((hshapef.2.2 (fid ids k)).2.1).trans (C1.nexts k (by omega))
      · rw [if_neg (show ¬ k < index from by omega),
          if_pos (show k = index from hceq),
          if_pos (show k < index + 1 from by omega), hceq]
        exact hnextPre
      · rcases Nat.eq_or_lt_of_le hc with hkeq | hc2
        · have hkeq2 : k = index + 1 := by omega
          subst hkeq2
          rw [if_neg (show ¬ index + 1 < index from by omega),
            if_neg (show ¬ index + 1 = index from by omega),
            if_neg (show ¬ index + 1 < index + 1 from by omega),
            if_pos (show index + 1 = index + 1 from rfl)]
          rw [hnextNode]
          simp only [Nat.add_sub_cancel]
          exact hx.symm
        · rw [if_neg (show ¬ k < index from by omega),
            if_neg (show ¬ k = index from by omega),
            if_neg (show ¬ k < index + 1 from by omega),
            if_neg (show ¬ k = index + 1 from by omega)]
          rw [hnextA (fid ids (k - 1)) (by
              intro he
              have := C1.fid_inj (k := k - 1) (j := index) (by omega)
                (by omega) he
              omega) (by
              have := hfid (k - 1) (by omega)
              omega)]
          exact ((hshapef.2.2 (fid ids (k - 1))).2.1).trans
            (C1.nexts (k - 1) (by omega))
    · -- prev pointers
      intro k hk1 hk2
      simp only [getN_arena_of]
      rw [fid_insertIdx ids nodeId index (by omega) k,
        fid_insertIdx ids nodeId index (by omega) (k - 1)]
      rcases Nat.lt_or_ge k (index + 1) with hc | hc
      · rw [if_pos (show k < index + 1 from hc),
          if_pos (show k - 1 < index + 1 from by omega)]
        rw [hprevA (fid ids k) (by
            have := hfid k (by omega)
            omega) (by
            rw [hnx]
            intro he
            have := C1.fid_inj (k := k) (j := index + 1) (by omega)
              (by omega) he
            omega)]
        exact ((hshapef.2.2 (fid ids k)).2.2.1).trans
          (C1.prevs k hk1 (by omega))
      · rcases Nat.eq_or_lt_of_le hc with hkeq | hc2
        · have hkeq2 : k = index + 1 := by omega
          subst hkeq2
          rw [if_neg (show ¬ index + 1 < index + 1 from by omega),
            if_pos (show index + 1 = index + 1 from rfl),
            if_pos (show index + 1 - 1 < index + 1 from by omega)]
          simp only [Nat.add_sub_cancel]
          exact hprevNode
        · rcases Nat.eq_or_lt_of_le hc2 with hkeq | hc3
          · have hkeq2 : k = index + 2 := by omega
            subst hkeq2
            rw [if_neg (show ¬ index + 2 < index + 1 from by omega),
              if_neg (show ¬ index + 2 = index + 1 from by omega),
              if_neg (show ¬ index + 2 - 1 < index + 1 from by omega),
              if_pos (show index + 2 - 1 = index + 1 from rfl)]
            rw [show index + 2 - 1 = index + 1 from rfl, ← hnx]
            exact hprevNx
          · rw [if_neg (show ¬ k < index + 1 from by omega),
              if_neg (show ¬ k = index + 1 from by omega),
              if_neg (show ¬ k - 1 < index + 1 from by omega),
              if_neg (show ¬ k - 1 = index + 1 from by omega)]
            rw [hprevA (fid ids (k - 1)) (by
                have := hfid (k - 1) (by omega)
                omega) (by
                rw [hnx]
                intro he
                have := C1.fid_inj (k := k - 1) (j := index + 1) (by omega)
                  (by omega) he
                omega)]
            rw [((hshapef.2.2 (fid ids (k - 1))).2.2.1).trans
              (C1.prevs (k - 1) (by omega) (by omega))]

theorem updL2_same {V : Type} (t : SkipList V) (id l : Nat) (p : Option Nat) (k : Nat)
    (hid : id < t.arena.length) (h1 : l < (getN t id).links.length)
    (h2 : l < (getN t id).links_len.length) :
    (getN (updN (updN t id fun nd => nd.setLink l p) id
      fun nd => nd.setSpan l k) id).linkAt l = some p ∧
    (getN (updN (updN t id fun nd => nd.setLink l p) id
      fun nd => nd.setSpan l k) id).spanAt l = some k := by
  rw [getN_updN_same _ _ _ (by rw [arena_updN]; exact hid),
    getN_updN_same _ _ _ hid]
  constructor
  · rw [linkAt_setSpan, linkAt_setLink_same _ _ _ h1]
  · rw [spanAt_setSpan_same]
    simpa using h2

theorem updL2_read_ne_level {V : Type} (t : SkipList V) (id id' l l' : Nat)
    (p : Option Nat) (k : Nat) (hne : l ≠ l') :
    (getN (updN (updN t id fun nd => nd.setLink l p) id
      fun nd => nd.setSpan l k) id').linkAt l' = (getN t id').linkAt l' ∧
    (getN (updN (updN t id fun nd => nd.setLink l p) id
      fun nd => nd.setSpan l k) id').spanAt l' = (getN t id').spanAt l' := by
  by_cases hid : id < t.arena.length
  · by_cases he : id = id'
    · subst he
      rw [getN_updN_same _ _ _ (by rw [arena_updN]; exact hid),
        getN_updN_same _ _ _ hid]
      exact ⟨by rw [linkAt_setSpan, linkAt_setLink_ne _ _ _ _ hne],
        by rw [spanAt_setSpan_ne _ _ _ _ hne, spanAt_setLink]⟩
    · rw [getN_updN_ne _ _ _ _ he, getN_updN_ne _ _ _ _ he]
      exact ⟨rfl, rfl⟩
  · rw [updN, setN_oob _ _ _ (by rw [arena_updN]; omega), updN,
      setN_oob _ _ _ (by omega)]
    exact ⟨rfl, rfl⟩

theorem updL2_read_ne_id {V : Type} (t : SkipList V) (id id' l : Nat)
    (p : Option Nat) (k : Nat) (he : id ≠ id') :
    getN (updN (updN t id fun nd => nd.setLink l p) id
      fun nd => nd.setSpan l k) id' = getN t id' := by
  rw [getN_updN_ne _ _ _ _ he, getN_updN_ne _ _ _ _ he]

/-- Level `l` of the working state carries its final post-remove content:
if the node being removed (position `a`) reaches level `l`, its level
predecessor has been rerouted around it; otherwise the predecessor's
crossing span has shrunk by one (or was already null); every other node is
untouched. -/
def remLevelDone {V : Type} (t s1 : SkipList V) (ids : List Nat)
    (xs : List (V × Nat)) (a l : Nat) : Prop :=
  (∀ k ≤ xs.length, k ≠ levelPred xs l a →
    (getN t (fid ids k)).linkAt l = (getN s1 (fid ids k)).linkAt l ∧
    (getN t (fid ids k)).spanAt l = (getN s1 (fid ids k)).spanAt l) ∧
  (if l < entryHeight xs a then
    (getN t (fid ids (levelPred xs l a))).linkAt l =
      some ((nextAbove xs l a).map (fid ids)) ∧
    (getN t (fid ids (levelPred xs l a))).spanAt l =
      some (((nextAbove xs l a).map
        (fun q => q - 1 - levelPred xs l a)).getD 0)
  else
    (getN t (fid ids (levelPred xs l a))).linkAt l =
      (getN s1 (fid ids (levelPred xs l a))).linkAt l ∧
    (getN t (fid ids (levelPred xs l a))).spanAt l =
      some (((nextAbove xs l (levelPred xs l a)).map
        (fun q => q - 1 - levelPred xs l a)).getD 0))

theorem remLevelDone_mono {V : Type} {t t' s1 : SkipList V} {ids : List Nat}
    {xs : List (V × Nat)} {a l : Nat}
    (h : remLevelDone t s1 ids xs a l)
    (hsame : ∀ id, (getN t' id).linkAt l = (getN t id).linkAt l ∧
      (getN t' id).spanAt l = (getN t id).spanAt l) :
    remLevelDone t' s1 ids xs a l := by
  obtain ⟨h1, h2⟩ := h
  refine ⟨fun k hk hkp => ?_, ?_⟩
  · obtain ⟨e1, e2⟩ := hsame (fid ids k)
    obtain ⟨f1, f2⟩ := h1 k hk hkp
    exact ⟨e1.trans f1, e2.trans f2⟩
  · split at h2 <;> rename_i hcase
    · rw [if_pos hcase]
      obtain ⟨f1, f2⟩ := h2
      obtain ⟨e1, e2⟩ := hsame (fid ids (levelPred xs l a))
      exact ⟨e1.trans f1, e2.trans f2⟩
    · rw [if_neg hcase]
      obtain ⟨f1, f2⟩ := h2
      obtain ⟨e1, e2⟩ := hsame (fid ids (levelPred xs l a))
      exact ⟨e1.trans f1, e2.trans f2⟩

theorem removeLoop_go {V : Type} {s1 : SkipList V} {hh : Nat} {ids : List Nat}
    {xs : List (V × Nat)} (C : Canonical s1 hh ids xs) {a : Nat}
    (ha1 : 1 ≤ a) (ha2 : a ≤ xs.length) :
    ∀ fuel t cp cl,
      sameShape t s1 →
      (∀ l, l ≤ cl → sameLevel t s1 l) →
      (∀ l, cl < l → l < hh → remLevelDone t s1 ids xs a l) →
      cp + 1 ≤ a → cl < heightAt hh xs cp →
      (a - cp) + cl + 1 ≤ fuel →
      ∃ tf, removeLoop fuel t a (fid ids cp) cp cl =
          some (tf, fid ids (a - 1)) ∧
        sameShape tf s1 ∧
        ∀ l, l < hh → remLevelDone tf s1 ids xs a l := by
  intro fuel
  induction fuel with
  | zero => intro t cp cl _ _ _ _ _ hfu; omega
  | succ fuel ih =>
    intro t cp cl hshape hlevels hdone hcp hcl hfu
    have hkn : cp ≤ xs.length := by omega
    obtain ⟨hlink1, hspan1⟩ := C.links_ok cp hkn cl hcl
    obtain ⟨hlt1, hlt2⟩ := (hlevels cl (le_refl _)) (fid ids cp)
    have hlink := hlt1.trans hlink1
    have hspan := hlt2.trans hspan1
    have haren : t.arena.length = s1.arena.length := hshape.1
    have hcpArena : fid ids cp < t.arena.length := by
      rw [haren]
      exact C.fid_lt hkn
    have hlenl : (getN t (fid ids cp)).links.length = heightAt hh xs cp := by
      rw [(hshape.2.2 (fid ids cp)).2.2.2.1, C.links_length_at hkn]
    have hlens : (getN t (fid ids cp)).links_len.length = heightAt hh xs cp := by
      rw [(hshape.2.2 (fid ids cp)).2.2.2.2, C.links_len_length_at hkn]
    have hane : a ≠ 0 := by omega
    have hEHa : 0 < entryHeight xs a := by
      have h0 := C.heightAt_pos (k := a) ha1 ha2
      simp only [heightAt, if_neg hane] at h0
      exact h0
    rcases hna : nextAbove xs cl cp with _ | q
    · -- null link at this level: nothing crosses the removal point here
      rw [hna] at hlink hspan
      simp only [Option.map_none', Option.getD_none] at hlink hspan
      have hp : levelPred xs cl a = cp := by
        refine levelPred_eq xs cl a cp (by omega) ?_ ?_
        · rcases Nat.eq_zero_or_pos cp with rfl | hcp0
          · exact Or.inl rfl
          · right
            simpa [heightAt, Nat.pos_iff_ne_zero.mp hcp0] using hcl
        · intro r hr1 _
          exact (nextAbove_none_iff ..).mp hna r hr1
      have hta : ¬ cl < entryHeight xs a := by
        have := (nextAbove_none_iff ..).mp hna a (by omega)
        omega
      have hcl0 : cl ≠ 0 := by
        intro he
        rw [he] at hta
        omega
      have hdone' : ∀ l, cl ≤ l → l < hh → remLevelDone t s1 ids xs a l := by
        intro l hl1 hl2
        rcases Nat.eq_or_lt_of_le hl1 with rfl | hl3
        · refine ⟨fun k hk hkp => (hlevels cl (le_refl _)) (fid ids k), ?_⟩
          rw [if_neg hta, hp]
          refine ⟨((hlevels cl (le_refl _)) (fid ids cp)).1, ?_⟩
          rw [((hlevels cl (le_refl _)) (fid ids cp)).2, hspan1, hna]
          rfl
        · exact hdone l hl3 hl2
      show ∃ tf, removeLoop (fuel + 1) t a (fid ids cp) cp cl =
        some (tf, fid ids (a - 1)) ∧ _
      rw [removeLoop, hlink]
      rw [if_neg hcl0]
      exact ih t cp (cl - 1) hshape (fun l hl => hlevels l (by omega))
        (fun l hl1 hl2 => hdone' l (by omega) hl2) hcp (by omega) (by omega)
    · -- a link crosses at this level
      rw [hna] at hlink hspan
      simp only [Option.map_some', Option.getD_some] at hlink hspan
      obtain ⟨hq1, hq2⟩ := nextAbove_pos_le hna
      have hq0 : q ≠ 0 := by omega
      have hqh : cl < heightAt hh xs q := by
        simp only [heightAt, if_neg hq0]
        exact ((nextAbove_some_iff ..).mp hna).2.1
      obtain ⟨hlinkq1, hspanq1⟩ := C.links_ok q hq2 cl hqh
      have hlinkq := ((hlevels cl (le_refl _)) (fid ids q)).1.trans hlinkq1
      have hspanq := ((hlevels cl (le_refl _)) (fid ids q)).2.trans hspanq1
      rcases Nat.lt_trichotomy q a with hqa | hqa | hqa
      · -- keep moving right at this level
        show ∃ tf, removeLoop (fuel + 1) t a (fid ids cp) cp cl =
          some (tf, fid ids (a - 1)) ∧ _
        rw [removeLoop, hlink, hspan]
        simp only
        rw [hspanq]
        simp only
        rw [if_pos (by omega : cp + (q - cp) < a)]
        have hqe : cp + (q - cp) = q := by omega
        rw [hqe]
        exact ih t q cl hshape hlevels hdone (by omega) hqh (by omega)
      · -- the link lands exactly on the node being removed: bypass it
        rw [hqa] at hlink hspan hlinkq hspanq hqh hna hq1
        clear hq0 hq2
        have hp : levelPred xs cl a = cp := by
          refine levelPred_eq xs cl a cp (by omega) ?_ ?_
          · rcases Nat.eq_zero_or_pos cp with rfl | hcp0
            · exact Or.inl rfl
            · right
              simpa [heightAt, Nat.pos_iff_ne_zero.mp hcp0] using hcl
          · intro r hr1 hr2
            exact ((nextAbove_some_iff ..).mp hna).2.2 r hr1 (by omega)
        have hta : cl < entryHeight xs a := by
          have h0 := hqh
          simp only [heightAt, if_neg hane] at h0
          exact h0
        rcases hnaa : nextAbove xs cl a with _ | q'
        · -- the removed node had no outgoing link: predecessor goes null
          rw [hnaa] at hlinkq hspanq
          simp only [Option.map_none', Option.getD_none] at hlinkq hspanq
          set t' := updN (updN t (fid ids cp) fun nd => nd.setLink cl none)
            (fid ids cp) fun nd => nd.setSpan cl 0 with ht'
          have hshape' : sameShape t' s1 := by
            refine sameShape_updN (sameShape_updN hshape _ _ (fun nd => ?_))
              _ _ (fun nd => ?_) <;> simp
          have hreads : ∀ l', l' ≠ cl → ∀ id,
              (getN t' id).linkAt l' = (getN t id).linkAt l' ∧
              (getN t' id).spanAt l' = (getN t id).spanAt l' := by
            intro l' hl' id
            exact updL2_read_ne_level t _ id cl l' _ _ (fun h => hl' h.symm)
          have hlev' : ∀ l, l < cl → sameLevel t' s1 l := by
            intro l hl
            exact sameLevel_mono (hlevels l (by omega)) (hreads l (by omega))
          have hdone' : ∀ l, cl ≤ l → l < hh →
              remLevelDone t' s1 ids xs a l := by
            intro l hl1 hl2
            rcases Nat.eq_or_lt_of_le hl1 with rfl | hl3
            · refine ⟨fun k hk hkp => ?_, ?_⟩
              · rw [hp] at hkp
                have hne : fid ids k ≠ fid ids cp := by
                  intro he
                  exact hkp (C.fid_inj hk hkn he)
                rw [updL2_read_ne_id t _ _ _ _ _ (fun h => hne h.symm)]
                exact (hlevels cl (le_refl _)) (fid ids k)
              · rw [if_pos hta, hp, hnaa]
                obtain ⟨w1, w2⟩ := updL2_same t (fid ids cp) cl none 0
                  hcpArena (by omega) (by omega)
                exact ⟨w1, w2⟩
            · exact remLevelDone_mono (hdone l hl3 hl2) (hreads l (by omega))
          show ∃ tf, removeLoop (fuel + 1) t a (fid ids cp) cp cl =
            some (tf, fid ids (a - 1)) ∧ _
          rw [removeLoop, hlink, hspan]
          simp only
          rw [hspanq]
          simp only
          rw [if_neg (by omega : ¬ cp + (a - cp) < a),
            if_pos (by omega : cp + (a - cp) = a)]
          rw [hlinkq]
          simp only
          rw [if_pos trivial]
          rw [← ht']
          by_cases hcl0 : cl = 0
          · rw [if_pos hcl0]
            have hpa : cp = a - 1 := by
              rw [← hp, hcl0, levelPred_zero_level xs a ha1 (by omega)]
            refine ⟨t', by rw [hpa], hshape', fun l hl => hdone' l (by omega) hl⟩
          · rw [if_neg hcl0]
            exact ih t' cp (cl - 1) hshape'
              (fun l hl => hlev' l (by omega))
              (fun l hl1 hl2 => hdone' l (by omega) hl2)
              hcp (by omega) (by omega)
        · -- reroute the predecessor to the removed node's successor
          rw [hnaa] at hlinkq hspanq
          simp only [Option.map_some', Option.getD_some] at hlinkq hspanq
          have hq'a : a < q' := (nextAbove_pos_le hnaa).1
          set t' := updN (updN t (fid ids cp)
              fun nd => nd.setLink cl (some (fid ids q')))
            (fid ids cp) fun nd => nd.setSpan cl (a - cp + (q' - a) - 1)
            with ht'
          have hshape' : sameShape t' s1 := by
            refine sameShape_updN (sameShape_updN hshape _ _ (fun nd => ?_))
              _ _ (fun nd => ?_) <;> simp
          have hreads : ∀ l', l' ≠ cl → ∀ id,
              (getN t' id).linkAt l' = (getN t id).linkAt l' ∧
              (getN t' id).spanAt l' = (getN t id).spanAt l' := by
            intro l' hl' id
            exact updL2_read_ne_level t _ id cl l' _ _ (fun h => hl' h.symm)
          have hlev' : ∀ l, l < cl → sameLevel t' s1 l := by
            intro l hl
            exact sameLevel_mono (hlevels l (by omega)) (hreads l (by omega))
          have hdone' : ∀ l, cl ≤ l → l < hh →
              remLevelDone t' s1 ids xs a l := by
            intro l hl1 hl2
            rcases Nat.eq_or_lt_of_le hl1 with rfl | hl3
            · refine ⟨fun k hk hkp => ?_, ?_⟩
              · rw [hp] at hkp
                have hne : fid ids k ≠ fid ids cp := by
                  intro he
                  exact hkp (C.fid_inj hk hkn he)
                rw [updL2_read_ne_id t _ _ _ _ _ (fun h => hne h.symm)]
                exact (hlevels cl (le_refl _)) (fid ids k)
              · rw [if_pos hta, hp, hnaa]
                obtain ⟨w1, w2⟩ := updL2_same t (fid ids cp) cl
                  (some (fid ids q')) (a - cp + (q' - a) - 1)
                  hcpArena (by omega) (by omega)
                refine ⟨w1, ?_⟩
                rw [w2]
                simp only [Option.map_some', Option.getD_some]
                congr 1
                omega
            · exact remLevelDone_mono (hdone l hl3 hl2) (hreads l (by omega))
          show ∃ tf, removeLoop (fuel + 1) t a (fid ids cp) cp cl =
            some (tf, fid ids (a - 1)) ∧ _
          rw [removeLoop, hlink, hspan]
          simp only
          rw [hspanq]
          simp only
          rw [if_neg (by omega : ¬ cp + (a - cp) < a),
            if_pos (by omega : cp + (a - cp) = a)]
          rw [hlinkq]
          simp only
          rw [if_neg (by omega : ¬ q' - a = 0)]
          rw [← ht']
          by_cases hcl0 : cl = 0
          · rw [if_pos hcl0]
            have hpa : cp = a - 1 := by
              rw [← hp, hcl0, levelPred_zero_level xs a ha1 (by omega)]
            refine ⟨t', by rw [hpa], hshape', fun l hl => hdone' l (by omega) hl⟩
          · rw [if_neg hcl0]
            exact ih t' cp (cl - 1) hshape'
              (fun l hl => hlev' l (by omega))
              (fun l hl1 hl2 => hdone' l (by omega) hl2)
              hcp (by omega) (by omega)
      · -- the link crosses past the removal point: shrink its span
        have hta : ¬ cl < entryHeight xs a := by
          have := ((nextAbove_some_iff ..).mp hna).2.2 a (by omega) (by omega)
          omega
        have hp : levelPred xs cl a = cp := by
          refine levelPred_eq xs cl a cp (by omega) ?_ ?_
          · rcases Nat.eq_zero_or_pos cp with rfl | hcp0
            · exact Or.inl rfl
            · right
              simpa [heightAt, Nat.pos_iff_ne_zero.mp hcp0] using hcl
          · intro r hr1 hr2
            exact ((nextAbove_some_iff ..).mp hna).2.2 r hr1 (by omega)
        set t' := updN t (fid ids cp) (fun nd => nd.setSpan cl (q - cp - 1))
          with ht'
        have hshape' : sameShape t' s1 := by
          refine sameShape_updN hshape _ _ (fun nd => ?_)
          simp
        have hreads : ∀ l', l' ≠ cl → ∀ id,
            (getN t' id).linkAt l' = (getN t id).linkAt l' ∧
            (getN t' id).spanAt l' = (getN t id).spanAt l' := by
          intro l' hl' id
          exact updS_read_ne_level t _ id cl l' _ (fun h => hl' h.symm)
        have hlev' : ∀ l, l < cl → sameLevel t' s1 l := by
          intro l hl
          exact sameLevel_mono (hlevels l (by omega)) (hreads l (by omega))
        have hdone' : ∀ l, cl ≤ l → l < hh →
            remLevelDone t' s1 ids xs a l := by
          intro l hl1 hl2
          rcases Nat.eq_or_lt_of_le hl1 with rfl | hl3
          · refine ⟨fun k hk hkp => ?_, ?_⟩
            · rw [hp] at hkp
              have hne : fid ids k ≠ fid ids cp := by
                intro he
                exact hkp (C.fid_inj hk hkn he)
              rw [getN_updN_ne t _ _ _ (fun h => hne h.symm)]
              exact (hlevels cl (le_refl _)) (fid ids k)
            · rw [if_neg hta, hp, hna]
              obtain ⟨w1, w2⟩ := updS_same t (fid ids cp) cl (q - cp - 1)
                hcpArena (by omega)
              refine ⟨w1.trans ((hlevels cl (le_refl _)) (fid ids cp)).1, ?_⟩
              rw [w2]
              simp only [Option.map_some', Option.getD_some]
              congr 1
              omega
          · exact remLevelDone_mono (hdone l hl3 hl2) (hreads l (by omega))
        show ∃ tf, removeLoop (fuel + 1) t a (fid ids cp) cp cl =
          some (tf, fid ids (a - 1)) ∧ _
        rw [removeLoop, hlink, hspan]
        simp only
        rw [hspanq]
        simp only
        rw [if_neg (by omega : ¬ cp + (q - cp) < a),
          if_neg (by omega : ¬ cp + (q - cp) = a)]
        simp only
        rw [← ht']
        by_cases hcl0 : cl = 0
        · exfalso
          rw [hcl0, nextAbove_zero xs cp (by omega)] at hna
          have := Option.some.inj hna
          omega
        · rw [if_neg hcl0]
          exact ih t' cp (cl - 1) hshape'
            (fun l hl => hlev' l (by omega))
            (fun l hl1 hl2 => hdone' l (by omega) hl2)
            hcp (by omega) (by omega)

theorem removeLoop_past {V : Type} {s1 : SkipList V} {hh : Nat} {ids : List Nat}
    {xs : List (V × Nat)} (C : Canonical s1 hh ids xs) :
    ∀ fuel cp cl, cp ≤ xs.length → cl < heightAt hh xs cp →
      (xs.length - cp) + cl + 1 ≤ fuel →
      removeLoop fuel s1 (xs.length + 1) (fid ids cp) cp cl = none := by
  intro fuel
  induction fuel with
  | zero => intro cp cl _ _ h; omega
  | succ fuel ih =>
    intro cp cl hcp hcl hfu
    obtain ⟨hlink, hspan⟩ := C.links_ok cp hcp cl hcl
    rcases hna : nextAbove xs cl cp with _ | q
    · rw [hna] at hlink
      simp only [Option.map_none'] at hlink
      rw [removeLoop, hlink]
      by_cases hcl0 : cl = 0
      · rw [if_pos hcl0]
      · rw [if_neg hcl0]
        exact ih cp (cl - 1) hcp (by omega) (by omega)
    · rw [hna] at hlink hspan
      simp only [Option.map_some', Option.getD_some] at hlink hspan
      obtain ⟨hq1, hq2⟩ := nextAbove_pos_le hna
      have hq0 : q ≠ 0 := by omega
      have hqh : cl < heightAt hh xs q := by
        simp only [heightAt, if_neg hq0]
        exact ((nextAbove_some_iff ..).mp hna).2.1
      obtain ⟨hlinkq, hspanq⟩ := C.links_ok q hq2 cl hqh
      rw [removeLoop, hlink, hspan]
      simp only
      rw [hspanq]
      simp only
      rw [if_pos (by omega : cp + (q - cp) < xs.length + 1)]
      have hqe : cp + (q - cp) = q := by omega
      rw [hqe]
      exact ih q cl hq2 hqh (by omega)

theorem remove_none {V : Type} {s : SkipList V} {hh : Nat} {ids : List Nat}
    {xs : List (V × Nat)} (C : Canonical s hh ids xs) {index : Nat}
    (hidx : xs.length ≤ index) : s.remove index = none := by
  rcases Nat.lt_or_ge s.length index with hgt | hle
  · rw [SkipList.remove, if_pos hgt]
  · have hieq : index = xs.length := by
      rw [C.len_eq] at hle
      omega
    subst hieq
    rw [SkipList.remove, if_neg (by rw [C.len_eq]; omega)]
    rw [C.head_links]
    simp only
    rcases Nat.eq_zero_or_pos hh with hh0 | hhpos
    · have hnil : (getN s 0).linkAt (hh - 1) = none := by
        rw [Node.linkAt, List.get?_eq_none.mpr (by rw [C.head_links]; omega)]
      have hpos := Nat.mul_pos
        (show 0 < s.arena.length + 2 by omega) (show 0 < hh + 2 by omega)
      obtain ⟨f, hf⟩ : ∃ f, (s.arena.length + 2) * (hh + 2) = f + 1 :=
        ⟨(s.arena.length + 2) * (hh + 2) - 1, by omega⟩
      rw [hf, removeLoop, hnil]
    · have harena := C.n_lt_arena
      have hfuel : (xs.length - 0) + (hh - 1) + 1 ≤
          (s.arena.length + 2) * (hh + 2) := by
        have hexp : (s.arena.length + 2) * (hh + 2) =
            s.arena.length * hh + 2 * s.arena.length + 2 * hh + 4 := by ring
        omega
      have h0 := removeLoop_past C ((s.arena.length + 2) * (hh + 2)) 0 (hh - 1)
        (by omega) (by simp [heightAt]; omega) hfuel
      rw [show removeLoop ((s.arena.length + 2) * (hh + 2)) s (xs.length + 1)
        0 0 (hh - 1) = none from h0]

theorem insertIdx_eraseIdx_self {α : Type} :
    ∀ (l : List α) (i : Nat) (x : α), l.get? i = some x →
      (l.eraseIdx i).insertIdx i x = l := by
  intro l
  induction l with
  | nil => intro i x h; simp at h
  | cons a t ih =>
    intro i x h
    match i with
    | 0 =>
      simp at h
      subst h
      rfl
    | i + 1 =>
      show ((a :: t).eraseIdx (i + 1)).insertIdx (i + 1) x = a :: t
      rw [List.eraseIdx_cons_succ, List.insertIdx_succ_cons, ih i x h]

theorem canonical_remove_final {V : Type} {s1 tf sF : SkipList V} {hh : Nat}
    {jds : List Nat} {ys : List (V × Nat)} {index tid : Nat} {e : V × Nat}
    (C1 : Canonical s1 hh (jds.insertIdx index tid) (ys.insertIdx index e))
    (hidx : index ≤ ys.length)
    (hshapef : sameShape tf s1)
    (hdonef : ∀ l, l < hh →
      remLevelDone tf s1 (jds.insertIdx index tid) (ys.insertIdx index e)
        (index + 1) l)
    (harena : sF.arena.length = tf.arena.length)
    (hlenF : sF.length = ys.length)
    (hpn : ∀ id, (getN sF id).links = (getN tf id).links ∧
      (getN sF id).links_len = (getN tf id).links_len ∧
      (getN sF id).value = (getN tf id).value)
    (hnextF : ∀ k ≤ ys.length, (getN sF (fid jds k)).next = jds.get? k)
    (hprevF : ∀ k, 1 ≤ k → k ≤ ys.length →
      (getN sF (fid jds k)).prev = some (fid jds (k - 1))) :
    Canonical sF hh jds ys := by
  have hids_len := C1.ids_len
  have hxs'len : (ys.insertIdx index e).length = ys.length + 1 :=
    List.length_insertIdx index ys hidx
  have hj_idx : index ≤ jds.length := by
    by_contra hgt
    push_neg at hgt
    rw [List.insertIdx_of_length_lt _ _ _ hgt] at hids_len
    omega
  have hids'len : (jds.insertIdx index tid).length = jds.length + 1 :=
    List.length_insertIdx index jds hj_idx
  have hjlen : jds.length = ys.length := by omega
  have hfidmap := fid_insertIdx jds tid index hj_idx
  have hEH := entryHeight_insertIdx ys e index hidx
  have htf_arena : tf.arena.length = s1.arena.length := hshapef.1
  have hval : ∀ id, (getN sF id).value = (getN s1 id).value :=
    fun id => ((hpn id).2.2).trans (hshapef.2.2 id).1
  have hlinklen : ∀ id, (getN sF id).links.length = (getN s1 id).links.length :=
    fun id => (congrArg List.length (hpn id).1).trans (hshapef.2.2 id).2.2.2.1
  have hspanlen : ∀ id, (getN sF id).links_len.length =
      (getN s1 id).links_len.length :=
    fun id => (congrArg List.length (hpn id).2.1).trans (hshapef.2.2 id).2.2.2.2
  have hlinkAtF : ∀ id l, (getN sF id).linkAt l = (getN tf id).linkAt l :=
    fun id l => by rw [Node.linkAt, Node.linkAt, (hpn id).1]
  have hspanAtF : ∀ id l, (getN sF id).spanAt l = (getN tf id).spanAt l :=
    fun id l => by rw [Node.spanAt, Node.spanAt, (hpn id).2.1]
  have hEHa : entryHeight (ys.insertIdx index e) (index + 1) = e.2 + 1 := by
    rw [hEH (index + 1), if_neg (by omega), if_pos rfl]
  have hhle : ∀ m, 1 ≤ m → m ≤ ys.length → entryHeight ys m ≤ hh := by
    intro m h1 h2
    by_cases hc : m < index + 1
    · have h3 := C1.height_le (m - 1) (by omega)
      rw [(by omega : m - 1 + 1 = m), hEH m, if_pos hc] at h3
      exact h3
    · have h3 := C1.height_le m (by omega)
      rw [hEH (m + 1), if_neg (by omega), if_neg (by omega),
        (by omega : m + 1 - 1 = m)] at h3
      exact h3
  refine ⟨hlenF, hjlen, ?_, ?_, ?_, ?_, ?_, ?_, ?_, ?_, ?_, ?_,
    hnextF, hprevF, ?_⟩
  · rw [harena, htf_arena]
    exact C1.head_lt
  · intro i hi
    rw [harena, htf_arena]
    exact C1.ids_bounds i
      (((insertIdx_perm tid index jds hj_idx).mem_iff).mpr
        (List.mem_cons_of_mem _ hi))
  · exact (List.nodup_cons.mp
      (((insertIdx_perm tid index jds hj_idx).nodup_iff).mp C1.ids_nodup)).2
  · rw [hval 0]
    exact C1.head_value
  · rw [hlinklen 0]
    exact C1.head_links
  · rw [hspanlen 0]
    exact C1.head_spans
  · intro k hk
    by_cases hc : k + 1 < index + 1
    · have h3 := C1.height_le k (by omega)
      rw [hEH (k + 1), if_pos hc] at h3
      exact h3
    · have h3 := C1.height_le (k + 1) (by omega)
      rw [hEH (k + 2), if_neg (by omega), if_neg (by omega),
        (by omega : k + 2 - 1 = k + 1)] at h3
      exact h3
  · intro k hk
    rcases hjk : jds.get? k with _ | id
    · rw [List.get?_eq_none] at hjk
      omega
    · by_cases hc : k < index
      · have h0 := C1.node_value k (by omega)
        rw [get?_insertIdx tid index jds hj_idx k, if_pos hc,
          get?_insertIdx e index ys hidx k, if_pos hc, hjk,
          Option.some_bind] at h0
        rw [Option.some_bind, hval]
        exact h0
      · have h0 := C1.node_value (k + 1) (by omega)
        rw [get?_insertIdx tid index jds hj_idx (k + 1), if_neg (by omega),
          if_neg (by omega), get?_insertIdx e index ys hidx (k + 1),
          if_neg (by omega), if_neg (by omega), Nat.add_sub_cancel, hjk,
          Option.some_bind] at h0
        rw [Option.some_bind, hval]
        exact h0
  · intro k hk
    rcases hjk : jds.get? k with _ | id
    · rw [List.get?_eq_none] at hjk
      omega
    · by_cases hc : k < index
      · have h0 := C1.node_links k (by omega)
        rw [get?_insertIdx tid index jds hj_idx k, if_pos hc,
          get?_insertIdx e index ys hidx k, if_pos hc, hjk,
          Option.map_some'] at h0
        rw [Option.map_some', hlinklen]
        exact h0
      · have h0 := C1.node_links (k + 1) (by omega)
        rw [get?_insertIdx tid index jds hj_idx (k + 1), if_neg (by omega),
          if_neg (by omega), get?_insertIdx e index ys hidx (k + 1),
          if_neg (by omega), if_neg (by omega), Nat.add_sub_cancel, hjk,
          Option.map_some'] at h0
        rw [Option.map_some', hlinklen]
        exact h0
  · intro k hk
    rcases hjk : jds.get? k with _ | id
    · rw [List.get?_eq_none] at hjk
      omega
    · by_cases hc : k < index
      · have h0 := C1.node_spans k (by omega)
        rw [get?_insertIdx tid index jds hj_idx k, if_pos hc,
          get?_insertIdx e index ys hidx k, if_pos hc, hjk,
          Option.map_some'] at h0
        rw [Option.map_some', hspanlen]
        exact h0
      · have h0 := C1.node_spans (k + 1) (by omega)
        rw [get?_insertIdx tid index jds hj_idx (k + 1), if_neg (by omega),
          if_neg (by omega), get?_insertIdx e index ys hidx (k + 1),
          if_neg (by omega), if_neg (by omega), Nat.add_sub_cancel, hjk,
          Option.map_some'] at h0
        rw [Option.map_some', hspanlen]
        exact h0
  · -- links_ok
    intro k hk l hl
    rw [hlinkAtF, hspanAtF]
    have hlhh : l < hh := by
      rcases Nat.eq_zero_or_pos k with rfl | hk0
      · simpa [heightAt] using hl
      · have h1 := hhle k (by omega) hk
        have hk0' : k ≠ 0 := by omega
        simp only [heightAt, if_neg hk0'] at hl
        omega
    obtain ⟨D1, D2⟩ := hdonef l hlhh
    by_cases hka : k < index + 1
    · -- position below the removal point
      have hfk : fid jds k = fid (jds.insertIdx index tid) k := by
        rw [hfidmap k, if_pos hka]
      have hlX : l < heightAt hh (ys.insertIdx index e) k := by
        rcases Nat.eq_zero_or_pos k with rfl | hkpos
        · simpa [heightAt] using hl
        · have hkz : k ≠ 0 := by omega
          simp only [heightAt, if_neg hkz] at hl ⊢
          rw [hEH k, if_pos hka]
          exact hl
      obtain ⟨L1, L2⟩ := C1.links_ok k (by omega) l hlX
      have hpred2 : k = 0 ∨ l < entryHeight (ys.insertIdx index e) k := by
        rcases Nat.eq_zero_or_pos k with rfl | hkpos
        · exact Or.inl rfl
        · right
          have hkz : k ≠ 0 := by omega
          simpa [heightAt, hkz] using hlX
      rw [hfk]
      by_cases hle : l < e.2 + 1
      · -- the removed node reaches this level
        rcases hq : nextAbove ys l k with _ | q
        · have hXk : nextAbove (ys.insertIdx index e) l k = some (index + 1) :=
            nextAbove_insertIdx_new hidx hka hle (Or.inl hq)
          have hkp : levelPred (ys.insertIdx index e) l (index + 1) = k := by
            refine levelPred_eq _ l (index + 1) k (by omega) hpred2 ?_
            intro r hr1 hr2
            exact ((nextAbove_some_iff ..).mp hXk).2.2 r hr1 (by omega)
          rw [hkp, hEHa] at D2
          rw [if_pos hle] at D2
          obtain ⟨E1, E2⟩ := D2
          have hXa : nextAbove (ys.insertIdx index e) l (index + 1) =
              (nextAbove ys l k).map (fun q => q + 1) :=
            nextAbove_insertIdx_of_pred hidx (by omega)
              (fun r hr1 hr2 => (nextAbove_none_iff ..).mp hq r hr1)
          rw [hXa, hq] at E1 E2
          exact ⟨E1, E2⟩
        · by_cases hqi : q < index + 1
          · -- the link lands below the removal point: untouched
            have hXq : nextAbove (ys.insertIdx index e) l k = some q :=
              nextAbove_insertIdx_lt hidx hq hqi
            have hkp : k ≠ levelPred (ys.insertIdx index e) l (index + 1) := by
              intro he
              have := nextAbove_levelPred (ys.insertIdx index e) l (index + 1) q
                (by omega) (by rw [← he]; exact hXq)
              omega
            obtain ⟨F1, F2⟩ := D1 k (by omega) hkp
            rw [hXq] at L1 L2
            rw [F1.trans L1, F2.trans L2]
            constructor
            · simp only [Option.map_some']
              rw [hfidmap q, if_pos hqi]
            · rfl
          · -- the link would cross: the predecessor is rerouted
            have hXk : nextAbove (ys.insertIdx index e) l k = some (index + 1) :=
              nextAbove_insertIdx_new hidx hka hle (Or.inr ⟨q, hq, by omega⟩)
            have hkp : levelPred (ys.insertIdx index e) l (index + 1) = k := by
              refine levelPred_eq _ l (index + 1) k (by omega) hpred2 ?_
              intro r hr1 hr2
              exact ((nextAbove_some_iff ..).mp hXk).2.2 r hr1 (by omega)
            rw [hkp, hEHa] at D2
            rw [if_pos hle] at D2
            obtain ⟨E1, E2⟩ := D2
            have hXa : nextAbove (ys.insertIdx index e) l (index + 1) =
                (nextAbove ys l k).map (fun q => q + 1) :=
              nextAbove_insertIdx_of_pred hidx (by omega)
                (fun r hr1 hr2 =>
                  ((nextAbove_some_iff ..).mp hq).2.2 r hr1 (by omega))
            rw [hXa, hq] at E1 E2
            rw [E1, E2]
            constructor
            · simp only [Option.map_some']
              rw [hfidmap (q + 1), if_neg (by omega), if_neg (by omega),
                Nat.add_sub_cancel]
            · simp only [Option.map_some', Option.getD_some]
              congr 1
      · -- the removed node does not reach this level
        have hskip : nextAbove (ys.insertIdx index e) l k =
            (nextAbove ys l k).map (fun q => if q < index + 1 then q else q + 1) :=
          nextAbove_insertIdx_skip hidx hka (by omega : e.2 + 1 ≤ l)
        rcases hq : nextAbove ys l k with _ | q
        · have hXq : nextAbove (ys.insertIdx index e) l k = none := by
            rw [hskip, hq]
            rfl
          have hkp : levelPred (ys.insertIdx index e) l (index + 1) = k := by
            refine levelPred_eq _ l (index + 1) k (by omega) hpred2 ?_
            intro r hr1 hr2
            exact (nextAbove_none_iff ..).mp hXq r hr1
          rw [hkp, hEHa] at D2
          rw [if_neg (by omega)] at D2
          obtain ⟨E1, E2⟩ := D2
          rw [hXq] at L1 E2
          rw [E1.trans L1, E2]
          exact ⟨rfl, rfl⟩
        · by_cases hqi : q < index + 1
          · have hXq : nextAbove (ys.insertIdx index e) l k = some q := by
              rw [hskip, hq]
              simp only [Option.map_some']
              rw [if_pos hqi]
            have hkp : k ≠ levelPred (ys.insertIdx index e) l (index + 1) := by
              intro he
              have := nextAbove_levelPred (ys.insertIdx index e) l (index + 1) q
                (by omega) (by rw [← he]; exact hXq)
              omega
            obtain ⟨F1, F2⟩ := D1 k (by omega) hkp
            rw [hXq] at L1 L2
            rw [F1.trans L1, F2.trans L2]
            constructor
            · simp only [Option.map_some']
              rw [hfidmap q, if_pos hqi]
            · rfl
          · -- the crossing span shrinks by one
            have hXq : nextAbove (ys.insertIdx index e) l k = some (q + 1) := by
              rw [hskip, hq]
              simp only [Option.map_some']
              rw [if_neg hqi]
            have hkp : levelPred (ys.insertIdx index e) l (index + 1) = k := by
              refine levelPred_eq _ l (index + 1) k (by omega) hpred2 ?_
              intro r hr1 hr2
              exact ((nextAbove_some_iff ..).mp hXq).2.2 r hr1 (by omega)
            rw [hkp, hEHa] at D2
            rw [if_neg (by omega)] at D2
            obtain ⟨E1, E2⟩ := D2
            rw [hXq] at L1 E2
            rw [E1.trans L1, E2]
            constructor
            · simp only [Option.map_some']
              rw [hfidmap (q + 1), if_neg (by omega), if_neg (by omega),
                Nat.add_sub_cancel]
            · simp only [Option.map_some', Option.getD_some]
              congr 1
    · -- position at or past the removal point: shifted by one
      have hfk : fid jds k = fid (jds.insertIdx index tid) (k + 1) := by
        rw [hfidmap (k + 1), if_neg (by omega), if_neg (by omega),
          Nat.add_sub_cancel]
      have hkz : k ≠ 0 := by omega
      have hlX : l < heightAt hh (ys.insertIdx index e) (k + 1) := by
        simp only [heightAt, if_neg (by omega : ¬ k + 1 = 0)]
        rw [hEH (k + 1), if_neg (by omega), if_neg (by omega),
          Nat.add_sub_cancel]
        simpa [heightAt, hkz] using hl
      obtain ⟨L1, L2⟩ := C1.links_ok (k + 1) (by omega) l hlX
      have hkp : k + 1 ≠ levelPred (ys.insertIdx index e) l (index + 1) := by
        have := levelPred_le (ys.insertIdx index e) l (index + 1)
        omega
      obtain ⟨F1, F2⟩ := D1 (k + 1) (by omega) hkp
      have hXq : nextAbove (ys.insertIdx index e) l (k + 1) =
          (nextAbove ys l k).map (fun q => q + 1) :=
        nextAbove_insertIdx_ge hidx (by omega)
      rw [hfk]
      rw [hXq] at L1 L2
      rw [F1.trans L1, F2.trans L2]
      rcases hq : nextAbove ys l k with _ | q
      · exact ⟨rfl, rfl⟩
      · have hqk := nextAbove_pos_le hq
        constructor
        · simp only [Option.map_some']
          rw [hfidmap (q + 1), if_neg (by omega), if_neg (by omega),
            Nat.add_sub_cancel]
        · simp only [Option.map_some', Option.getD_some]
          congr 1
          omega

theorem getN_updN_keep {V : Type} {A : Type} (t : SkipList V) (id : Nat)
    (f : Node V → Node V) (g : Node V → A) (hf : ∀ nd, g (f nd) = g nd)
    (id' : Nat) : g (getN (updN t id f) id') = g (getN t id') := by
  by_cases hid : id < t.arena.length
  · by_cases he : id = id'
    · subst he
      rw [getN_updN_same _ _ _ hid]
      exact hf (getN t id)
    · rw [getN_updN_ne _ _ _ _ he]
  · rw [updN, setN_oob _ _ _ (by omega)]

theorem remove_spec {V : Type} {s : SkipList V} {hh : Nat} {ids : List Nat}
    {xs : List (V × Nat)} (C : Canonical s hh ids xs) {index : Nat}
    (hidx : index < xs.length) :
    ∃ v s', SkipList.remove s index = some (v, s') ∧
      (xs.get? index).map Prod.fst = some v ∧
      Canonical s' hh (ids.eraseIdx index) (xs.eraseIdx index) := by
  have hlen := C.len_eq
  have hidslen := C.ids_len
  have harena := C.n_lt_arena
  have hhpos : 0 < hh := C.hh_pos (by omega)
  have hguard : ¬ index > s.length := by omega
  simp only [SkipList.remove, if_neg hguard]
  rw [C.head_links]
  obtain ⟨tf, hloop, hshapef, hdonef⟩ := removeLoop_go C (a := index + 1)
    (by omega) (by omega) ((s.arena.length + 2) * (hh + 2)) s 0 (hh - 1)
    (sameShape_refl s) (fun l _ id => ⟨rfl, rfl⟩)
    (fun l hl1 hl2 => absurd hl2 (by omega)) (by omega)
    (by simp [heightAt]; omega)
    (by
      have hexp : (s.arena.length + 2) * (hh + 2) =
        s.arena.length * hh + 2 * s.arena.length + 2 * hh + 4 := by ring
      omega)
  rw [show fid ids 0 = 0 from rfl, Nat.add_sub_cancel] at hloop
  rw [hloop]
  simp only
  have hnext1 : (getN tf (fid ids index)).next = ids.get? index :=
    ((hshapef.2.2 (fid ids index)).2.1).trans (C.nexts index (by omega))
  have htid : ids.get? index = some (fid ids (index + 1)) := get?_eq_fid C hidx
  rw [hnext1, htid]
  simp only
  rcases he : xs.get? index with _ | e
  · rw [List.get?_eq_none] at he
    omega
  have h0 := C.node_value index (by omega)
  rw [htid, Option.some_bind, he] at h0
  have hvaltf : (getN tf (fid ids (index + 1))).value = some e.1 :=
    ((hshapef.2.2 (fid ids (index + 1))).1).trans h0
  have hnext2 : (getN tf (fid ids (index + 1))).next = ids.get? (index + 1) :=
    ((hshapef.2.2 (fid ids (index + 1))).2.1).trans (C.nexts (index + 1) (by omega))
  have hpre_ne : fid ids index ≠ fid ids (index + 1) := by
    intro h
    have := C.fid_inj (k := index) (j := index + 1) (by omega) (by omega) h
    omega
  have htf_arena : tf.arena.length = s.arena.length := hshapef.1
  have htf_len : tf.length = s.length := hshapef.2.1
  have hpreTf : fid ids index < tf.arena.length := by
    rw [htf_arena]
    exact C.fid_lt (by omega)
  have htidTf : fid ids (index + 1) < tf.arena.length := by
    rw [htf_arena]
    exact C.fid_lt (by omega)
  -- canonical-form data for the final application
  have hids_e : (ids.eraseIdx index).insertIdx index (fid ids (index + 1)) =
      ids := insertIdx_eraseIdx_self ids index _ htid
  have hxs_e : (xs.eraseIdx index).insertIdx index e = xs :=
    insertIdx_eraseIdx_self xs index e he
  have hyslen : (xs.eraseIdx index).length = xs.length - 1 := by
    rw [List.length_eraseIdx, if_pos hidx]
  have hjdslen : (ids.eraseIdx index).length = ids.length - 1 := by
    rw [List.length_eraseIdx, if_pos (by omega)]
  have hj_idx : index ≤ (ids.eraseIdx index).length := by omega
  have C1 : Canonical s hh
      ((ids.eraseIdx index).insertIdx index (fid ids (index + 1)))
      ((xs.eraseIdx index).insertIdx index e) := by
    rw [hids_e, hxs_e]
    exact C
  have hdonef' : ∀ l, l < hh → remLevelDone tf s
      ((ids.eraseIdx index).insertIdx index (fid ids (index + 1)))
      ((xs.eraseIdx index).insertIdx index e) (index + 1) l := by
    rw [hids_e, hxs_e]
    exact hdonef
  have hfid_j : ∀ m, fid ids m =
      if m < index + 1 then fid (ids.eraseIdx index) m
      else if m = index + 1 then fid ids (index + 1)
      else fid (ids.eraseIdx index) (m - 1) := by
    intro m
    conv_lhs => rw [← hids_e]
    exact fid_insertIdx (ids.eraseIdx index) (fid ids (index + 1)) index
      hj_idx m
  have hget_j : ∀ m, ids.get? m =
      if m < index then (ids.eraseIdx index).get? m
      else if m = index then some (fid ids (index + 1))
      else (ids.eraseIdx index).get? (m - 1) := by
    intro m
    conv_lhs => rw [← hids_e]
    exact get?_insertIdx (fid ids (index + 1)) index (ids.eraseIdx index)
      hj_idx m
  have hfj_lt : ∀ k, k < index + 1 → fid (ids.eraseIdx index) k = fid ids k := by
    intro k hk
    rw [hfid_j k, if_pos hk]
  have hfj_ge : ∀ k, index + 1 ≤ k → fid (ids.eraseIdx index) k =
      fid ids (k + 1) := by
    intro k hk
    rw [hfid_j (k + 1), if_neg (by omega), if_neg (by omega),
      Nat.add_sub_cancel]
  have hgj_lt : ∀ m, m < index → (ids.eraseIdx index).get? m = ids.get? m := by
    intro m hm
    rw [hget_j m, if_pos hm]
  have hgj_ge : ∀ m, index ≤ m → (ids.eraseIdx index).get? m =
      ids.get? (m + 1) := by
    intro m hm
    rw [hget_j (m + 1), if_neg (by omega), if_neg (by omega),
      Nat.add_sub_cancel]
  rcases hnx : ids.get? (index + 1) with _ | nx
  · -- removing the last element
    rw [hnx] at hnext2
    have hin : index + 1 = xs.length := by
      rw [List.get?_eq_none] at hnx
      omega
    rw [hnext2]
    simp only
    rw [hvaltf]
    refine ⟨e.1, _, rfl, rfl, ?_⟩
    have hnext4 : ∀ id, id ≠ fid ids index → id ≠ fid ids (index + 1) →
        (getN (updN (updN tf (fid ids index) fun nd =>
          { nd with next := none }) (fid ids (index + 1))
          fun nd => { nd with next := none }) id).next = (getN tf id).next := by
      intro id h1 h2
      rw [getN_updN_ne _ _ _ _ (fun h => h2 h.symm),
        getN_updN_ne _ _ _ _ (fun h => h1 h.symm)]
    have hnextPre : (getN (updN (updN tf (fid ids index) fun nd =>
        { nd with next := none }) (fid ids (index + 1))
        fun nd => { nd with next := none }) (fid ids index)).next = none := by
      rw [getN_updN_ne _ _ _ _ (fun h => hpre_ne h.symm),
        getN_updN_same _ _ _ hpreTf]
    have hprev4 : ∀ id, (getN (updN (updN tf (fid ids index) fun nd =>
        { nd with next := none }) (fid ids (index + 1))
        fun nd => { nd with next := none }) id).prev = (getN tf id).prev := by
      intro id
      rw [getN_updN_keep _ _ (fun nd => { nd with next := none })
          (fun nd => nd.prev) (fun nd => rfl) id,
        getN_updN_keep _ _ (fun nd => { nd with next := none })
          (fun nd => nd.prev) (fun nd => rfl) id]
    refine canonical_remove_final C1 (by omega) hshapef
      (fun l hl => hdonef' l hl) (by rw [arena_updN, arena_updN]) ?_ ?_ ?_ ?_
    · show (updN (updN tf (fid ids index) fun nd =>
        { nd with next := none }) (fid ids (index + 1))
        fun nd => { nd with next := none }).length - 1 = (xs.eraseIdx index).length
      rw [length_updN, length_updN, htf_len, hlen]
      omega
    · intro id
      simp only [getN_arena_of]
      have h2 := getN_updN_pn
        (updN tf (fid ids index) fun nd => { nd with next := none })
        (fid ids (index + 1)) (fun nd => { nd with next := none })
        (fun nd => ⟨rfl, rfl, rfl⟩) id
      have h1 := getN_updN_pn tf (fid ids index)
        (fun nd => { nd with next := none })
        (fun nd => ⟨rfl, rfl, rfl⟩) id
      exact ⟨h2.1.trans h1.1, h2.2.1.trans h1.2.1, h2.2.2.trans h1.2.2⟩
    · -- next pointers
      intro k hk
      simp only [getN_arena_of]
      rcases Nat.lt_trichotomy k index with hc | hceq | hc
      · rw [hfj_lt k (by omega), hgj_lt k hc]
        rw [hnext4 (fid ids k)
          (by
            intro h
            have := C.fid_inj (k := k) (j := index) (by omega) (by omega) h
            omega)
          (by
            intro h
            have := C.fid_inj (k := k) (j := index + 1) (by omega)
              (by omega) h
            omega)]
        exact ((hshapef.2.2 (fid ids k)).2.1).trans (C.nexts k (by omega))
      · rw [hceq, hfj_lt index (by omega)]
        rw [hnextPre, List.get?_eq_none.mpr (by omega)]
      · omega
    · -- prev pointers
      intro k hk1 hk2
      simp only [getN_arena_of]
      have hky : k ≤ index := by omega
      rw [hfj_lt k (by omega), hfj_lt (k - 1) (by omega), hprev4]
      exact ((hshapef.2.2 (fid ids k)).2.2.1).trans
        (C.prevs k hk1 (by omega))
  · -- removing from the middle
    rw [hnx] at hnext2
    have hin : index + 2 ≤ xs.length := by
      obtain ⟨h1, -⟩ := List.get?_eq_some.mp hnx
      omega
    have hnx_eq : nx = fid ids (index + 2) := by
      have h1 := get?_eq_fid C (k := index + 1) (by omega)
      rw [hnx] at h1
      exact Option.some.inj h1
    have hnx_ne_pre : nx ≠ fid ids index := by
      rw [hnx_eq]
      intro h
      have := C.fid_inj (k := index + 2) (j := index) (by omega) (by omega) h
      omega
    have hnx_ne_tid : nx ≠ fid ids (index + 1) := by
      rw [hnx_eq]
      intro h
      have := C.fid_inj (k := index + 2) (j := index + 1) (by omega)
        (by omega) h
      omega
    have hnxTf : nx < tf.arena.length := by
      rw [hnx_eq, htf_arena]
      exact C.fid_lt (by omega)
    rw [hnext2]
    simp only
    rw [hvaltf]
    refine ⟨e.1, _, rfl, rfl, ?_⟩
    have hnext4 : ∀ id, id ≠ fid ids index → id ≠ fid ids (index + 1) →
        id ≠ nx →
        (getN (updN (updN (updN (updN tf (fid ids index) fun nd =>
          { nd with next := none }) (fid ids (index + 1)) fun nd =>
          { nd with next := none }) nx fun nd =>
          { nd with prev := some (fid ids index) }) (fid ids index)
          fun nd => { nd with next := some nx }) id).next =
        (getN tf id).next := by
      intro id h1 h2 h3
      rw [getN_updN_ne _ _ _ _ (fun h => h1 h.symm),
        getN_updN_keep _ _ (fun nd => { nd with prev := some (fid ids index) })
          (fun nd => nd.next) (fun nd => rfl) id,
        getN_updN_ne _ _ _ _ (fun h => h2 h.symm),
        getN_updN_ne _ _ _ _ (fun h => h1 h.symm)]
    have hnextPre : (getN (updN (updN (updN (updN tf (fid ids index) fun nd =>
          { nd with next := none }) (fid ids (index + 1)) fun nd =>
          { nd with next := none }) nx fun nd =>
          { nd with prev := some (fid ids index) }) (fid ids index)
          fun nd => { nd with next := some nx }) (fid ids index)).next =
        some nx := by
      rw [getN_updN_same _ _ _
        (by rw [arena_updN, arena_updN, arena_updN]; exact hpreTf)]
    have hnextNx : (getN (updN (updN (updN (updN tf (fid ids index) fun nd =>
          { nd with next := none }) (fid ids (index + 1)) fun nd =>
          { nd with next := none }) nx fun nd =>
          { nd with prev := some (fid ids index) }) (fid ids index)
          fun nd => { nd with next := some nx }) nx).next =
        (getN tf nx).next := by
      rw [getN_updN_ne _ _ _ _ (fun h => hnx_ne_pre h.symm),
        getN_updN_keep _ _ (fun nd => { nd with prev := some (fid ids index) })
          (fun nd => nd.next) (fun nd => rfl) nx,
        getN_updN_ne _ _ _ _ (fun h => hnx_ne_tid h.symm),
        getN_updN_ne _ _ _ _ (fun h => hnx_ne_pre h.symm)]
    have hprev4 : ∀ id, id ≠ nx →
        (getN (updN (updN (updN (updN tf (fid ids index) fun nd =>
          { nd with next := none }) (fid ids (index + 1)) fun nd =>
          { nd with next := none }) nx fun nd =>
          { nd with prev := some (fid ids index) }) (fid ids index)
          fun nd => { nd with next := some nx }) id).prev =
        (getN tf id).prev := by
      intro id h3
      rw [getN_updN_keep _ _ (fun nd => { nd with next := some nx })
          (fun nd => nd.prev) (fun nd => rfl) id,
        getN_updN_ne _ _ _ _ (fun h => h3 h.symm),
        getN_updN_keep _ _ (fun nd => { nd with next := none })
          (fun nd => nd.prev) (fun nd => rfl) id,
        getN_updN_keep _ _ (fun nd => { nd with next := none })
          (fun nd => nd.prev) (fun nd => rfl) id]
    have hprevNx : (getN (updN (updN (updN (updN tf (fid ids index) fun nd =>
          { nd with next := none }) (fid ids (index + 1)) fun nd =>
          { nd with next := none }) nx fun nd =>
          { nd with prev := some (fid ids index) }) (fid ids index)
          fun nd => { nd with next := some nx }) nx).prev =
        some (fid ids index) := by
      rw [getN_updN_keep _ _ (fun nd => { nd with next := some nx })
          (fun nd => nd.prev) (fun nd => rfl) nx,
        getN_updN_same _ _ _ (by rw [arena_updN, arena_updN]; exact hnxTf)]
    refine canonical_remove_final C1 (by omega) hshapef
      (fun l hl => hdonef' l hl)
      (by rw [arena_updN, arena_updN, arena_updN, arena_updN]) ?_ ?_ ?_ ?_
    · show (updN (updN (updN (updN tf (fid ids index) fun nd =>
        { nd with next := none }) (fid ids (index + 1)) fun nd =>
        { nd with next := none }) nx fun nd =>
        { nd with prev := some (fid ids index) }) (fid ids index)
        fun nd => { nd with next := some nx }).length - 1 =
        (xs.eraseIdx index).length
      rw [length_updN, length_updN, length_updN, length_updN, htf_len, hlen]
      omega
    · intro id
      simp only [getN_arena_of]
      have h4 := getN_updN_pn
        (updN (updN (updN tf (fid ids index) fun nd =>
          { nd with next := none }) (fid ids (index + 1)) fun nd =>
          { nd with next := none }) nx fun nd =>
          { nd with prev := some (fid ids index) })
        (fid ids index) (fun nd => { nd with next := some nx })
        (fun nd => ⟨rfl, rfl, rfl⟩) id
      have h3 := getN_updN_pn
        (updN (updN tf (fid ids index) fun nd =>
          { nd with next := none }) (fid ids (index + 1)) fun nd =>
          { nd with next := none })
        nx (fun nd => { nd with prev := some (fid ids index) })
        (fun nd => ⟨rfl, rfl, rfl⟩) id
      have h2 := getN_updN_pn
        (updN tf (fid ids index) fun nd => { nd with next := none })
        (fid ids (index + 1)) (fun nd => { nd with next := none })
        (fun nd => ⟨rfl, rfl, rfl⟩) id
      have h1 := getN_updN_pn tf (fid ids index)
        (fun nd => { nd with next := none })
        (fun nd => ⟨rfl, rfl, rfl⟩) id
      exact ⟨h4.1.trans (h3.1.trans (h2.1.trans h1.1)),
        h4.2.1.trans (h3.2.1.trans (h2.2.1.trans h1.2.1)),
        h4.2.2.trans (h3.2.2.trans (h2.2.2.trans h1.2.2))⟩
    · -- next pointers
      intro k hk
      simp only [getN_arena_of]
      rcases Nat.lt_trichotomy k index with hc | hceq | hc
      · rw [hfj_lt k (by omega), hgj_lt k hc]
        rw [hnext4 (fid ids k)
          (by
            intro h
            have := C.fid_inj (k := k) (j := index) (by omega) (by omega) h
            omega)
          (by
            intro h
            have := C.fid_inj (k := k) (j := index + 1) (by omega)
              (by omega) h
            omega)
          (by
            rw [hnx_eq]
            intro h
            have := C.fid_inj (k := k) (j := index + 2) (by omega)
              (by omega) h
            omega)]
        exact ((hshapef.2.2 (fid ids k)).2.1).trans (C.nexts k (by omega))
      · rw [hceq, hfj_lt index (by omega), hgj_ge index (by omega), hnx]
        exact hnextPre
      · rcases Nat.eq_or_lt_of_le hc with hceq2 | hc2
        · rw [← hceq2, hfj_ge (index + 1) (by omega), ← hnx_eq,
            hgj_ge (index + 1) (by omega)]
          rw [hnextNx]
          exact ((hshapef.2.2 nx).2.1).trans (by
            rw [hnx_eq]
            exact C.nexts (index + 2) (by omega))
        · rw [hfj_ge k (by omega), hgj_ge k (by omega)]
          rw [hnext4 (fid ids (k + 1))
            (by
              intro h
              have := C.fid_inj (k := k + 1) (j := index) (by omega)
                (by omega) h
              omega)
            (by
              intro h
              have := C.fid_inj (k := k + 1) (j := index + 1) (by omega)
                (by omega) h
              omega)
            (by
              rw [hnx_eq]
              intro h
              have := C.fid_inj (k := k + 1) (j := index + 2) (by omega)
                (by omega) h
              omega)]
          exact ((hshapef.2.2 (fid ids (k + 1))).2.1).trans
            (C.nexts (k + 1) (by omega))
    · -- prev pointers
      intro k hk1 hk2
      simp only [getN_arena_of]
      rcases Nat.lt_or_ge k (index + 1) with hc | hc
      · rw [hfj_lt k (by omega), hfj_lt (k - 1) (by omega)]
        rw [hprev4 (fid ids k)
          (by
            rw [hnx_eq]
            intro h
            have := C.fid_inj (k := k) (j := index + 2) (by omega)
              (by omega) h
            omega)]
        exact ((hshapef.2.2 (fid ids k)).2.2.1).trans
          (C.prevs k hk1 (by omega))
      · rcases Nat.eq_or_lt_of_le hc with hceq2 | hc2
        · rw [← hceq2, hfj_ge (index + 1) (by omega), ← hnx_eq,
            hfj_lt (index + 1 - 1) (by omega), Nat.add_sub_cancel]
          exact hprevNx
        · rw [hfj_ge k (by omega), hfj_ge (k - 1) (by omega)]
          rw [hprev4 (fid ids (k + 1))
            (by
              rw [hnx_eq]
              intro h
              have := C.fid_inj (k := k + 1) (j := index + 2) (by omega)
                (by omega) h
              omega)]
          rw [((hshapef.2.2 (fid ids (k + 1))).2.2.1).trans
            (C.prevs (k + 1) (by omega) (by omega))]
          rw [Nat.add_sub_cancel, (by omega : k - 1 + 1 = k)]

/-- States reachable from a fresh skip list by any sequence of `insert` and
`remove` calls that do not panic. -/
inductive ReachableSL (V : Type) : SkipList V → Prop where
  | new : ReachableSL V (SkipList.new V)
  | ins (s s' : SkipList V) (index : Nat) (v : V) (level : Nat) :
      ReachableSL V s → SkipList.insert s index v level = some s' →
      ReachableSL V s'
  | rem (s s' : SkipList V) (index : Nat) (v : V) :
      ReachableSL V s → SkipList.remove s index = some (v, s') →
      ReachableSL V s'

/-- Every reachable state is in canonical form. -/
theorem reachable_canonical {V : Type} {s : SkipList V} (h : ReachableSL V s) :
    ∃ hh ids xs, Canonical s hh ids xs := by
  induction h with
  | new => exact ⟨0, [], [], canonical_new V⟩
  | ins s s' index v level _ hins ih =>
    obtain ⟨hh, ids, xs, C⟩ := ih
    have hidx : index ≤ xs.length := by
      by_contra hgt
      push_neg at hgt
      have hgt2 : index > s.length := by rw [C.len_eq]; omega
      rw [SkipList.insert, if_pos hgt2] at hins
      cases hins
    obtain ⟨s'', hins2, C2⟩ := insert_spec C index v level hidx
    rw [hins] at hins2
    obtain rfl : s'' = s' := (Option.some.inj hins2).symm
    exact ⟨_, _, _, C2⟩
  | rem s s' index v _ hrem ih =>
    obtain ⟨hh, ids, xs, C⟩ := ih
    have hidx : index < xs.length := by
      by_contra hge
      push_neg at hge
      have h6 : xs.length ≤ index := hge
      rw [remove_none C h6] at hrem
      cases hrem
    obtain ⟨v2, s'', hrem2, hv2, C2⟩ := remove_spec C hidx
    rw [hrem] at hrem2
    have hp := Option.some.inj hrem2
    obtain rfl : s'' = s' := (congrArg Prod.snd hp).symm
    exact ⟨_, _, _, C2⟩

/-- A concrete one-element state: the result of inserting `42` at index 0
into a fresh list. -/
def oneElemState : SkipList Nat :=
  { arena := [
      { value := none, next := some 1, prev := none,
        links := [some 1], links_len := [1] },
      { value := some 42, next := none, prev := some 0,
        links := [none], links_len := [0] }],
    length := 1 }

theorem insert_oneElem :
    SkipList.insert (SkipList.new Nat) 0 42 0 = some oneElemState := by decide

theorem canonical_oneElem : Canonical oneElemState 1 [1] [(42, 0)] := by
  obtain ⟨s', hs', C⟩ := insert_spec (canonical_new Nat) 0 42 0 (by simp)
  rw [insert_oneElem] at hs'
  obtain rfl : s' = oneElemState := Option.some.inj hs'.symm
  exact C

theorem reachable_oneElem : ReachableSL Nat oneElemState :=
  ReachableSL.ins _ _ 0 42 0 ReachableSL.new insert_oneElem

/-- **C1.** On every state reachable by inserts and removes, `get i` for
`i < length` agrees with starting at the head and advancing `i` level-0
steps (`front()` advanced `i` times): span-based random access matches
sequential traversal. -/
theorem C1_get_agrees_with_traversal {V : Type} (s : SkipList V)
    (h : ReachableSL V s) (i : Nat) (hi : i < s.length) :
    s.get i = s.seqGet i := by
  obtain ⟨hh, ids, xs, C⟩ := reachable_canonical h
  rw [get_spec C i, seqGet_spec C i]

theorem C1_witness :
    0 < oneElemState.length ∧ oneElemState.get 0 = oneElemState.seqGet 0 :=
  ⟨by decide,
    C1_get_agrees_with_traversal oneElemState reachable_oneElem 0 (by decide)⟩

/-- **C6.** On every canonical-form state, `remove index` panics exactly
when `index ≥ length` (including `index = length` and the empty list), and
for `index < length` it returns the value stored at that index. -/
theorem C6_remove_in_bounds {V : Type} (s : SkipList V) (hh : Nat)
    (ids : List Nat) (xs : List (V × Nat)) (C : Canonical s hh ids xs)
    (index : Nat) :
    (s.length ≤ index → s.remove index = none) ∧
    (index < s.length → ∃ v s', s.remove index = some (v, s') ∧
      (xs.get? index).map Prod.fst = some v) := by
  constructor
  · intro h
    have h6 : xs.length ≤ index := by rw [C.len_eq] at h; omega
    exact remove_none C h6
  · intro h
    have h6 : index < xs.length := by rw [C.len_eq] at h; omega
    obtain ⟨v, s', h1, h2, _⟩ := remove_spec C h6
    exact ⟨v, s', h1, h2⟩

theorem C6_witness :
    ((oneElemState.length ≤ 1 → oneElemState.remove 1 = none) ∧
      (1 < oneElemState.length → ∃ v s', oneElemState.remove 1 = some (v, s') ∧
        ([((42 : Nat), 0)].get? 1).map Prod.fst = some v)) ∧
    oneElemState.remove 1 = none :=
  ⟨C6_remove_in_bounds oneElemState 1 [1] [(42, 0)] canonical_oneElem 1,
    (C6_remove_in_bounds oneElemState 1 [1] [(42, 0)] canonical_oneElem 1).1
      (by decide)⟩

/-- **C10.** On every empty canonical-form state, `pop_front` and
`pop_back` return `None` and leave the structure unchanged (no panic), and
`front`/`back` return `None`. -/
theorem C10_empty_pops {V : Type} (s : SkipList V) (hh : Nat)
    (ids : List Nat) (C : Canonical s hh ids []) :
    s.popFront = some (none, s) ∧ s.popBack = some (none, s) ∧
    s.front = none ∧ s.back = none := by
  have hlen : s.length = 0 := by simpa using C.len_eq
  have hids : ids.length = 0 := by simpa using C.ids_len
  refine ⟨?_, ?_, ?_, ?_⟩
  · rw [SkipList.popFront, if_pos hlen]
  · rw [SkipList.popBack, if_pos hlen]
  · have h0 := C.nexts 0 (by simp)
    rw [fid_zero] at h0
    rw [SkipList.front, h0, List.get?_eq_none.mpr (by omega)]
  · rw [SkipList.back, if_pos hlen]

theorem C10_witness :
    (SkipList.new Nat).popFront = some (none, SkipList.new Nat) ∧
    (SkipList.new Nat).popBack = some (none, SkipList.new Nat) ∧
    (SkipList.new Nat).front = none ∧ (SkipList.new Nat).back = none :=
  C10_empty_pops (SkipList.new Nat) 0 [] (canonical_new Nat)

theorem rangeToList_nil {V : Type} (s : SkipList V) (m : Nat) :
    ∀ fuel, rangeToList s fuel ⟨none, m⟩ = [] := by
  intro fuel
  cases fuel <;> rfl

theorem revRangeToList_nil {V : Type} (s : SkipList V) (m : Nat) :
    ∀ fuel, revRangeToList s fuel ⟨none, m⟩ = [] := by
  intro fuel
  cases fuel <;> rfl

theorem rangeToList_spec {V : Type} {s : SkipList V} {hh : Nat}
    {ids : List Nat} {xs : List (V × Nat)} (C : Canonical s hh ids xs) :
    ∀ fuel n k, 1 ≤ n → k + n ≤ xs.length → n ≤ fuel →
      rangeToList s fuel ⟨some (fid ids (k + 1)), n⟩ =
        ((xs.drop k).take n).map Prod.fst := by
  intro fuel
  induction fuel with
  | zero => intro n k h1 _ h3; omega
  | succ fuel ih =>
    intro n k h1 h2 h3
    rcases he : xs.get? k with _ | e
    · rw [List.get?_eq_none] at he
      omega
    have hk : k < xs.length := by omega
    have hek : xs[k] = e := by
      rw [List.get?_eq_getElem?] at he
      exact (List.getElem?_eq_some.mp he).2
    have hdrop : xs.drop k = e :: xs.drop (k + 1) := by
      rw [List.drop_eq_getElem_cons hk, hek]
    rw [rangeToList]
    simp only
    rw [C.value_at hk, he]
    simp only [Option.map_some']
    rcases Nat.eq_or_lt_of_le h1 with h1e | h1l
    · obtain rfl : n = 1 := h1e.symm
      rw [if_neg (by omega : ¬ 1 - 1 > 0)]
      rw [rangeToList_nil]
      rw [hdrop]
      rfl
    · rw [if_pos (by omega : n - 1 > 0)]
      have hnx : (getN s (fid ids (k + 1))).next = some (fid ids (k + 2)) := by
        rw [C.nexts (k + 1) (by omega)]
        exact get?_eq_fid C (by omega)
      rw [hnx]
      rw [ih (n - 1) (k + 1) (by omega) (by omega) (by omega)]
      rw [hdrop, show n = (n - 1) + 1 from by omega, List.take_succ_cons]
      simp only [List.map_cons]
      rw [show n - 1 + 1 - 1 = n - 1 from by omega]

theorem revRangeToList_spec {V : Type} {s : SkipList V} {hh : Nat}
    {ids : List Nat} {xs : List (V × Nat)} (C : Canonical s hh ids xs) :
    ∀ fuel n k, 1 ≤ n → n ≤ k → k ≤ xs.length → n ≤ fuel →
      revRangeToList s fuel ⟨some (fid ids k), n⟩ =
        (((xs.drop (k - n)).take n).map Prod.fst).reverse := by
  intro fuel
  induction fuel with
  | zero => intro n k h1 _ _ h4; omega
  | succ fuel ih =>
    intro n k h1 h2 h3 h4
    rcases he : xs.get? (k - 1) with _ | e
    · rw [List.get?_eq_none] at he
      omega
    have hk1 : k - 1 < xs.length := by omega
    have hek : xs[k - 1] = e := by
      rw [List.get?_eq_getElem?] at he
      exact (List.getElem?_eq_some.mp he).2
    have hval : (getN s (fid ids k)).value = some e.1 := by
      rw [show k = k - 1 + 1 from by omega, C.value_at hk1, he]
      rfl
    have hprev : (getN s (fid ids k)).prev = some (fid ids (k - 1)) :=
      C.prevs k (by omega) h3
    have hget : (xs.drop (k - n))[n - 1]? = some e := by
      rw [List.getElem?_drop, show k - n + (n - 1) = k - 1 from by omega,
        ← List.get?_eq_getElem?]
      exact he
    have htake : (xs.drop (k - n)).take n =
        (xs.drop (k - n)).take (n - 1) ++ [e] := by
      have h5 : (xs.drop (k - n)).take ((n - 1) + 1) =
          (xs.drop (k - n)).take (n - 1) ++ (xs.drop (k - n))[n - 1]?.toList :=
        List.take_succ
      rw [show (n - 1) + 1 = n from by omega] at h5
      rw [h5, hget]
      rfl
    have hsplit : ((xs.drop (k - n)).take n).map Prod.fst =
        ((xs.drop (k - n)).take (n - 1)).map Prod.fst ++ [e.1] := by
      rw [htake]
      simp
    rw [revRangeToList]
    simp only
    rw [hval]
    simp only
    rw [hprev]
    simp only
    rcases Nat.eq_or_lt_of_le h1 with h1e | h1l
    · obtain rfl : n = 1 := h1e.symm
      have hres : ((((xs.drop (k - 1)).take 1).map Prod.fst).reverse : List V) =
          [e.1] := by
        rw [List.drop_eq_getElem_cons hk1, hek]
        rfl
      rcases hv3 : (getN s (fid ids (k - 1))).value with _ | y3
      · rw [hres]
      · rw [if_pos rfl, revRangeToList_nil, hres]
    · have hk2 : 2 ≤ k := by omega
      have hv2 : (getN s (fid ids (k - 1))).value = some
          (xs.get ⟨k - 2, by omega⟩).1 := by
        rw [show k - 1 = k - 2 + 1 from by omega, C.value_at (by omega)]
        rw [List.get?_eq_getElem?, List.getElem?_eq_getElem (by omega)]
        rfl
      rw [hv2]
      simp only
      rw [if_neg (by omega : ¬ n - 1 = 0)]
      rw [ih (n - 1) (k - 1) (by omega) (by omega) (by omega) (by omega)]
      rw [show k - 1 - (n - 1) = k - n from by omega]
      rw [hsplit, List.reverse_append]
      rfl

/-- **C7 (amended).** On every nonempty canonical-form state, `range` and
`reverse_range` normalize the bounds to a half-open window by clamping the
right end to `length`, panic exactly when `left > right` after clamping,
and otherwise iterate exactly the elements of the window (in reverse for
`reverse_range`).  (On the empty list both return an empty iterator before
any normalization, so no panic happens there; see the counterexample.) -/
theorem C7_range_window {V : Type} (s : SkipList V) (hh : Nat)
    (ids : List Nat) (xs : List (V × Nat)) (C : Canonical s hh ids xs)
    (hne : 0 < xs.length) (lo hi : Bnd) (left right : Nat)
    (hleft : left = match lo with
      | Bnd.unbounded => 0
      | Bnd.included i => i
      | Bnd.excluded i => i + 1)
    (hright : right = min (match hi with
      | Bnd.unbounded => s.length
      | Bnd.included i => i + 1
      | Bnd.excluded i => i) s.length) :
    (right < left → s.range lo hi = none ∧ s.reverseRange lo hi = none) ∧
    (left ≤ right →
      ∃ it rit, s.range lo hi = some it ∧ s.reverseRange lo hi = some rit ∧
        rangeToList s (s.arena.length + 1) it =
          ((xs.drop left).take (right - left)).map Prod.fst ∧
        revRangeToList s (s.arena.length + 1) rit =
          (((xs.drop left).take (right - left)).map Prod.fst).reverse) := by
  have hlen0 : s.length ≠ 0 := by rw [C.len_eq]; omega
  have hnorm : s.normalizeRange lo hi =
      if right < left then none else some (left, right) := by
    simp only [SkipList.normalizeRange]
    rw [← hleft]
    generalize hM : (match hi with
      | Bnd.unbounded => s.length
      | Bnd.included i => i + 1
      | Bnd.excluded i => i) = m
    rw [hM] at hright
    have hclamp : (if m > s.length then s.length else m) = right := by
      rcases Nat.lt_or_ge s.length m with h | h
      · rw [if_pos h, hright, Nat.min_eq_right (by omega)]
      · rw [if_neg (by omega), hright, Nat.min_eq_left h]
    rw [hclamp]
  have hrlen : right ≤ xs.length := by
    rw [← C.len_eq]
    rw [hright]
    exact Nat.min_le_right _ _
  constructor
  · intro hlt
    have hn : s.normalizeRange lo hi = none := by rw [hnorm, if_pos hlt]
    constructor
    · rw [SkipList.range, if_neg hlen0, hn]
    · rw [SkipList.reverseRange, if_neg hlen0, hn]
  · intro hle
    have hn : s.normalizeRange lo hi = some (left, right) := by
      rw [hnorm, if_neg (by omega)]
    by_cases heq : left = right
    · refine ⟨⟨none, 0⟩, ⟨none, 0⟩, ?_, ?_, ?_, ?_⟩
      · rw [SkipList.range, if_neg hlen0, hn]
        simp only
        rw [if_pos heq]
      · rw [SkipList.reverseRange, if_neg hlen0, hn]
        simp only
        rw [if_pos heq]
      · rw [rangeToList_nil, show right - left = 0 from by omega]
        simp
      · rw [revRangeToList_nil, show right - left = 0 from by omega]
        simp
    · have hlr : left < right := by omega
      refine ⟨⟨some (fid ids (left + 1)), right - left⟩,
        ⟨some (fid ids right), right - left⟩, ?_, ?_, ?_, ?_⟩
      · rw [SkipList.range, if_neg hlen0, hn]
        simp only
        rw [if_neg heq, getPtr_spec C (h := show left < xs.length by omega)]
      · rw [SkipList.reverseRange, if_neg hlen0, hn]
        simp only
        rw [if_neg heq,
          getPtr_spec C (h := show right - 1 < xs.length by omega),
          show right - 1 + 1 = right from by omega]
      · exact rangeToList_spec C _ (right - left) left (by omega) (by omega)
          (by have := C.n_lt_arena; omega)
      · rw [revRangeToList_spec C _ (right - left) right (by omega) (by omega)
          (by omega) (by have := C.n_lt_arena; omega),
          show right - (right - left) = left from by omega]

theorem C7_witness :
    (1 < 0 → oneElemState.range Bnd.unbounded Bnd.unbounded = none ∧
      oneElemState.reverseRange Bnd.unbounded Bnd.unbounded = none) ∧
    (0 ≤ 1 → ∃ it rit,
      oneElemState.range Bnd.unbounded Bnd.unbounded = some it ∧
      oneElemState.reverseRange Bnd.unbounded Bnd.unbounded = some rit ∧
      rangeToList oneElemState (oneElemState.arena.length + 1) it =
        (([((42 : Nat), 0)].drop 0).take (1 - 0)).map Prod.fst ∧
      revRangeToList oneElemState (oneElemState.arena.length + 1) rit =
        ((([((42 : Nat), 0)].drop 0).take (1 - 0)).map Prod.fst).reverse) :=
  C7_range_window oneElemState 1 [1] [(42, 0)] canonical_oneElem (by decide)
    Bnd.unbounded Bnd.unbounded 0 1 rfl (by decide)

/-- **C7, counterexample to the frozen wording.**  On the empty list the
bounds `5..2` leave `left = 5 > right = 0` after clamping, so by the claim
both calls should panic; instead both return an empty iterator, because the
empty-list early return runs before `_normalize_range`. -/
theorem C7_counterexample :
    (SkipList.new Nat).normalizeRange (Bnd.included 5) (Bnd.excluded 2) =
      none ∧
    (SkipList.new Nat).range (Bnd.included 5) (Bnd.excluded 2) =
      some ⟨none, 0⟩ ∧
    (SkipList.new Nat).reverseRange (Bnd.included 5) (Bnd.excluded 2) =
      some ⟨none, 0⟩ := by
  exact ⟨rfl, rfl, rfl⟩

theorem chooseGo_ge (s : ℚ) (hs : 0 ≤ s) :
    ∀ r p k, 0 < p → p < 1 → 1 ≤ k →
      (k ≤ chooseGo s p r ↔ k ≤ r ∧ s < p ^ (2 ^ (k - 1))) := by
  intro r
  induction r with
  | zero =>
    intro p k hp0 hp1 hk
    show k ≤ 0 ↔ k ≤ 0 ∧ _
    constructor
    · intro h
      omega
    · rintro ⟨h1, -⟩
      omega
  | succ r ih =>
    intro p k hp0 hp1 hk
    show k ≤ (if s < p then chooseGo s (p * p) r + 1 else 0) ↔ _
    by_cases hsp : s < p
    · rw [if_pos hsp]
      match k, hk with
      | 1, _ =>
        rw [show (2 : Nat) ^ (1 - 1) = 1 from rfl, pow_one]
        constructor
        · intro _
          exact ⟨by omega, hsp⟩
        · intro _
          omega
      | k' + 2, _ =>
        have hk' : 1 ≤ k' + 1 := by omega
        have hpp0 : 0 < p * p := by positivity
        have hpp1 : p * p < 1 := by nlinarith
        have hiff := ih (p * p) (k' + 1) hpp0 hpp1 hk'
        have hexp : (p * p) ^ 2 ^ (k' + 1 - 1) = p ^ 2 ^ (k' + 2 - 1) := by
          rw [← pow_two, ← pow_mul]
          congr 1
          rw [show k' + 1 - 1 = k' from rfl, show k' + 2 - 1 = k' + 1 from rfl,
            pow_succ, Nat.mul_comm]
        rw [hexp] at hiff
        constructor
        · intro h
          have h2 : k' + 1 ≤ chooseGo s (p * p) r := by omega
          obtain ⟨h3, h4⟩ := hiff.mp h2
          exact ⟨by omega, h4⟩
        · rintro ⟨h1, h2⟩
          have := hiff.mpr ⟨by omega, h2⟩
          omega
    · rw [if_neg hsp]
      constructor
      · intro h
        omega
      · rintro ⟨h1, h2⟩
        exfalso
        have hle : p ^ 2 ^ (k - 1) ≤ p :=
          pow_le_of_le_one hp0.le hp1.le (by positivity)
        exact hsp (lt_of_lt_of_le h2 hle)

/-- **C9 (amended).** For a single uniform sample `s ∈ [0, 1)` and
`0 < p < 1`, the threshold-squaring loop of `choose()` reaches level at
least `k ≥ 1` exactly when `k` is below the level limit and
`s < p ^ (2 ^ (k - 1))`: the acceptance set for level `k` is the initial
interval of length `p ^ (2 ^ (k - 1))` — not `p ^ (2 ^ k - 1)`, which would
arise only if each iteration drew a fresh sample. -/
theorem C9_choose_threshold (s p : ℚ) (hs : 0 ≤ s) (hp0 : 0 < p)
    (hp1 : p < 1) (limit k : Nat) (hk : 1 ≤ k) :
    k ≤ chooseLevel s p limit ↔ k ≤ limit ∧ s < p ^ (2 ^ (k - 1)) :=
  chooseGo_ge s hs limit p k hp0 hp1 hk

theorem C9_witness :
    (0 ≤ (3/16 : ℚ)) ∧ (0 < (1/2 : ℚ)) ∧ ((1/2 : ℚ) < 1) ∧ (1 ≤ 2) ∧
    (2 ≤ chooseLevel (3/16) (1/2) 10 ↔
      2 ≤ 10 ∧ (3/16 : ℚ) < (1/2 : ℚ) ^ (2 ^ (2 - 1))) :=
  ⟨by norm_num, by norm_num, by norm_num, by norm_num,
    C9_choose_threshold (3/16) (1/2) (by norm_num) (by norm_num) (by norm_num)
      10 2 (by norm_num)⟩

/-- **C9, counterexample to the frozen wording.**  With `p = 1/2` the
sample `3/16` drives `choose()` to level `2`, yet `3/16` is not below
`p ^ (2 ^ 2 - 1) = 1/8`: were the acceptance probability for level `k`
proportional to `p ^ (2 ^ k - 1)` with the single uniform sample, this
sample would have to be rejected for level 2. -/
theorem C9_counterexample :
    chooseLevel (3/16) (1/2) 10 = 2 ∧
    ¬ ((3/16 : ℚ) < (1/2 : ℚ) ^ (2 ^ 2 - 1)) := by
  constructor
  · norm_num [chooseLevel, chooseGo]
  · norm_num

theorem getFirstLoop_spec {V : Type} {s : SkipList V} {hh : Nat}
    {ids : List Nat} {xs : List (V × Nat)} (C : Canonical s hh ids xs)
    (cmp : V → V → Ordering) (q : V) {b : Nat} {hasEq : Bool}
    (hble : b ≤ xs.length)
    (h1 : ∀ k e, k < b → xs.get? k = some e → cmp e.1 q = Ordering.lt)
    (h2 : ∀ k e, b < k → xs.get? k = some e → cmp e.1 q = Ordering.gt)
    (h3 : ∀ e, xs.get? b = some e →
      cmp e.1 q = (if hasEq then Ordering.eq else Ordering.gt))
    (h4 : hasEq = true → b < xs.length) :
    ∀ fuel cp cl he, cp ≤ b → cl < heightAt hh xs cp →
      (b - cp) + cl + 1 ≤ fuel →
      getFirstLoop cmp fuel s q (fid ids cp) cp cl he =
        some (fid ids b, b, he || hasEq) := by
  intro fuel
  induction fuel with
  | zero => intro cp cl he _ _ hf; omega
  | succ fuel ih =>
    intro cp cl he hcp hcl hf
    have hkn : cp ≤ xs.length := by omega
    obtain ⟨hlink, hspan⟩ := C.links_ok cp hkn cl hcl
    rcases hna : nextAbove xs cl cp with _ | q'
    · -- null link
      rw [hna] at hlink
      simp only [Option.map_none'] at hlink
      rw [getFirstLoop, hlink]
      by_cases hcl0 : cl = 0
      · subst hcl0
        have hend : cp = xs.length := by
          by_contra hne
          rw [nextAbove_zero xs cp (by omega)] at hna
          cases hna
        have hhe : hasEq = false := by
          rcases hB : hasEq with _ | _
          · rfl
          · have := h4 hB
            omega
        rw [if_pos rfl]
        have hcb : cp = b := by omega
        rw [hcb, hhe, Bool.or_false]
      · rw [if_neg hcl0]
        exact ih cp (cl - 1) he hcp (by omega) (by omega)
    · rw [hna] at hlink hspan
      simp only [Option.map_some', Option.getD_some] at hlink hspan
      obtain ⟨hq1, hq2⟩ := nextAbove_pos_le hna
      rcases hev : xs.get? (q' - 1) with _ | e
      · rw [List.get?_eq_none] at hev
        omega
      have hval : (getN s (fid ids q')).value = some e.1 := by
        rw [show q' = q' - 1 + 1 from by omega, C.value_at (by omega), hev]
        rfl
      rw [getFirstLoop, hlink]
      simp only
      rw [hval]
      simp only
      rcases Nat.lt_trichotomy q' (b + 1) with hqb | hqb | hqb
      · -- the target is still below the query value: advance
        rw [h1 (q' - 1) e (by omega) hev]
        simp only
        rw [hspan]
        simp only
        have hqe : cp + (q' - cp) = q' := by omega
        rw [hqe]
        refine ih q' cl he (by omega) ?_ (by omega)
        have hq0 : q' ≠ 0 := by omega
        simp only [heightAt, if_neg hq0]
        exact ((nextAbove_some_iff xs cl cp q').mp hna).2.1
      · -- the target is the first element not below the query
        have hq'b : q' - 1 = b := by omega
        have hcmp := h3 e (by rw [← hq'b]; exact hev)
        rcases hB : hasEq with _ | _
        · rw [hB, if_neg (by simp)] at hcmp
          rw [hcmp]
          simp only
          by_cases hcl0 : cl = 0
          · subst hcl0
            have hcb : cp = b := by
              rw [nextAbove_zero xs cp (by omega)] at hna
              have := Option.some.inj hna
              omega
            rw [if_pos rfl, hcb, Bool.or_false]
          · rw [if_neg hcl0]
            have h9 := ih cp (cl - 1) he hcp (by omega) (by omega)
            rw [hB] at h9
            exact h9
        · rw [hB, if_pos rfl] at hcmp
          rw [hcmp]
          simp only
          by_cases hcl0 : cl = 0
          · subst hcl0
            have hcb : cp = b := by
              rw [nextAbove_zero xs cp (by omega)] at hna
              have := Option.some.inj hna
              omega
            rw [if_pos rfl, hcb, Bool.or_true]
          · rw [if_neg hcl0]
            have h9 := ih cp (cl - 1) true hcp (by omega) (by omega)
            rw [hB] at h9
            rw [h9, Bool.true_or, Bool.or_true]
      · -- the target is already past the query: settle this level
        rw [h2 (q' - 1) e (by omega) hev]
        simp only
        by_cases hcl0 : cl = 0
        · exfalso
          rw [hcl0, nextAbove_zero xs cp (by omega)] at hna
          have := Option.some.inj hna
          omega
        · rw [if_neg hcl0]
          exact ih cp (cl - 1) he hcp (by omega) (by omega)

theorem getFirst_spec {V : Type} {o : OrderedSkipList V} {hh : Nat}
    {ids : List Nat} {xs : List (V × Nat)} (C : Canonical o.sk hh ids xs)
    (cmp : V → V → Ordering) (q : V) {b : Nat} {hasEq : Bool}
    (hble : b ≤ xs.length)
    (h1 : ∀ k e, k < b → xs.get? k = some e → cmp e.1 q = Ordering.lt)
    (h2 : ∀ k e, b < k → xs.get? k = some e → cmp e.1 q = Ordering.gt)
    (h3 : ∀ e, xs.get? b = some e →
      cmp e.1 q = (if hasEq then Ordering.eq else Ordering.gt))
    (h4 : hasEq = true → b < xs.length) :
    o.getFirst cmp q =
      some ((if hasEq then xs.get? b else none).map (fun e => (b, e.1))) := by
  rw [OrderedSkipList.getFirst]
  by_cases hlen : o.sk.length = 0
  · rw [if_pos hlen]
    have hhe : hasEq = false := by
      rcases hB : hasEq with _ | _
      · rfl
      · have := h4 hB
        rw [C.len_eq] at hlen
        omega
    rw [hhe]
    rfl
  · rw [if_neg hlen]
    have hxs0 : 0 < xs.length := by
      rw [C.len_eq] at hlen
      omega
    have hhpos : 0 < hh := C.hh_pos hxs0
    have harena := C.n_lt_arena
    simp only
    rw [C.head_links]
    have hfuel : (b - 0) + (hh - 1) + 1 ≤
        (o.sk.arena.length + 2) * (hh + 2) := by
      have hexp : (o.sk.arena.length + 2) * (hh + 2) =
          o.sk.arena.length * hh + 2 * o.sk.arena.length + 2 * hh + 4 := by
        ring
      omega
    have hloop := getFirstLoop_spec C cmp q hble h1 h2 h3 h4
      ((o.sk.arena.length + 2) * (hh + 2)) 0 (hh - 1) false (by omega)
      (by simp [heightAt]; omega) hfuel
    rw [show fid ids 0 = 0 from rfl] at hloop
    rw [hloop]
    simp only [Bool.false_or]
    rcases hB : hasEq with _ | _
    · rfl
    · simp only [Bool.not_true]
      rw [if_neg (by simp)]
      have hblen : b < xs.length := h4 hB
      have hnext : (getN o.sk (fid ids b)).next = ids.get? b :=
        C.nexts b (by omega)
      rw [hnext, get?_eq_fid C hblen]
      simp only
      rcases hev : xs.get? b with _ | e
      · rw [List.get?_eq_none] at hev
        omega
      have hval : (getN o.sk (fid ids (b + 1))).value = some e.1 := by
        rw [C.value_at hblen, hev]
        rfl
      rw [hval]
      rfl

theorem setContains_spec {V : Type} {o : OrderedSkipList V} {hh : Nat}
    {ids : List Nat} {xs : List (V × Nat)} (C : Canonical o.sk hh ids xs)
    (cmp : V → V → Ordering) (q : V) {b : Nat} {hasEq : Bool}
    (hble : b ≤ xs.length)
    (h1 : ∀ k e, k < b → xs.get? k = some e → cmp e.1 q = Ordering.lt)
    (h2 : ∀ k e, b < k → xs.get? k = some e → cmp e.1 q = Ordering.gt)
    (h3 : ∀ e, xs.get? b = some e →
      cmp e.1 q = (if hasEq then Ordering.eq else Ordering.gt))
    (h4 : hasEq = true → b < xs.length) :
    setContains cmp o q = some hasEq := by
  rw [setContains, getFirst_spec C cmp q hble h1 h2 h3 h4]
  rcases hB : hasEq with _ | _
  · rfl
  · have hblen : b < xs.length := h4 hB
    rcases hev : xs.get? b with _ | e
    · rw [List.get?_eq_none] at hev
      omega
    rfl

theorem sorted_query {V : Type} [LinearOrder V] (q : V) :
    ∀ (vs : List V), vs.Sorted (· < ·) →
      ∀ k e, vs.get? k = some e →
        (e < q ↔ k < vs.countP (fun x => decide (x < q))) := by
  intro vs
  induction vs with
  | nil =>
    intro _ k e h
    cases h
  | cons v rest ih =>
    intro hs k e h
    have hv : ∀ x ∈ rest, v < x := (List.sorted_cons.mp hs).1
    have hrest : rest.Sorted (· < ·) := (List.sorted_cons.mp hs).2
    by_cases hvq : v < q
    · rw [List.countP_cons, if_pos (by simpa using hvq)]
      match k, h with
      | 0, h =>
        have he : v = e := by simpa using h
        subst he
        constructor
        · intro _
          omega
        · intro _
          exact hvq
      | k + 1, h =>
        rw [ih hrest k e h]
        omega
    · have hzero : (v :: rest).countP (fun x => decide (x < q)) = 0 := by
        rw [List.countP_eq_zero]
        intro x hx
        simp only [decide_eq_true_eq]
        rcases List.mem_cons.mp hx with rfl | hx2
        · exact hvq
        · intro hlt
          exact hvq (lt_trans (hv x hx2) hlt)
      rw [hzero]
      have heq : ¬ e < q := by
        match k, h with
        | 0, h =>
          have he : v = e := by simpa using h
          subst he
          exact hvq
        | k + 1, h =>
          have he : e ∈ rest := List.get?_mem h
          intro hlt
          exact hvq (lt_trans (hv e he) hlt)
      constructor
      · intro h5
        exact absurd h5 heq
      · intro h5
        omega

theorem sorted_get?_lt {V : Type} [LinearOrder V] {vs : List V}
    (hs : vs.Sorted (· < ·)) {i j : Nat} {a c : V} (hij : i < j)
    (hi : vs.get? i = some a) (hj : vs.get? j = some c) : a < c := by
  obtain ⟨hib, hie⟩ := List.get?_eq_some.mp hi
  obtain ⟨hjb, hje⟩ := List.get?_eq_some.mp hj
  have h5 := List.Sorted.rel_get_of_lt hs
    (show (⟨i, hib⟩ : Fin vs.length) < ⟨j, hjb⟩ from hij)
  rw [hie, hje] at h5
  exact h5

theorem sorted_query_pairs {V : Type} [LinearOrder V] (xs : List (V × Nat))
    (hs : (xs.map Prod.fst).Sorted (· < ·)) (q : V) :
    ∃ b hasEq, b ≤ xs.length ∧ (hasEq = decide (q ∈ xs.map Prod.fst)) ∧
      (∀ k e, k < b → xs.get? k = some e → compare e.1 q = Ordering.lt) ∧
      (∀ k e, b < k → xs.get? k = some e → compare e.1 q = Ordering.gt) ∧
      (∀ e, xs.get? b = some e →
        compare e.1 q = (if hasEq then Ordering.eq else Ordering.gt)) ∧
      (hasEq = true → b < xs.length) := by
  refine ⟨(xs.map Prod.fst).countP (fun x => decide (x < q)),
    decide (q ∈ xs.map Prod.fst), ?_, rfl, ?_, ?_, ?_, ?_⟩
  · have h5 := List.countP_le_length (fun x => decide (x < q))
      (l := xs.map Prod.fst)
    rw [List.length_map] at h5
    exact h5
  · intro k e hk h
    have hvk : (xs.map Prod.fst).get? k = some e.1 := by
      rw [List.get?_map, h]
      rfl
    exact compare_lt_iff_lt.mpr ((sorted_query q _ hs k e.1 hvk).mpr hk)
  · intro k e hk h
    have hvk : (xs.map Prod.fst).get? k = some e.1 := by
      rw [List.get?_map, h]
      rfl
    have hnlt : ¬ e.1 < q := by
      intro hlt
      have := (sorted_query q _ hs k e.1 hvk).mp hlt
      omega
    have hne : e.1 ≠ q := by
      intro he
      rcases hb : (xs.map Prod.fst).get? ((xs.map Prod.fst).countP
          (fun x => decide (x < q))) with _ | eb
      · rw [List.get?_eq_none] at hb
        have := (List.get?_eq_some.mp hvk).1
        omega
      · have hlt : eb < e.1 := sorted_get?_lt hs hk hb hvk
        have : eb < q := he ▸ hlt
        have := (sorted_query q _ hs _ eb hb).mp this
        omega
    refine compare_gt_iff_gt.mpr ?_
    rcases lt_trichotomy e.1 q with h5 | h5 | h5
    · exact absurd h5 hnlt
    · exact absurd h5 hne
    · exact h5
  · intro e hb
    have hvb : (xs.map Prod.fst).get?
        ((xs.map Prod.fst).countP (fun x => decide (x < q))) = some e.1 := by
      rw [List.get?_map, hb]
      rfl
    have hnlt : ¬ e.1 < q := by
      intro hlt
      have := (sorted_query q _ hs _ e.1 hvb).mp hlt
      omega
    by_cases hq : q ∈ xs.map Prod.fst
    · rw [if_pos (by simpa using hq)]
      obtain ⟨j, hj⟩ := List.mem_iff_get?.mp hq
      have hjb : (xs.map Prod.fst).countP (fun x => decide (x < q)) ≤ j := by
        by_contra hlt
        push_neg at hlt
        exact absurd ((sorted_query q _ hs j q hj).mpr hlt) (lt_irrefl q)
      rcases Nat.eq_or_lt_of_le hjb with heq | hlt
      · rw [← heq] at hj
        rw [hvb] at hj
        exact compare_eq_iff_eq.mpr (Option.some.inj hj)
      · exfalso
        exact hnlt (sorted_get?_lt hs hlt hvb hj)
    · rw [if_neg (by simpa using hq)]
      have hne : e.1 ≠ q := by
        intro he
        exact hq (he ▸ List.get?_mem hvb)
      refine compare_gt_iff_gt.mpr ?_
      rcases lt_trichotomy e.1 q with h5 | h5 | h5
      · exact absurd h5 hnlt
      · exact absurd h5 hne
      · exact h5
  · intro hB
    have hq : q ∈ xs.map Prod.fst := by simpa using hB
    obtain ⟨j, hj⟩ := List.mem_iff_get?.mp hq
    have hjb : (xs.map Prod.fst).countP (fun x => decide (x < q)) ≤ j := by
      by_contra hlt
      push_neg at hlt
      exact absurd ((sorted_query q _ hs j q hj).mpr hlt) (lt_irrefl q)
    have hjlen := (List.get?_eq_some.mp hj).1
    rw [List.length_map] at hjlen
    omega

theorem dsList_spec {V : Type} (c : V → Option Bool) (p : V → Bool)
    (hc : ∀ v, c v = some (p v)) :
    ∀ A : List V, dsList c A = some (A.filter (fun v => !(p v))) := by
  intro A
  induction A with
  | nil => rfl
  | cons v rest ih =>
    rw [dsList, hc v]
    rcases hp : p v with _ | _
    · rw [ih, List.filter_cons]
      rw [if_pos (by rw [hp]; rfl)]
      rfl
    · rw [List.filter_cons, if_neg (by rw [hp]; simp)]
      exact ih

theorem dtGo_spec {V : Type} [LinearOrder V] :
    ∀ (n : Nat) (fuel : Nat) (A B : List V), A.length + B.length ≤ fuel →
      A.Sorted (· < ·) → B.Sorted (· < ·) → fuel ≤ n →
      dtGo compare fuel A B = A.filter (fun a => !(decide (a ∈ B))) := by
  intro n
  induction n with
  | zero =>
    intro fuel A B hn _ _ hfn
    have hf0 : fuel = 0 := by omega
    subst hf0
    match A, hn with
    | [], _ => rfl
    | l :: ls, hn => exact absurd hn (by simp)
  | succ n ih =>
    intro fuel A B hn hA hB hfn
    match A, fuel, hn with
    | [], 0, _ => rfl
    | [], fuel + 1, _ => rfl
    | l :: ls, 0, hn => exact absurd hn (by simp)
    | l :: ls, fuel + 1, hn =>
      have hlls : ∀ x ∈ ls, l < x := (List.sorted_cons.mp hA).1
      have hls : ls.Sorted (· < ·) := (List.sorted_cons.mp hA).2
      match B, hn with
      | [], hn =>
        rw [dtGo, ih fuel ls [] (by simp at hn ⊢; omega) hls (by simp)
          (by omega)]
        rw [List.filter_cons, if_pos (by simp)]
      | r :: rs, hn =>
        have hrrs : ∀ x ∈ rs, r < x := (List.sorted_cons.mp hB).1
        have hrs : rs.Sorted (· < ·) := (List.sorted_cons.mp hB).2
        rw [dtGo]
        rcases hc : compare l r with _ | _ | _
        · -- less: emit the left element
          have hlr : l < r := compare_lt_iff_lt.mp hc
          rw [ih fuel ls (r :: rs) (by simp at hn ⊢; omega) hls hB (by omega)]
          rw [List.filter_cons]
          have hmem : l ∉ r :: rs := by
            intro hm
            rcases List.mem_cons.mp hm with rfl | hm2
            · exact absurd hlr (lt_irrefl l)
            · exact absurd (lt_trans hlr (hrrs l hm2)) (lt_irrefl l)
          rw [if_pos (by simpa using hmem)]
        · -- equal: consume both
          have hlr : l = r := compare_eq_iff_eq.mp hc
          rw [ih fuel ls rs (by simp at hn ⊢; omega) hls hrs (by omega)]
          rw [List.filter_cons]
          rw [if_neg (by
            subst hlr
            simp)]
          refine List.filter_congr ?_
          intro x hx
          have hrx : r < x := hlr ▸ hlls x hx
          have hxr : x ≠ r := ne_of_gt hrx
          simp [List.mem_cons, hxr]
        · -- greater: drop the right element
          have hrl : r < l := compare_gt_iff_gt.mp hc
          rw [ih fuel (l :: ls) rs (by simp at hn ⊢; omega) hA hrs (by omega)]
          refine List.filter_congr ?_
          intro x hx
          have hrx : r < x := by
            rcases List.mem_cons.mp hx with rfl | hx2
            · exact hrl
            · exact lt_trans hrl (hlls x hx2)
          have hxr : x ≠ r := ne_of_gt hrx
          simp [List.mem_cons, hxr]

theorem dtList_spec {V : Type} [LinearOrder V] (A B : List V)
    (hA : A.Sorted (· < ·)) (hB : B.Sorted (· < ·)) :
    dtList compare A B = A.filter (fun a => !(decide (a ∈ B))) :=
  dtGo_spec (A.length + B.length) (A.length + B.length) A B (le_refl _)
    hA hB (le_refl _)

/-- **C8.** On canonical-form ordered states holding strictly sorted value
sequences, the two set-difference strategies agree: the probing strategy
(`difference_search`, via `get_first`) succeeds without panicking and
yields exactly the value sequence of the merging strategy
(`difference_traverse`). -/
theorem C8_difference_strategies_agree {V : Type} [LinearOrder V]
    (o1 o2 : OrderedSkipList V) (hh1 hh2 : Nat) (ids1 ids2 : List Nat)
    (xs1 xs2 : List (V × Nat))
    (C1 : Canonical o1.sk hh1 ids1 xs1) (C2 : Canonical o2.sk hh2 ids2 xs2)
    (hs1 : (xs1.map Prod.fst).Sorted (· < ·))
    (hs2 : (xs2.map Prod.fst).Sorted (· < ·)) :
    differenceSearchList compare o1 o2 =
      some (differenceTraverseList compare o1 o2) := by
  rw [differenceSearchList, differenceTraverseList, toList_spec C1,
    toList_spec C2]
  rw [dtList_spec (xs1.map Prod.fst) (xs2.map Prod.fst) hs1 hs2]
  refine dsList_spec (setContains compare o2)
    (fun v => decide (v ∈ xs2.map Prod.fst)) ?_ (xs1.map Prod.fst)
  intro v
  obtain ⟨b, hasEq, hble, hBdef, h1, h2, h3, h4⟩ :=
    sorted_query_pairs xs2 hs2 v
  rw [setContains_spec C2 compare v hble h1 h2 h3 h4, hBdef]

theorem C8_witness :
    differenceSearchList compare ⟨oneElemState, false⟩
        ⟨SkipList.new Nat, false⟩ =
      some (differenceTraverseList compare ⟨oneElemState, false⟩
        ⟨SkipList.new Nat, false⟩) :=
  C8_difference_strategies_agree ⟨oneElemState, false⟩ ⟨SkipList.new Nat, false⟩
    1 0 [1] [] [(42, 0)] [] canonical_oneElem (canonical_new Nat)
    (by simp) (by simp)



theorem get?_set_self {A : Type} (l : List A) (i : Nat) (x : A)
    (h : i < l.length) : (l.set i x).get? i = some x := by
  rw [List.get?_eq_getElem?]
  simp [List.getElem?_set_eq_of_lt, h]

theorem get?_set_other {A : Type} (l : List A) (i j : Nat) (x : A)
    (h : i ≠ j) : (l.set i x).get? j = l.get? j := by
  rw [List.get?_eq_getElem?, List.get?_eq_getElem?, List.getElem?_set_ne h]

theorem oiWalk_go {V : Type} {s : SkipList V} {hh : Nat} {ids : List Nat}
    {xs : List (V × Nat)} (C : Canonical s hh ids xs)
    (cmp : V → V → Ordering) (v : V) {b : Nat} {hasEq : Bool}
    (hble : b ≤ xs.length)
    (h1 : ∀ k e, k < b → xs.get? k = some e → cmp e.1 v = Ordering.lt)
    (h2 : ∀ k e, b ≤ k → xs.get? k = some e → cmp e.1 v ≠ Ordering.lt)
    (h3 : ∀ e, xs.get? b = some e → (cmp e.1 v = Ordering.eq ↔ hasEq = true))
    (h5 : ∀ k e, b < k → xs.get? k = some e → cmp e.1 v = Ordering.eq →
      hasEq = true)
    (h4 : hasEq = true → b < xs.length) :
    ∀ fuel cp cl he pp pi,
      cp ≤ b → cl < heightAt hh xs cp →
      pp.length = hh → pi.length = hh →
      (b - cp) + cl + 1 ≤ fuel →
      ∃ ppf pif,
        oiWalk cmp fuel s v (fid ids cp) cp cl he pp pi =
          some (fid ids b, b, he || hasEq, ppf, pif) ∧
        ppf.length = hh ∧ pif.length = hh ∧
        (∀ i, i < hh → i ≤ cl →
          ppf.get? i = some (some (fid ids (levelPred xs i (b + 1)))) ∧
          pif.get? i = some (levelPred xs i (b + 1))) ∧
        (∀ i, cl < i →
          ppf.get? i = pp.get? i ∧ pif.get? i = pi.get? i) := by
  intro fuel
  induction fuel with
  | zero => intro cp cl he pp pi _ _ _ _ hf; omega
  | succ fuel ih =>
    intro cp cl he pp pi hcp hcl hpp hpi hf
    have hkn : cp ≤ xs.length := by omega
    have hclh : cl < hh := lt_of_lt_of_le hcl (C.heightAt_le_hh hkn)
    obtain ⟨hlink, hspan⟩ := C.links_ok cp hkn cl hcl
    have hpred2 : cp = 0 ∨ cl < entryHeight xs cp := by
      rcases Nat.eq_zero_or_pos cp with rfl | hcp0
      · exact Or.inl rfl
      · right
        simpa [heightAt, Nat.pos_iff_ne_zero.mp hcp0] using hcl
    rcases hna : nextAbove xs cl cp with _ | q'
    · -- null link at this level
      rw [hna] at hlink hspan
      simp only [Option.map_none', Option.getD_none] at hlink hspan
      have hp : levelPred xs cl (b + 1) = cp := by
        refine levelPred_eq xs cl (b + 1) cp (by omega) hpred2 ?_
        intro r hr1 _
        exact (nextAbove_none_iff ..).mp hna r hr1
      rw [oiWalk]
      rw [hlink, hspan]
      simp only
      by_cases hcl0 : cl = 0
      · subst hcl0
        have hend : cp = xs.length := by
          by_contra hne
          rw [nextAbove_zero xs cp (by omega)] at hna
          cases hna
        have hhe : hasEq = false := by
          rcases hB : hasEq with _ | _
          · rfl
          · have := h4 hB
            omega
        have hcb : cp = b := by omega
        rw [if_pos rfl]
        refine ⟨pp.set 0 (some (fid ids cp)), pi.set 0 cp, ?_, by simp [hpp],
          by simp [hpi], ?_, ?_⟩
        · rw [hcb, hhe, Bool.or_false]
        · intro i hi hi0
          have hi0' : i = 0 := by omega
          subst hi0'
          rw [levelPred_zero_level xs (b + 1) (by omega) (by omega)]
          simp only [Nat.add_sub_cancel]
          rw [get?_set_self _ _ _ (by omega), get?_set_self _ _ _ (by omega),
            hcb]
          exact ⟨rfl, rfl⟩
        · intro i hi
          rw [get?_set_other _ _ _ _ (by omega),
            get?_set_other _ _ _ _ (by omega)]
          exact ⟨rfl, rfl⟩
      · rw [if_neg hcl0]
        obtain ⟨ppf, pif, hrun, hl1, hl2, hset, hkeep⟩ :=
          ih cp (cl - 1) he (pp.set cl (some (fid ids cp))) (pi.set cl cp)
            hcp (by omega) (by simp [hpp]) (by simp [hpi]) (by omega)
        refine ⟨ppf, pif, hrun, hl1, hl2, ?_, ?_⟩
        · intro i hi hicl
          by_cases hie : i ≤ cl - 1
          · exact hset i hi hie
          · have hie2 : i = cl := by omega
            subst hie2
            obtain ⟨k1, k2⟩ := hkeep i (by omega)
            rw [k1, k2, get?_set_self _ _ _ (by omega),
              get?_set_self _ _ _ (by omega), hp]
            exact ⟨rfl, rfl⟩
        · intro i hi
          obtain ⟨k1, k2⟩ := hkeep i (by omega)
          rw [k1, k2, get?_set_other _ _ _ _ (by omega),
            get?_set_other _ _ _ _ (by omega)]
          exact ⟨rfl, rfl⟩
    · -- link to position q'
      rw [hna] at hlink hspan
      simp only [Option.map_some', Option.getD_some] at hlink hspan
      obtain ⟨hq1, hq2⟩ := nextAbove_pos_le hna
      rcases hev : xs.get? (q' - 1) with _ | e
      · rw [List.get?_eq_none] at hev
        omega
      have hval : (getN s (fid ids q')).value = some e.1 := by
        rw [show q' = q' - 1 + 1 from by omega, C.value_at (by omega), hev]
        rfl
      rw [oiWalk]
      rw [hlink, hspan]
      simp only
      rw [hval]
      simp only
      rcases Nat.lt_or_ge (q' - 1) b with hqb | hqb
      · -- the target is still below the insertion point: advance
        rw [h1 (q' - 1) e hqb hev]
        simp only
        have hqe : cp + (q' - cp) = q' := by omega
        rw [hqe]
        have hqh : cl < heightAt hh xs q' := by
          have hq0 : q' ≠ 0 := by omega
          simp only [heightAt, if_neg hq0]
          exact ((nextAbove_some_iff ..).mp hna).2.1
        obtain ⟨ppf, pif, hrun, hl1, hl2, hset, hkeep⟩ :=
          ih q' cl he (pp.set cl (some (fid ids cp))) (pi.set cl cp)
            (by omega) hqh (by simp [hpp]) (by simp [hpi]) (by omega)
        refine ⟨ppf, pif, hrun, hl1, hl2, hset, ?_⟩
        intro i hi
        obtain ⟨k1, k2⟩ := hkeep i hi
        rw [k1, k2, get?_set_other _ _ _ _ (by omega),
          get?_set_other _ _ _ _ (by omega)]
        exact ⟨rfl, rfl⟩
      · -- the target is at or past the insertion point: settle this level
        have hp : levelPred xs cl (b + 1) = cp := by
          refine levelPred_eq xs cl (b + 1) cp (by omega) hpred2 ?_
          intro r hr1 hr2
          exact ((nextAbove_some_iff ..).mp hna).2.2 r hr1 (by omega)
        have hcpb : cl = 0 → cp = b ∧ q' = cp + 1 := by
          intro hcl0
          subst hcl0
          rw [nextAbove_zero xs cp (by omega)] at hna
          have h6 := Option.some.inj hna
          omega
        have htri : cmp e.1 v = Ordering.lt ∨ cmp e.1 v = Ordering.eq ∨
            cmp e.1 v = Ordering.gt := by
          rcases cmp e.1 v with _ | _ | _
          · exact Or.inl rfl
          · exact Or.inr (Or.inl rfl)
          · exact Or.inr (Or.inr rfl)
        rcases htri with hcm | hcm | hcm
        · -- lt is impossible here
          exact absurd hcm (h2 (q' - 1) e (by omega) hev)
        · -- an equal element was seen
          rw [hcm]
          simp only
          have hEq : hasEq = true := by
            rcases Nat.eq_or_lt_of_le hqb with hqe | hqe
            · exact (h3 e (by rw [hqe]; exact hev)).mp hcm
            · exact h5 (q' - 1) e (by omega) hev hcm
          by_cases hcl0 : cl = 0
          · subst hcl0
            rw [if_pos rfl]
            have hcb := (hcpb rfl).1
            refine ⟨pp.set 0 (some (fid ids cp)), pi.set 0 cp, ?_,
              by simp [hpp], by simp [hpi], ?_, ?_⟩
            · rw [hcb, hEq, Bool.or_true]
            · intro i hi hi0
              have hi0' : i = 0 := by omega
              subst hi0'
              rw [levelPred_zero_level xs (b + 1) (by omega) (by omega)]
              simp only [Nat.add_sub_cancel]
              rw [get?_set_self _ _ _ (by omega),
                get?_set_self _ _ _ (by omega), hcb]
              exact ⟨rfl, rfl⟩
            · intro i hi
              rw [get?_set_other _ _ _ _ (by omega),
                get?_set_other _ _ _ _ (by omega)]
              exact ⟨rfl, rfl⟩
          · rw [if_neg hcl0]
            obtain ⟨ppf, pif, hrun, hl1, hl2, hset, hkeep⟩ :=
              ih cp (cl - 1) true (pp.set cl (some (fid ids cp))) (pi.set cl cp)
                hcp (by omega) (by simp [hpp]) (by simp [hpi]) (by omega)
            rw [Bool.true_or] at hrun
            rw [hEq, Bool.or_true]
            refine ⟨ppf, pif, hrun, hl1, hl2, ?_, ?_⟩
            · intro i hi hicl
              by_cases hie : i ≤ cl - 1
              · exact hset i hi hie
              · have hie2 : i = cl := by omega
                subst hie2
                obtain ⟨k1, k2⟩ := hkeep i (by omega)
                rw [k1, k2, get?_set_self _ _ _ (by omega),
                  get?_set_self _ _ _ (by omega), hp]
                exact ⟨rfl, rfl⟩
            · intro i hi
              obtain ⟨k1, k2⟩ := hkeep i (by omega)
              rw [k1, k2, get?_set_other _ _ _ _ (by omega),
                get?_set_other _ _ _ _ (by omega)]
              exact ⟨rfl, rfl⟩
        · -- the target is strictly greater
          rw [hcm]
          simp only
          by_cases hcl0 : cl = 0
          · subst hcl0
            obtain ⟨hcb, hq1c⟩ := hcpb rfl
            rw [if_pos rfl]
            have hhe : hasEq = false := by
              rcases hB : hasEq with _ | _
              · rfl
              · have hq'b : q' - 1 = b := by omega
                have h7 := (h3 e (by rw [← hq'b]; exact hev)).mpr hB
                rw [h7] at hcm
                cases hcm
            refine ⟨pp.set 0 (some (fid ids cp)), pi.set 0 cp, ?_,
              by simp [hpp], by simp [hpi], ?_, ?_⟩
            · rw [hcb, hhe, Bool.or_false]
            · intro i hi hi0
              have hi0' : i = 0 := by omega
              subst hi0'
              rw [levelPred_zero_level xs (b + 1) (by omega) (by omega)]
              simp only [Nat.add_sub_cancel]
              rw [get?_set_self _ _ _ (by omega),
                get?_set_self _ _ _ (by omega), hcb]
              exact ⟨rfl, rfl⟩
            · intro i hi
              rw [get?_set_other _ _ _ _ (by omega),
                get?_set_other _ _ _ _ (by omega)]
              exact ⟨rfl, rfl⟩
          · rw [if_neg hcl0]
            obtain ⟨ppf, pif, hrun, hl1, hl2, hset, hkeep⟩ :=
              ih cp (cl - 1) he (pp.set cl (some (fid ids cp))) (pi.set cl cp)
                hcp (by omega) (by simp [hpp]) (by simp [hpi]) (by omega)
            refine ⟨ppf, pif, hrun, hl1, hl2, ?_, ?_⟩
            · intro i hi hicl
              by_cases hie : i ≤ cl - 1
              · exact hset i hi hie
              · have hie2 : i = cl := by omega
                subst hie2
                obtain ⟨k1, k2⟩ := hkeep i (by omega)
                rw [k1, k2, get?_set_self _ _ _ (by omega),
                  get?_set_self _ _ _ (by omega), hp]
                exact ⟨rfl, rfl⟩
            · intro i hi
              obtain ⟨k1, k2⟩ := hkeep i (by omega)
              rw [k1, k2, get?_set_other _ _ _ _ (by omega),
                get?_set_other _ _ _ _ (by omega)]
              exact ⟨rfl, rfl⟩




theorem oiFix_go {V : Type} {s1 : SkipList V} {hh : Nat} {ids : List Nat}
    {xs : List (V × Nat)} {v : V} (C : Canonical s1 hh ids xs)
    {nodeId level a : Nat}
    (hfid : ∀ k ≤ xs.length, fid ids k < nodeId)
    (hnodeLt : nodeId < s1.arena.length)
    (hnode : getN s1 nodeId = Node.new (some v) (level + 1))
    (ha1 : 1 ≤ a) (ha2 : a ≤ xs.length + 1)
    {pp : List (Option Nat)} {pi : List Nat}
    (hppc : ∀ i, i < hh → pp.get? i = some (some (fid ids (levelPred xs i a))))
    (hpic : ∀ i, i < hh → pi.get? i = some (levelPred xs i a)) :
    ∀ cnt i t, i + cnt = hh →
      sameShape t s1 →
      (∀ l, l < i → insLevelDone t s1 ids xs a level nodeId l) →
      (∀ l, i ≤ l → sameLevel t s1 l) →
      ∃ tf, oiFix level a nodeId pp pi cnt i t = some tf ∧
        sameShape tf s1 ∧
        ∀ l, l < hh → insLevelDone tf s1 ids xs a level nodeId l := by
  intro cnt
  induction cnt with
  | zero =>
    intro i t hih hshape hdone _
    exact ⟨t, rfl, hshape, by rw [← hih, Nat.add_zero]; exact hdone⟩
  | succ cnt ih =>
    intro i t hih hshape hdone hlevels
    have hi : i < hh := by omega
    set p := levelPred xs i a with hpdef
    have hkn : p ≤ xs.length := by
      have := levelPred_le xs i a
      omega
    have hph : i < heightAt hh xs p := by
      rcases Nat.eq_zero_or_pos p with h0 | h0
      · rw [h0]
        simpa [heightAt] using hi
      · simp only [heightAt, if_neg (by omega : ¬ p = 0)]
        rcases levelPred_height xs i a with h | h
        · omega
        · exact h
    obtain ⟨hlink1, hspan1⟩ := C.links_ok p hkn i hph
    obtain ⟨hlt1, hlt2⟩ := hlevels i (le_refl _) (fid ids p)
    have hlink := hlt1.trans hlink1
    have hspan := hlt2.trans hspan1
    have hlenl : (getN t (fid ids p)).links.length = heightAt hh xs p := by
      rw [(hshape.2.2 (fid ids p)).2.2.2.1, C.links_length_at hkn]
    have hlens : (getN t (fid ids p)).links_len.length = heightAt hh xs p := by
      rw [(hshape.2.2 (fid ids p)).2.2.2.2, C.links_len_length_at hkn]
    have hnlenl : (getN t nodeId).links.length = level + 1 := by
      rw [(hshape.2.2 nodeId).2.2.2.1, hnode]
      simp [Node.new]
    have hnlens : (getN t nodeId).links_len.length = level + 1 := by
      rw [(hshape.2.2 nodeId).2.2.2.2, hnode]
      simp [Node.new]
    have hp_ne : fid ids p ≠ nodeId := by
      have := hfid p hkn
      omega
    have haren : t.arena.length = s1.arena.length := hshape.1
    have hpArena : fid ids p < t.arena.length := by
      rw [haren]
      exact C.fid_lt hkn
    have hnodeArena : nodeId < t.arena.length := by rw [haren]; exact hnodeLt
    rw [oiFix]
    rw [hppc i hi, hpic i hi]
    simp only
    rcases hna : nextAbove xs i p with _ | q
    · -- the level predecessor has a null link at this level
      rw [hna] at hlink hspan
      simp only [Option.map_none', Option.getD_none] at hlink hspan
      rw [hlink]
      simp only
      by_cases hil : i > level
      · rw [if_pos hil]
        refine ih (i + 1) t (by omega) hshape (fun l hl => ?_)
          (fun l hl => hlevels l (by omega))
        rcases Nat.lt_or_ge l i with hc | hc
        · exact hdone l hc
        · have hli : l = i := by omega
          subst hli
          refine ⟨fun k hk _ => hlevels l (le_refl _) (fid ids k), ?_⟩
          rw [if_neg (by omega), ← hpdef, hna]
          simp only [Option.map_none', Option.getD_none]
          exact ⟨hlt1, hspan⟩
      · rw [if_neg hil]
        set t1 := updN t (fid ids p) (fun nd =>
          (nd.setLink i (some nodeId)).setSpan i (a - p)) with ht1
        have hshape1 : sameShape t1 s1 := by
          refine sameShape_updN hshape _ _ (fun nd => ?_)
          simp
        obtain ⟨hw1, hw2⟩ := updLS_same t (fid ids p) i (some nodeId) (a - p)
          hpArena (by omega) (by omega)
        refine ih (i + 1) t1 (by omega) hshape1 (fun l hl => ?_)
          (fun l hl => ?_)
        · rcases Nat.lt_or_ge l i with hc | hc
          · refine insLevelDone_mono (hdone l hc) (fun id => ?_)
            exact updLS_read_ne_level t (fid ids p) id i l _ _ (by omega)
          · have hli : l = i := by omega
            subst hli
            refine ⟨fun k hk hkp => ?_, ?_⟩
            · rw [ht1, updLS_read_ne_id _ _ _ _ _ _ (by
                intro he
                exact hkp (C.fid_inj (by omega) (by omega) he.symm))]
              exact hlevels l (le_refl _) (fid ids k)
            · rw [if_pos (by omega), ← hpdef, hna]
              simp only [Option.map_none', Option.getD_none]
              refine ⟨hw1, hw2, ?_, ?_⟩
              · rw [ht1, updLS_read_ne_id _ _ _ _ _ _ hp_ne,
                  (hlevels l (le_refl _) nodeId).1,
                  hnode]
                show (List.replicate (level + 1) (none : Option Nat)).get? l =
                  some none
                rw [List.get?_eq_getElem?,
                  List.getElem?_replicate_of_lt (by omega)]
              · rw [ht1, updLS_read_ne_id _ _ _ _ _ _ hp_ne,
                  (hlevels l (le_refl _) nodeId).2,
                  hnode]
                show (List.replicate (level + 1) (0 : Nat)).get? l = some 0
                rw [List.get?_eq_getElem?,
                  List.getElem?_replicate_of_lt (by omega)]
        · refine sameLevel_mono (hlevels l (by omega)) (fun id => ?_)
          exact updLS_read_ne_level t (fid ids p) id i l _ _ (by omega)
    · -- the level predecessor links to position q
      rw [hna] at hlink hspan
      simp only [Option.map_some', Option.getD_some] at hlink hspan
      rw [hlink]
      simp only
      rw [hspan]
      simp only
      obtain ⟨hq1, hq2⟩ := nextAbove_pos_le hna
      by_cases hil : i > level
      · rw [if_pos hil]
        set t1 := updN t (fid ids p) (fun nd => nd.setSpan i (q - p + 1))
          with ht1
        have hshape1 : sameShape t1 s1 := by
          refine sameShape_updN hshape _ _ (fun nd => ?_)
          simp
        obtain ⟨hw1, hw2⟩ := updS_same t (fid ids p) i (q - p + 1)
          hpArena (by omega)
        refine ih (i + 1) t1 (by omega) hshape1 (fun l hl => ?_)
          (fun l hl => ?_)
        · rcases Nat.lt_or_ge l i with hc | hc
          · refine insLevelDone_mono (hdone l hc) (fun id => ?_)
            exact updS_read_ne_level t (fid ids p) id i l _ (by omega)
          · have hli : l = i := by omega
            subst hli
            refine ⟨fun k hk hkp => ?_, ?_⟩
            · rw [ht1, getN_updN_ne _ _ _ _ (by
                intro he
                exact hkp (C.fid_inj (by omega) (by omega) he.symm))]
              exact hlevels l (le_refl _) (fid ids k)
            · rw [if_neg (by omega), ← hpdef, hna]
              simp only [Option.map_some', Option.getD_some]
              refine ⟨hw1.trans hlt1, ?_⟩
              rw [hw2]
              congr 1
              omega
        · refine sameLevel_mono (hlevels l (by omega)) (fun id => ?_)
          exact updS_read_ne_level t (fid ids p) id i l _ (by omega)
      · rw [if_neg hil]
        set tA := updN t nodeId (fun nd =>
          (nd.setLink i (some (fid ids q))).setSpan i (p + (q - p) + 1 - a))
          with htA
        set tB := updN tA (fid ids p) (fun nd =>
          (nd.setLink i (some nodeId)).setSpan i (a - p)) with htB
        have hshapeA : sameShape tA s1 := by
          refine sameShape_updN hshape _ _ (fun nd => ?_)
          simp
        have hshapeB : sameShape tB s1 := by
          refine sameShape_updN hshapeA _ _ (fun nd => ?_)
          simp
        have hpArenaA : fid ids p < tA.arena.length := by
          rw [htA, arena_updN]
          exact hpArena
        have hgetApid : getN tA (fid ids p) = getN t (fid ids p) := by
          rw [htA]
          exact updLS_read_ne_id _ _ _ _ _ _ (fun h => hp_ne h.symm)
        obtain ⟨hwB1, hwB2⟩ := updLS_same tA (fid ids p) i (some nodeId)
          (a - p) hpArenaA (by rw [hgetApid]; omega)
          (by rw [hgetApid]; omega)
        obtain ⟨hwA1, hwA2⟩ := updLS_same t nodeId i (some (fid ids q))
          (p + (q - p) + 1 - a) hnodeArena (by omega) (by omega)
        refine ih (i + 1) tB (by omega) hshapeB (fun l hl => ?_)
          (fun l hl => ?_)
        · rcases Nat.lt_or_ge l i with hc | hc
          · refine insLevelDone_mono (hdone l hc) (fun id => ?_)
            obtain ⟨e1, e2⟩ :=
              updLS_read_ne_level tA (fid ids p) id i l _ _ (by omega)
            obtain ⟨f1, f2⟩ :=
              updLS_read_ne_level t nodeId id i l _ _ (by omega)
            exact ⟨e1.trans f1, e2.trans f2⟩
          · have hli : l = i := by omega
            subst hli
            refine ⟨fun k hk hkp => ?_, ?_⟩
            · have hkne : fid ids k ≠ fid ids p := by
                intro he
                exact hkp (C.fid_inj (by omega) (by omega) he)
              have hkne2 : fid ids k ≠ nodeId := by
                have := hfid k (by omega)
                omega
              rw [htB, updLS_read_ne_id _ _ _ _ _ _ (fun h => hkne h.symm),
                htA, updLS_read_ne_id _ _ _ _ _ _ (fun h => hkne2 h.symm)]
              exact hlevels l (le_refl _) (fid ids k)
            · rw [if_pos (by omega), ← hpdef, hna]
              simp only [Option.map_some', Option.getD_some]
              refine ⟨hwB1, hwB2, ?_, ?_⟩
              · rw [htB, updLS_read_ne_id _ _ _ _ _ _ hp_ne]
                exact hwA1
              · rw [htB, updLS_read_ne_id _ _ _ _ _ _ hp_ne, hwA2]
                congr 1
                omega
        · refine sameLevel_mono (hlevels l (by omega)) (fun id => ?_)
          obtain ⟨e1, e2⟩ :=
            updLS_read_ne_level tA (fid ids p) id i l _ _ (by omega)
          obtain ⟨f1, f2⟩ :=
            updLS_read_ne_level t nodeId id i l _ _ (by omega)
          exact ⟨e1.trans f1, e2.trans f2⟩




theorem ordered_insert_new_spec {V : Type} {hh : Nat} {ids : List Nat}
    {xs : List (V × Nat)} (cmp : V → V → Ordering) {o : OrderedSkipList V}
    (C : Canonical o.sk hh ids xs) (value : V) (level : Nat)
    {b : Nat} {hasEq : Bool}
    (hble : b ≤ xs.length)
    (h1 : ∀ k e, k < b → xs.get? k = some e → cmp e.1 value = Ordering.lt)
    (h2 : ∀ k e, b ≤ k → xs.get? k = some e → cmp e.1 value ≠ Ordering.lt)
    (h3 : ∀ e, xs.get? b = some e →
      (cmp e.1 value = Ordering.eq ↔ hasEq = true))
    (h5 : ∀ k e, b < k → xs.get? k = some e →
      cmp e.1 value = Ordering.eq → hasEq = true)
    (h4 : hasEq = true → b < xs.length)
    (hdup : hasEq = false ∨ o.duplicatable = true) :
    ∃ o2, OrderedSkipList.insert cmp o value level = some (none, o2) ∧
      o2.duplicatable = o.duplicatable ∧
      Canonical o2.sk (max hh (level + 1))
        (ids.insertIdx b o.sk.arena.length)
        (xs.insertIdx b (value, level)) := by
  have hlen := C.len_eq
  have hidslen := C.ids_len
  have hn_lt := C.n_lt_arena
  simp only [OrderedSkipList.insert]
  set sk0 := growHead o.sk level with hsk0
  set H := max hh (level + 1) with hHdef
  have C0 : Canonical sk0 H ids xs := canonical_growHead C level
  have hH : (getN sk0 0).links.length = H := C0.head_links
  have hHpos : 1 ≤ H := by omega
  have hsk0arena : sk0.arena.length = o.sk.arena.length := by
    rw [hsk0, growHead, arena_updN]
  rw [← hsk0arena]
  rw [hH]
  obtain ⟨ppf, pif, hwalk, hppl, hpil, hchar, -⟩ :=
    oiWalk_go C0 cmp value hble h1 h2 h3 h5 h4
      ((sk0.arena.length + 2) * (H + 2)) 0 (H - 1) false
      (List.replicate H none) (List.replicate H 0)
      (by omega) (by simp [heightAt]; omega) (by simp) (by simp)
      (by
        have hexp : (sk0.arena.length + 2) * (H + 2) =
          sk0.arena.length * H + 2 * sk0.arena.length + 2 * H + 4 := by ring
        omega)
  rw [show fid ids 0 = 0 from rfl] at hwalk
  rw [hwalk]
  simp only [Bool.false_or]
  have hcond : ¬ (hasEq && !o.duplicatable) = true := by
    rcases hdup with hd | hd
    · rw [hd]
      simp
    · rw [hd]
      simp
  rw [if_neg hcond]
  set nodeId := sk0.arena.length with hnodeId
  set sk1 : SkipList V :=
    { sk0 with arena := sk0.arena ++ [Node.new (some value) (level + 1)] }
    with hsk1
  have C1 : Canonical sk1 H ids xs := canonical_append C0 _
  have harena1 : sk1.arena.length = sk0.arena.length + 1 := by
    rw [hsk1]
    simp
  have hnodeArena : nodeId < sk1.arena.length := by omega
  have hnodepos : 0 < nodeId := by
    have := C0.head_lt
    omega
  have hnode1 : getN sk1 nodeId = Node.new (some value) (level + 1) :=
    getN_append_self sk0 _
  have hfid : ∀ k ≤ xs.length, fid ids k < nodeId := fun k hk => C0.fid_lt hk
  have hnidx : pif.getD 0 0 = b := by
    have h0 := (hchar 0 (by omega) (by omega)).2
    rw [levelPred_zero_level xs (b + 1) (by omega) (by omega)] at h0
    simp only [Nat.add_sub_cancel] at h0
    rw [List.getD_eq_getElem?_getD, ← List.get?_eq_getElem?, h0]
    rfl
  rw [hnidx]
  obtain ⟨tf, hfix, hshapef, hdonef⟩ :=
    oiFix_go C1 hfid hnodeArena hnode1 (by omega : 1 ≤ b + 1) (by omega)
      (fun i hi => by
        rw [(hchar i hi (by omega)).1])
      (fun i hi => by
        rw [(hchar i hi (by omega)).2])
      H 0 sk1 (by omega) (sameShape_refl sk1) (fun l hl => by omega)
      (fun l _ id => ⟨rfl, rfl⟩)
  rw [hfix]
  simp only
  have hnextRead : (getN tf (fid ids b)).next = ids.get? b :=
    ((hshapef.2.2 (fid ids b)).2.1).trans (C1.nexts b (by omega))
  rw [hnextRead]
  have htf_arena : tf.arena.length = sk1.arena.length := hshapef.1
  have hpre_lt : fid ids b < sk1.arena.length := C1.fid_lt (by omega)
  have hpre_ne : fid ids b ≠ nodeId := by
    have := hfid b (by omega)
    omega
  have hnodeTf : nodeId < tf.arena.length := by omega
  have hpreTf : fid ids b < tf.arena.length := by omega
  have hnodemem : nodeId ∉ ids := by
    intro hmem
    have := (C.ids_bounds nodeId hmem).1
    omega
  have hlevel : level + 1 ≤ H := by omega
  rcases hx : ids.get? b with _ | nx
  · -- inserting at the very end: the predecessor had no successor
    have hin : b = xs.length := by
      rw [List.get?_eq_none] at hx
      omega
    simp only
    refine ⟨_, rfl, rfl, ?_⟩
    have hnextA : ∀ id, id ≠ fid ids b → id ≠ nodeId →
        (getN (updN (updN tf nodeId fun nd =>
          { nd with next := none, prev := some (fid ids b) }) (fid ids b)
          fun nd => { nd with next := some nodeId }) id).next =
        (getN tf id).next := by
      intro id hne1 hne2
      rw [getN_updN_ne _ _ _ _ (fun h => hne1 h.symm)]
      rw [getN_updN_ne _ _ _ _ (fun h => hne2 h.symm)]
    have hnextPre : (getN (updN (updN tf nodeId fun nd =>
          { nd with next := none, prev := some (fid ids b) }) (fid ids b)
          fun nd => { nd with next := some nodeId }) (fid ids b)).next =
        some nodeId := by
      rw [getN_updN_same _ _ _ (by rw [arena_updN]; exact hpreTf)]
    have hnextNode : (getN (updN (updN tf nodeId fun nd =>
          { nd with next := none, prev := some (fid ids b) }) (fid ids b)
          fun nd => { nd with next := some nodeId }) nodeId).next =
        none := by
      rw [getN_updN_ne _ _ _ _ hpre_ne]
      rw [getN_updN_same _ _ _ hnodeTf]
    have hprevA : ∀ id, id ≠ nodeId →
        (getN (updN (updN tf nodeId fun nd =>
          { nd with next := none, prev := some (fid ids b) }) (fid ids b)
          fun nd => { nd with next := some nodeId }) id).prev =
        (getN tf id).prev := by
      intro id hne
      by_cases hp : fid ids b = id
      · subst hp
        rw [getN_updN_same _ _ _ (by rw [arena_updN]; exact hpreTf)]
        show (getN (updN tf nodeId fun nd =>
          { nd with next := none, prev := some (fid ids b) })
          (fid ids b)).prev = _
        rw [getN_updN_ne _ _ _ _ (fun h => hpre_ne h.symm)]
      · rw [getN_updN_ne _ _ _ _ hp]
        rw [getN_updN_ne _ _ _ _ (fun h => hne h.symm)]
    have hprevNode : (getN (updN (updN tf nodeId fun nd =>
          { nd with next := none, prev := some (fid ids b) }) (fid ids b)
          fun nd => { nd with next := some nodeId }) nodeId).prev =
        some (fid ids b) := by
      rw [getN_updN_ne _ _ _ _ hpre_ne]
      rw [getN_updN_same _ _ _ hnodeTf]
    refine canonical_insert_final C1 hble hnodeArena hnodepos hnodemem hnode1
      hlevel hshapef (fun l hl => hdonef l hl)
      (by rw [arena_updN, arena_updN]) rfl ?_ ?_ ?_
    · intro id
      simp only [getN_arena_of]
      have h7 := getN_updN_pn
        (updN tf nodeId fun nd =>
          { nd with next := none, prev := some (fid ids b) })
        (fid ids b) (fun nd => { nd with next := some nodeId })
        (fun nd => ⟨rfl, rfl, rfl⟩) id
      have h6 := getN_updN_pn tf nodeId
        (fun nd => { nd with next := none, prev := some (fid ids b) })
        (fun nd => ⟨rfl, rfl, rfl⟩) id
      exact ⟨h7.1.trans h6.1, h7.2.1.trans h6.2.1, h7.2.2.trans h6.2.2⟩
    · -- next pointers
      intro k hk
      simp only [getN_arena_of]
      rw [get?_insertIdx nodeId b ids (by omega) k,
        fid_insertIdx ids nodeId b (by omega) k]
      rcases Nat.lt_trichotomy k b with hc | hceq | hc
      · rw [if_pos (show k < b from hc),
          if_pos (show k < b + 1 from by omega)]
        rw [hnextA (fid ids k) (by
            intro he
            have := C1.fid_inj (k := k) (j := b) (by omega) (by omega) he
            omega) (by
            have := hfid k (by omega)
            omega)]
        exact ((hshapef.2.2 (fid ids k)).2.1).trans (C1.nexts k (by omega))
      · rw [if_neg (show ¬ k < b from by omega),
          if_pos (show k = b from hceq),
          if_pos (show k < b + 1 from by omega), hceq]
        exact hnextPre
      · have hkeq : k = b + 1 := by omega
        subst hkeq
        rw [if_neg (show ¬ b + 1 < b from by omega),
          if_neg (show ¬ b + 1 = b from by omega),
          if_neg (show ¬ b + 1 < b + 1 from by omega),
          if_pos (show b + 1 = b + 1 from rfl)]
        rw [hnextNode]
        rw [List.get?_eq_none.mpr (by omega)]
    · -- prev pointers
      intro k hk1 hk2
      simp only [getN_arena_of]
      rw [fid_insertIdx ids nodeId b (by omega) k,
        fid_insertIdx ids nodeId b (by omega) (k - 1)]
      rcases Nat.lt_or_ge k (b + 1) with hc | hc
      · rw [if_pos (show k < b + 1 from hc),
          if_pos (show k - 1 < b + 1 from by omega)]
        rw [hprevA (fid ids k) (by
            have := hfid k (by omega)
            omega)]
        exact ((hshapef.2.2 (fid ids k)).2.2.1).trans
          (C1.prevs k hk1 (by omega))
      · have hkeq : k = b + 1 := by omega
        subst hkeq
        rw [if_neg (show ¬ b + 1 < b + 1 from by omega),
          if_pos (show b + 1 = b + 1 from rfl),
          if_pos (show b + 1 - 1 < b + 1 from by omega)]
        simp only [Nat.add_sub_cancel]
        exact hprevNode
  · -- inserting in the middle: fix up the successor too
    have hin : b < xs.length := by
      by_contra hcon
      rw [List.get?_eq_none.mpr (by omega)] at hx
      cases hx
    have hnx : nx = fid ids (b + 1) := by
      have h0 := get?_eq_fid C1 hin
      rw [hx] at h0
      exact Option.some.inj h0
    have hnx_ne_node : nx ≠ nodeId := by
      have := hfid (b + 1) (by omega)
      omega
    have hnx_ne_pre : nx ≠ fid ids b := by
      intro he
      rw [hnx] at he
      have := C1.fid_inj (k := b + 1) (j := b) (by omega) (by omega) he
      omega
    have hnxTf : nx < tf.arena.length := by
      rw [hnx, htf_arena]
      exact C1.fid_lt (by omega)
    simp only
    refine ⟨_, rfl, rfl, ?_⟩
    have hnextA : ∀ id, id ≠ fid ids b → id ≠ nodeId →
        (getN (updN (updN (updN tf nx fun nd =>
          { nd with prev := some nodeId }) nodeId fun nd =>
          { nd with next := some nx, prev := some (fid ids b) }) (fid ids b)
          fun nd => { nd with next := some nodeId }) id).next =
        (getN tf id).next := by
      intro id hne1 hne2
      rw [getN_updN_ne _ _ _ _ (fun h => hne1 h.symm)]
      rw [getN_updN_ne _ _ _ _ (fun h => hne2 h.symm)]
      by_cases hid : nx = id
      · subst hid
        rw [getN_updN_same _ _ _ hnxTf]
      · rw [getN_updN_ne _ _ _ _ hid]
    have hnextPre : (getN (updN (updN (updN tf nx fun nd =>
          { nd with prev := some nodeId }) nodeId fun nd =>
          { nd with next := some nx, prev := some (fid ids b) }) (fid ids b)
          fun nd => { nd with next := some nodeId }) (fid ids b)).next =
        some nodeId := by
      rw [getN_updN_same _ _ _
        (by rw [arena_updN, arena_updN]; exact hpreTf)]
    have hnextNode : (getN (updN (updN (updN tf nx fun nd =>
          { nd with prev := some nodeId }) nodeId fun nd =>
          { nd with next := some nx, prev := some (fid ids b) }) (fid ids b)
          fun nd => { nd with next := some nodeId }) nodeId).next =
        some nx := by
      rw [getN_updN_ne _ _ _ _ hpre_ne]
      rw [getN_updN_same _ _ _ (by rw [arena_updN]; exact hnodeTf)]
    have hprevA : ∀ id, id ≠ nodeId → id ≠ nx →
        (getN (updN (updN (updN tf nx fun nd =>
          { nd with prev := some nodeId }) nodeId fun nd =>
          { nd with next := some nx, prev := some (fid ids b) }) (fid ids b)
          fun nd => { nd with next := some nodeId }) id).prev =
        (getN tf id).prev := by
      intro id hne1 hne2
      by_cases hp : fid ids b = id
      · subst hp
        rw [getN_updN_same _ _ _
          (by rw [arena_updN, arena_updN]; exact hpreTf)]
        show (getN (updN (updN tf nx fun nd =>
          { nd with prev := some nodeId }) nodeId fun nd =>
          { nd with next := some nx, prev := some (fid ids b) })
          (fid ids b)).prev = _
        rw [getN_updN_ne _ _ _ _ (fun h => hpre_ne h.symm)]
        rw [getN_updN_ne _ _ _ _ hnx_ne_pre]
      · rw [getN_updN_ne _ _ _ _ hp]
        rw [getN_updN_ne _ _ _ _ (fun h => hne1 h.symm)]
        rw [getN_updN_ne _ _ _ _ (fun h => hne2 h.symm)]
    have hprevNode : (getN (updN (updN (updN tf nx fun nd =>
          { nd with prev := some nodeId }) nodeId fun nd =>
          { nd with next := some nx, prev := some (fid ids b) }) (fid ids b)
          fun nd => { nd with next := some nodeId }) nodeId).prev =
        some (fid ids b) := by
      rw [getN_updN_ne _ _ _ _ hpre_ne]
      rw [getN_updN_same _ _ _ (by rw [arena_updN]; exact hnodeTf)]
    have hprevNx : (getN (updN (updN (updN tf nx fun nd =>
          { nd with prev := some nodeId }) nodeId fun nd =>
          { nd with next := some nx, prev := some (fid ids b) }) (fid ids b)
          fun nd => { nd with next := some nodeId }) nx).prev =
        some nodeId := by
      rw [getN_updN_ne _ _ _ _ (fun h => hnx_ne_pre h.symm)]
      rw [getN_updN_ne _ _ _ _ (fun h => hnx_ne_node h.symm)]
      rw [getN_updN_same _ _ _ hnxTf]
    refine canonical_insert_final C1 hble hnodeArena hnodepos hnodemem hnode1
      hlevel hshapef (fun l hl => hdonef l hl)
      (by rw [arena_updN, arena_updN, arena_updN]) rfl ?_ ?_ ?_
    · intro id
      simp only [getN_arena_of]
      have h8 := getN_updN_pn
        (updN (updN tf nx fun nd =>
          { nd with prev := some nodeId }) nodeId fun nd =>
          { nd with next := some nx, prev := some (fid ids b) })
        (fid ids b) (fun nd => { nd with next := some nodeId })
        (fun nd => ⟨rfl, rfl, rfl⟩) id
      have h7 := getN_updN_pn
        (updN tf nx fun nd => { nd with prev := some nodeId })
        nodeId (fun nd => { nd with next := some nx, prev := some (fid ids b) })
        (fun nd => ⟨rfl, rfl, rfl⟩) id
      have h6 := getN_updN_pn tf nx
        (fun nd => { nd with prev := some nodeId })
        (fun nd => ⟨rfl, rfl, rfl⟩) id
      exact ⟨h8.1.trans (h7.1.trans h6.1),
        h8.2.1.trans (h7.2.1.trans h6.2.1),
        h8.2.2.trans (h7.2.2.trans h6.2.2)⟩
    · -- next pointers
      intro k hk
      simp only [getN_arena_of]
      rw [get?_insertIdx nodeId b ids (by omega) k,
        fid_insertIdx ids nodeId b (by omega) k]
      rcases Nat.lt_trichotomy k b with hc | hceq | hc
      · rw [if_pos (show k < b from hc),
          if_pos (show k < b + 1 from by omega)]
        rw [hnextA (fid ids k) (by
            intro he
            have := C1.fid_inj (k := k) (j := b) (by omega) (by omega) he
            omega) (by
            have := hfid k (by omega)
            omega)]
        exact ((hshapef.2.2 (fid ids k)).2.1).trans (C1.nexts k (by omega))
      · rw [if_neg (show ¬ k < b from by omega),
          if_pos (show k = b from hceq),
          if_pos (show k < b + 1 from by omega), hceq]
        exact hnextPre
      · rcases Nat.eq_or_lt_of_le hc with hkeq | hc2
        · have hkeq2 : k = b + 1 := by omega
          subst hkeq2
          rw [if_neg (show ¬ b + 1 < b from by omega),
            if_neg (show ¬ b + 1 = b from by omega),
            if_neg (show ¬ b + 1 < b + 1 from by omega),
            if_pos (show b + 1 = b + 1 from rfl)]
          rw [hnextNode]
          simp only [Nat.add_sub_cancel]
          exact hx.symm
        · rw [if_neg (show ¬ k < b from by omega),
            if_neg (show ¬ k = b from by omega),
            if_neg (show ¬ k < b + 1 from by omega),
            if_neg (show ¬ k = b + 1 from by omega)]
          rw [hnextA (fid ids (k - 1)) (by
              intro he
              have := C1.fid_inj (k := k - 1) (j := b) (by omega)
                (by omega) he
              omega) (by
              have := hfid (k - 1) (by omega)
              omega)]
          exact ((hshapef.2.2 (fid ids (k - 1))).2.1).trans
            (C1.nexts (k - 1) (by omega))
    · -- prev pointers
      intro k hk1 hk2
      simp only [getN_arena_of]
      rw [fid_insertIdx ids nodeId b (by omega) k,
        fid_insertIdx ids nodeId b (by omega) (k - 1)]
      rcases Nat.lt_or_ge k (b + 1) with hc | hc
      · rw [if_pos (show k < b + 1 from hc),
          if_pos (show k - 1 < b + 1 from by omega)]
        rw [hprevA (fid ids k) (by
            have := hfid k (by omega)
            omega) (by
            rw [hnx]
            intro he
            have := C1.fid_inj (k := k) (j := b + 1) (by omega)
              (by omega) he
            omega)]
        exact ((hshapef.2.2 (fid ids k)).2.2.1).trans
          (C1.prevs k hk1 (by omega))
      · rcases Nat.eq_or_lt_of_le hc with hkeq | hc2
        · have hkeq2 : k = b + 1 := by omega
          subst hkeq2
          rw [if_neg (show ¬ b + 1 < b + 1 from by omega),
            if_pos (show b + 1 = b + 1 from rfl),
            if_pos (show b + 1 - 1 < b + 1 from by omega)]
          simp only [Nat.add_sub_cancel]
          exact hprevNode
        · rcases Nat.eq_or_lt_of_le hc2 with hkeq | hc3
          · have hkeq2 : k = b + 2 := by omega
            subst hkeq2
            rw [if_neg (show ¬ b + 2 < b + 1 from by omega),
              if_neg (show ¬ b + 2 = b + 1 from by omega),
              if_neg (show ¬ b + 2 - 1 < b + 1 from by omega),
              if_pos (show b + 2 - 1 = b + 1 from rfl)]
            rw [show b + 2 - 1 = b + 1 from rfl, ← hnx]
            exact hprevNx
          · rw [if_neg (show ¬ k < b + 1 from by omega),
              if_neg (show ¬ k = b + 1 from by omega),
              if_neg (show ¬ k - 1 < b + 1 from by omega),
              if_neg (show ¬ k - 1 = b + 1 from by omega)]
            rw [hprevA (fid ids (k - 1)) (by
                have := hfid (k - 1) (by omega)
                omega) (by
                rw [hnx]
                intro he
                have := C1.fid_inj (k := k - 1) (j := b + 1) (by omega)
                  (by omega) he
                omega)]
            rw [((hshapef.2.2 (fid ids (k - 1))).2.2.1).trans
              (C1.prevs (k - 1) (by omega) (by omega))]




theorem entryHeight_set {V : Type} {xs : List (V × Nat)} {b : Nat}
    {e : V × Nat} (v : V) (he : xs.get? b = some e) :
    ∀ q, entryHeight (xs.set b (v, e.2)) q = entryHeight xs q := by
  intro q
  rcases q with _ | q
  · rfl
  · simp only [entryHeight]
    by_cases hq : q = b
    · subst hq
      have hb : q < xs.length := (List.get?_eq_some.mp he).1
      rw [get?_set_self _ _ _ hb, he]
      rfl
    · rw [get?_set_other _ _ _ _ (fun h => hq h.symm)]

theorem nextAboveGo_set {V : Type} {xs : List (V × Nat)} {b : Nat}
    {e : V × Nat} (v : V) (he : xs.get? b = some e) (l : Nat) :
    ∀ fuel q, nextAboveGo (xs.set b (v, e.2)) l fuel q =
      nextAboveGo xs l fuel q := by
  intro fuel
  induction fuel with
  | zero => intro q; rfl
  | succ fuel ih =>
    intro q
    simp only [nextAboveGo, entryHeight_set v he]
    by_cases hc : l < entryHeight xs q
    · rw [if_pos hc, if_pos hc]
    · rw [if_neg hc, if_neg hc, ih]

theorem nextAbove_set {V : Type} {xs : List (V × Nat)} {b : Nat}
    {e : V × Nat} (v : V) (he : xs.get? b = some e) (l k : Nat) :
    nextAbove (xs.set b (v, e.2)) l k = nextAbove xs l k := by
  rw [nextAbove, nextAbove, List.length_set, nextAboveGo_set v he]

theorem heightAt_set {V : Type} {xs : List (V × Nat)} {b : Nat}
    {e : V × Nat} (hh : Nat) (v : V) (he : xs.get? b = some e) (k : Nat) :
    heightAt hh (xs.set b (v, e.2)) k = heightAt hh xs k := by
  rw [heightAt, heightAt, entryHeight_set v he]

/-- Overwriting the stored value of the element at position `b` preserves
canonical form, with the abstract list updated in its first component
only. -/
theorem canonical_setValue {V : Type} {s : SkipList V} {hh : Nat}
    {ids : List Nat} {xs : List (V × Nat)} (C : Canonical s hh ids xs)
    {b : Nat} {e : V × Nat} (hb : b < xs.length) (he : xs.get? b = some e)
    (v : V) :
    Canonical (updN s (fid ids (b + 1)) (fun nd => { nd with value := some v }))
      hh ids (xs.set b (v, e.2)) := by
  set tid := fid ids (b + 1) with htid
  set s2 := updN s tid (fun nd => { nd with value := some v }) with hs2
  have htid_pos : 0 < tid := C.fid_pos (by omega) (by omega)
  have htid_lt : tid < s.arena.length := C.fid_lt (by omega)
  have hkeep : ∀ id, (getN s2 id).next = (getN s id).next ∧
      (getN s2 id).prev = (getN s id).prev ∧
      (getN s2 id).links = (getN s id).links ∧
      (getN s2 id).links_len = (getN s id).links_len := by
    intro id
    by_cases hid : tid = id
    · subst hid
      rw [hs2, getN_updN_same _ _ _ htid_lt]
      exact ⟨rfl, rfl, rfl, rfl⟩
    · rw [hs2, getN_updN_ne _ _ _ _ hid]
      exact ⟨rfl, rfl, rfl, rfl⟩
  have hvals : ∀ id, id ≠ tid → (getN s2 id).value = (getN s id).value := by
    intro id hid
    rw [hs2, getN_updN_ne _ _ _ _ (fun h => hid h.symm)]
  have hvtid : (getN s2 tid).value = some v := by
    rw [hs2, getN_updN_same _ _ _ htid_lt]
  have hlset : (xs.set b (v, e.2)).length = xs.length := List.length_set ..
  have hEH := entryHeight_set v he
  have hNA := nextAbove_set v he
  have hHA := heightAt_set hh v he
  have harena : s2.arena.length = s.arena.length := by
    rw [hs2, arena_updN]
  refine ⟨?_, ?_, ?_, ?_, C.ids_nodup, ?_, ?_, ?_, ?_, ?_, ?_, ?_, ?_, ?_, ?_⟩
  · rw [hs2, length_updN, C.len_eq, hlset]
  · rw [C.ids_len, hlset]
  · rw [harena]
    exact C.head_lt
  · intro i hi
    rw [harena]
    exact C.ids_bounds i hi
  · rw [hvals 0 (by omega)]
    exact C.head_value
  · rw [(hkeep 0).2.2.1]
    exact C.head_links
  · rw [(hkeep 0).2.2.2]
    exact C.head_spans
  · intro k hk
    rw [hlset] at hk
    rw [hEH]
    exact C.height_le k hk
  · intro k hk
    rw [hlset] at hk
    rw [get?_eq_fid C hk]
    by_cases hkb : k = b
    · subst hkb
      rw [Option.some_bind, hvtid, get?_set_self _ _ _ hk]
      rfl
    · rw [Option.some_bind,
        hvals (fid ids (k + 1)) (by
          intro hfe
          have := C.fid_inj (k := k + 1) (j := b + 1) (by omega) (by omega) hfe
          omega),
        get?_set_other _ _ _ _ (fun h => hkb h.symm)]
      have h0 := C.node_value k hk
      rw [get?_eq_fid C hk] at h0
      simpa using h0
  · intro k hk
    rw [hlset] at hk
    rw [get?_eq_fid C hk]
    have h0 := C.node_links k hk
    rw [get?_eq_fid C hk] at h0
    rw [Option.map_some', (hkeep (fid ids (k + 1))).2.2.1]
    by_cases hkb : k = b
    · subst hkb
      rw [get?_set_self _ _ _ hk]
      rw [he] at h0
      simpa using h0
    · rw [get?_set_other _ _ _ _ (fun h => hkb h.symm)]
      simpa using h0
  · intro k hk
    rw [hlset] at hk
    rw [get?_eq_fid C hk]
    have h0 := C.node_spans k hk
    rw [get?_eq_fid C hk] at h0
    rw [Option.map_some', (hkeep (fid ids (k + 1))).2.2.2]
    by_cases hkb : k = b
    · subst hkb
      rw [get?_set_self _ _ _ hk]
      rw [he] at h0
      simpa using h0
    · rw [get?_set_other _ _ _ _ (fun h => hkb h.symm)]
      simpa using h0
  · intro k hk
    rw [hlset] at hk
    rw [(hkeep (fid ids k)).1]
    exact C.nexts k hk
  · intro k hk1 hk2
    rw [hlset] at hk2
    rw [(hkeep (fid ids k)).2.1]
    exact C.prevs k hk1 hk2
  · intro k hk l hl
    rw [hlset] at hk
    rw [hHA] at hl
    rw [hNA]
    obtain ⟨g1, g2⟩ := C.links_ok k hk l hl
    constructor
    · rw [Node.linkAt, (hkeep (fid ids k)).2.2.1]
      exact g1
    · rw [Node.spanAt, (hkeep (fid ids k)).2.2.2]
      exact g2

theorem ordered_insert_replace_spec {V : Type} {hh : Nat} {ids : List Nat}
    {xs : List (V × Nat)} (cmp : V → V → Ordering) {o : OrderedSkipList V}
    (C : Canonical o.sk hh ids xs) (value : V) (level : Nat)
    {b : Nat} {e : V × Nat}
    (hble : b < xs.length) (he : xs.get? b = some e)
    (h1 : ∀ k f, k < b → xs.get? k = some f → cmp f.1 value = Ordering.lt)
    (h2 : ∀ k f, b ≤ k → xs.get? k = some f → cmp f.1 value ≠ Ordering.lt)
    (heq : cmp e.1 value = Ordering.eq)
    (hdup : o.duplicatable = false) :
    ∃ o2, OrderedSkipList.insert cmp o value level = some (some e.1, o2) ∧
      o2.duplicatable = o.duplicatable ∧
      Canonical o2.sk (max hh (level + 1)) ids (xs.set b (value, e.2)) := by
  have hlen := C.len_eq
  have hidslen := C.ids_len
  have hn_lt := C.n_lt_arena
  simp only [OrderedSkipList.insert]
  set sk0 := growHead o.sk level with hsk0
  set H := max hh (level + 1) with hHdef
  have C0 : Canonical sk0 H ids xs := canonical_growHead C level
  have hH : (getN sk0 0).links.length = H := C0.head_links
  have hHpos : 1 ≤ H := by omega
  have hsk0arena : sk0.arena.length = o.sk.arena.length := by
    rw [hsk0, growHead, arena_updN]
  rw [hH]
  obtain ⟨ppf, pif, hwalk, -, -, -, -⟩ :=
    @oiWalk_go V sk0 H ids xs C0 cmp value b true (by omega) h1 h2
      (fun f hf => by
        rw [he] at hf
        rw [← Option.some.inj hf]
        simp [heq])
      (fun _ _ _ _ _ => rfl) (fun _ => hble)
      ((sk0.arena.length + 2) * (H + 2)) 0 (H - 1) false
      (List.replicate H none) (List.replicate H 0)
      (by omega) (by simp [heightAt]; omega) (by simp) (by simp)
      (by
        have hexp : (sk0.arena.length + 2) * (H + 2) =
          sk0.arena.length * H + 2 * sk0.arena.length + 2 * H + 4 := by ring
        omega)
  rw [show fid ids 0 = 0 from rfl] at hwalk
  rw [hwalk]
  simp only [Bool.false_or]
  rw [if_pos (by rw [hdup]; rfl)]
  have hnext0 : (getN sk0 (fid ids b)).next = ids.get? b := C0.nexts b (by omega)
  have hid0 : ids.get? b = some (fid ids (b + 1)) := get?_eq_fid C0 hble
  rw [hnext0, hid0]
  simp only
  have hval : (getN sk0 (fid ids (b + 1))).value = some e.1 := by
    rw [C0.value_at hble, he]
    rfl
  rw [hval]
  exact ⟨_, rfl, rfl, canonical_setValue C0 hble he value⟩




theorem sorted_of_get? {V : Type} [LinearOrder V] :
    ∀ vs : List V,
      (∀ i j a c, i < j → vs.get? i = some a → vs.get? j = some c → a ≤ c) →
      vs.Sorted (· ≤ ·) := by
  intro vs
  induction vs with
  | nil => intro _; exact List.sorted_nil
  | cons v rest ih =>
    intro h
    rw [List.sorted_cons]
    constructor
    · intro x hx
      obtain ⟨k, hk⟩ := List.get?_of_mem hx
      exact h 0 (k + 1) v x (by omega) rfl hk
    · exact ih (fun i j a c hij hi hj => h (i + 1) (j + 1) a c (by omega) hi hj)

theorem sorted_get?_le {V : Type} [LinearOrder V] {vs : List V}
    (hs : vs.Sorted (· ≤ ·)) {i j : Nat} {a c : V} (hij : i ≤ j)
    (hi : vs.get? i = some a) (hj : vs.get? j = some c) : a ≤ c := by
  rcases Nat.eq_or_lt_of_le hij with rfl | hlt
  · rw [hi] at hj
    exact le_of_eq (Option.some.inj hj)
  · obtain ⟨hib, hie⟩ := List.get?_eq_some.mp hi
    obtain ⟨hjb, hje⟩ := List.get?_eq_some.mp hj
    have h5 := List.Sorted.rel_get_of_lt hs
      (show (⟨i, hib⟩ : Fin vs.length) < ⟨j, hjb⟩ from hlt)
    rw [hie, hje] at h5
    exact h5

theorem wsorted_query {V : Type} [LinearOrder V] (q : V) :
    ∀ vs : List V, vs.Sorted (· ≤ ·) →
      ∀ k e, vs.get? k = some e →
        (e < q ↔ k < vs.countP (fun x => decide (x < q))) := by
  intro vs
  induction vs with
  | nil =>
    intro _ k e h
    cases h
  | cons v rest ih =>
    intro hs k e h
    have hv : ∀ x ∈ rest, v ≤ x := (List.sorted_cons.mp hs).1
    have hrest : rest.Sorted (· ≤ ·) := (List.sorted_cons.mp hs).2
    by_cases hvq : v < q
    · rw [List.countP_cons, if_pos (by simpa using hvq)]
      match k, h with
      | 0, h =>
        have he : v = e := by simpa using h
        subst he
        constructor
        · intro _
          omega
        · intro _
          exact hvq
      | k + 1, h =>
        rw [ih hrest k e h]
        omega
    · have hzero : (v :: rest).countP (fun x => decide (x < q)) = 0 := by
        rw [List.countP_eq_zero]
        intro x hx
        simp only [decide_eq_true_eq]
        rcases List.mem_cons.mp hx with rfl | hx2
        · exact hvq
        · intro hlt
          exact hvq (lt_of_le_of_lt (hv x hx2) hlt)
      rw [hzero]
      have heq : ¬ e < q := by
        match k, h with
        | 0, h =>
          have he : v = e := by simpa using h
          subst he
          exact hvq
        | k + 1, h =>
          have he : e ∈ rest := List.get?_mem h
          intro hlt
          exact hvq (lt_of_le_of_lt (hv e he) hlt)
      constructor
      · intro h5
        exact absurd h5 heq
      · intro h5
        omega

/-- Partition point and equal-run data of a weakly sorted list, in the
shape consumed by the ordered-insert descent: `b` counts the elements
strictly below the query, an equal element (if any) sits exactly at `b`. -/
theorem wsorted_partition {V : Type} [LinearOrder V] (xs : List (V × Nat))
    (hs : (xs.map Prod.fst).Sorted (· ≤ ·)) (q : V) :
    ∃ b hasEq, b ≤ xs.length ∧
      b = (xs.map Prod.fst).countP (fun x => decide (x < q)) ∧
      (∀ k e, k < b → xs.get? k = some e → compare e.1 q = Ordering.lt) ∧
      (∀ k e, b ≤ k → xs.get? k = some e → compare e.1 q ≠ Ordering.lt) ∧
      (∀ e, xs.get? b = some e →
        (compare e.1 q = Ordering.eq ↔ hasEq = true)) ∧
      (∀ k e, b < k → xs.get? k = some e → compare e.1 q = Ordering.eq →
        hasEq = true) ∧
      (hasEq = true → b < xs.length) := by
  set b := (xs.map Prod.fst).countP (fun x => decide (x < q)) with hb
  have hgm : ∀ k (e : V × Nat), xs.get? k = some e →
      (xs.map Prod.fst).get? k = some e.1 := by
    intro k e h
    rw [List.get?_map, h]
    rfl
  have hble : b ≤ xs.length := by
    have h5 := List.countP_le_length (fun x => decide (x < q))
      (l := xs.map Prod.fst)
    rw [List.length_map] at h5
    omega
  refine ⟨b, ((xs.get? b).map (fun e => decide (e.1 = q))).getD false,
    hble, rfl, ?_, ?_, ?_, ?_, ?_⟩
  · intro k e hk h
    exact compare_lt_iff_lt.mpr
      ((wsorted_query q _ hs k e.1 (hgm k e h)).mpr hk)
  · intro k e hk h hcmp
    have h5 := (wsorted_query q _ hs k e.1 (hgm k e h)).mp
      (compare_lt_iff_lt.mp hcmp)
    omega
  · intro e hbe
    rw [hbe]
    simp only [Option.map_some', Option.getD_some, decide_eq_true_eq]
    rw [compare_eq_iff_eq]
  · intro k e hk h hcmp
    have hbl : b < xs.length := by
      have := (List.get?_eq_some.mp h).1
      omega
    rcases hfb : xs.get? b with _ | f
    · rw [List.get?_eq_none] at hfb
      omega
    have hle : f.1 ≤ e.1 :=
      sorted_get?_le hs (by omega) (hgm b f hfb) (hgm k e h)
    have hge : ¬ f.1 < q := by
      intro hlt
      have h5 := (wsorted_query q _ hs b f.1 (hgm b f hfb)).mp hlt
      omega
    have hfq : f.1 = q := by
      have heq : e.1 = q := compare_eq_iff_eq.mp hcmp
      have : f.1 ≤ q := heq ▸ hle
      exact le_antisymm this (le_of_not_lt hge)
    simp [hfq]
  · intro hE
    rcases hfb : xs.get? b with _ | f
    · rw [hfb] at hE
      cases hE
    · exact (List.get?_eq_some.mp hfb).1

theorem wsorted_insertIdx {V : Type} [LinearOrder V] {xs : List (V × Nat)}
    (hs : (xs.map Prod.fst).Sorted (· ≤ ·)) (v : V) (level : Nat) {b : Nat}
    (hble : b ≤ xs.length)
    (h1 : ∀ k e, k < b → xs.get? k = some e → e.1 < v)
    (h2 : ∀ k e, b ≤ k → xs.get? k = some e → v ≤ e.1) :
    ((xs.insertIdx b (v, level)).map Prod.fst).Sorted (· ≤ ·) := by
  have hgm : ∀ k (e : V × Nat), xs.get? k = some e →
      (xs.map Prod.fst).get? k = some e.1 := by
    intro k e h
    rw [List.get?_map, h]
    rfl
  refine sorted_of_get? _ (fun i j a c hij hi hj => ?_)
  rw [List.get?_map, get?_insertIdx (v, level) b xs hble i] at hi
  rw [List.get?_map, get?_insertIdx (v, level) b xs hble j] at hj
  have hget : ∀ k (x : V), (xs.get? k).map Prod.fst = some x →
      ∃ e, xs.get? k = some e ∧ e.1 = x := by
    intro k x h
    rcases he : xs.get? k with _ | e
    · rw [he] at h
      cases h
    · rw [he] at h
      exact ⟨e, rfl, Option.some.inj h⟩
  rcases Nat.lt_trichotomy i b with hib | hib | hib
  · rw [if_pos hib] at hi
    obtain ⟨ea, hea, hea1⟩ := hget i a hi
    rcases Nat.lt_trichotomy j b with hjb | hjb | hjb
    · rw [if_pos hjb] at hj
      obtain ⟨ec, hec, hec1⟩ := hget j c hj
      rw [← hea1, ← hec1]
      exact sorted_get?_le hs (by omega) (hgm i ea hea) (hgm j ec hec)
    · rw [if_neg (by omega), if_pos hjb] at hj
      have hc : c = v := by
        have := Option.some.inj hj
        rw [← this]
      rw [hc, ← hea1]
      exact le_of_lt (h1 i ea hib hea)
    · rw [if_neg (by omega), if_neg (by omega)] at hj
      obtain ⟨ec, hec, hec1⟩ := hget (j - 1) c hj
      rw [← hea1, ← hec1]
      exact sorted_get?_le hs (by omega) (hgm i ea hea) (hgm (j - 1) ec hec)
  · subst hib
    rw [if_neg (by omega), if_pos rfl] at hi
    have ha : a = v := by
      have := Option.some.inj hi
      rw [← this]
    rw [if_neg (by omega), if_neg (by omega)] at hj
    obtain ⟨ec, hec, hec1⟩ := hget (j - 1) c hj
    rw [ha, ← hec1]
    exact h2 (j - 1) ec (by omega) hec
  · rw [if_neg (by omega), if_neg (by omega)] at hi
    obtain ⟨ea, hea, hea1⟩ := hget (i - 1) a hi
    rw [if_neg (by omega), if_neg (by omega)] at hj
    obtain ⟨ec, hec, hec1⟩ := hget (j - 1) c hj
    rw [← hea1, ← hec1]
    exact sorted_get?_le hs (by omega) (hgm (i - 1) ea hea) (hgm (j - 1) ec hec)

theorem map_fst_set_eq {V : Type} {xs : List (V × Nat)} {b : Nat}
    {e : V × Nat} (he : xs.get? b = some e) {v : V} (hv : e.1 = v) :
    (xs.set b (v, e.2)).map Prod.fst = xs.map Prod.fst := by
  apply List.ext
  intro n
  rw [List.get?_map, List.get?_map]
  by_cases hn : n = b
  · subst hn
    rw [get?_set_self _ _ _ (List.get?_eq_some.mp he).1, he]
    simp [← hv]
  · rw [get?_set_other _ _ _ _ (fun h => hn h.symm)]




/-- States reachable by sequences of `insert` with the order comparator,
from either constructor of `OrderedSkipList`. -/
inductive OReachable (V : Type) [LinearOrder V] : OrderedSkipList V → Prop where
  | new : OReachable V (OrderedSkipList.new V)
  | newDup : OReachable V (OrderedSkipList.newDuplicatable V)
  | insert {o o2 : OrderedSkipList V} {v : V} {level : Nat} {r : Option V} :
      OReachable V o →
      OrderedSkipList.insert compare o v level = some (r, o2) →
      OReachable V o2

theorem oreachable_canonical {V : Type} [LinearOrder V] {o : OrderedSkipList V}
    (h : OReachable V o) :
    ∃ hh ids xs, Canonical o.sk hh ids xs ∧
      (xs.map Prod.fst).Sorted (· ≤ ·) := by
  induction h with
  | new => exact ⟨0, [], [], canonical_new V, List.sorted_nil⟩
  | newDup => exact ⟨0, [], [], canonical_new V, List.sorted_nil⟩
  | @insert o1 o2 v level r ho hstep ih =>
    obtain ⟨hh, ids, xs, C, hs⟩ := ih
    obtain ⟨b, hasEq, hble, hbeq, h1, h2, h3, h5, h4⟩ :=
      wsorted_partition xs hs v
    by_cases hcond : hasEq = true ∧ o1.duplicatable = false
    · obtain ⟨hE, hD⟩ := hcond
      have hbl : b < xs.length := h4 hE
      rcases hfb : xs.get? b with _ | e
      · rw [List.get?_eq_none] at hfb
        omega
      have heq : compare e.1 v = Ordering.eq := (h3 e hfb).mpr hE
      obtain ⟨o2x, hrun, hd2, C2⟩ :=
        ordered_insert_replace_spec compare C v level hbl hfb h1 h2 heq hD
      rw [hstep] at hrun
      have ho2 : o2 = o2x := congrArg Prod.snd (Option.some.inj hrun)
      rw [← ho2] at C2
      refine ⟨max hh (level + 1), ids, xs.set b (v, e.2), C2, ?_⟩
      rw [map_fst_set_eq hfb (compare_eq_iff_eq.mp heq)]
      exact hs
    · have hdup : hasEq = false ∨ o1.duplicatable = true := by
        rcases hB : hasEq with _ | _
        · exact Or.inl rfl
        · rcases hD : o1.duplicatable with _ | _
          · exact absurd ⟨hB, hD⟩ hcond
          · exact Or.inr rfl
      obtain ⟨o2x, hrun, hd2, C2⟩ :=
        ordered_insert_new_spec compare C v level hble h1 h2 h3 h5 h4 hdup
      rw [hstep] at hrun
      have ho2 : o2 = o2x := congrArg Prod.snd (Option.some.inj hrun)
      rw [← ho2] at C2
      refine ⟨max hh (level + 1), ids.insertIdx b o1.sk.arena.length,
        xs.insertIdx b (v, level), C2, ?_⟩
      refine wsorted_insertIdx hs v level hble
        (fun k e hk hke => compare_lt_iff_lt.mp (h1 k e hk hke))
        (fun k e hk hke => ?_)
      have h6 := h2 k e hk hke
      rcases le_or_lt v e.1 with h7 | h7
      · exact h7
      · exact absurd (compare_lt_iff_lt.mpr h7) h6

/-- **C2.** For every sequence of `insert` calls on an ordered skip list
(duplicatable or not), iterating forward yields values in non-decreasing
order and iterating in reverse yields values in non-increasing order. -/
theorem C2_ordered_iteration_sorted {V : Type} [LinearOrder V]
    {o : OrderedSkipList V} (h : OReachable V o) :
    o.sk.toList.Sorted (· ≤ ·) ∧
    o.sk.reverseIterList.Sorted (fun a c => c ≤ a) := by
  obtain ⟨hh, ids, xs, C, hs⟩ := oreachable_canonical h
  rw [toList_spec C, reverseIterList_spec C]
  exact ⟨hs, List.pairwise_reverse.mpr hs⟩

def o1W : OrderedSkipList Nat :=
  ⟨⟨[⟨none, some 1, none, [some 1], [1]⟩,
     ⟨some 5, none, some 0, [none], [0]⟩], 1⟩, false⟩

def o2W : OrderedSkipList Nat :=
  ⟨⟨[⟨none, some 2, none, [some 2, some 2], [1, 1]⟩,
     ⟨some 5, none, some 2, [none], [0]⟩,
     ⟨some 3, some 1, some 0, [some 1, none], [1, 0]⟩], 2⟩, false⟩

theorem C2_witness :
    o2W.sk.toList.Sorted (· ≤ ·) ∧
    o2W.sk.reverseIterList.Sorted (fun a c => c ≤ a) :=
  C2_ordered_iteration_sorted
    (OReachable.insert
      (OReachable.insert OReachable.new
        (show OrderedSkipList.insert compare (OrderedSkipList.new Nat) 5 0 =
          some (none, o1W) from by decide))
      (show OrderedSkipList.insert compare o1W 3 1 = some (none, o2W) from by
        decide))

/-- **C3 (corrected).** Inserting `v` into a non-duplicatable ordered skip
list: if the element at the partition point equals `v`, the stored value is
overwritten in place and `Some` of it is returned with the length and the
element list unchanged (only the head sentinel may have grown); if no equal
element exists the insert is genuine, returns `None`, and the length grows
by one. -/
theorem C3_nondup_insert {V : Type} [LinearOrder V] {hh : Nat}
    {ids : List Nat} {xs : List (V × Nat)} {o : OrderedSkipList V}
    (C : Canonical o.sk hh ids xs)
    (hs : (xs.map Prod.fst).Sorted (· ≤ ·))
    (hdup : o.duplicatable = false) (v : V) (level : Nat) :
    (∀ e, xs.get? ((xs.map Prod.fst).countP (fun x => decide (x < v))) =
        some e → e.1 = v →
      ∃ o2, OrderedSkipList.insert compare o v level = some (some e.1, o2) ∧
        o2.sk.length = o.sk.length ∧
        Canonical o2.sk (max hh (level + 1)) ids
          (xs.set ((xs.map Prod.fst).countP (fun x => decide (x < v)))
            (v, e.2))) ∧
    (v ∉ xs.map Prod.fst →
      ∃ o2, OrderedSkipList.insert compare o v level = some (none, o2) ∧
        o2.sk.length = o.sk.length + 1 ∧
        Canonical o2.sk (max hh (level + 1))
          (ids.insertIdx ((xs.map Prod.fst).countP (fun x => decide (x < v)))
            o.sk.arena.length)
          (xs.insertIdx ((xs.map Prod.fst).countP (fun x => decide (x < v)))
            (v, level))) := by
  obtain ⟨b, hasEq, hble, hbeq, h1, h2, h3, h5, h4⟩ :=
    wsorted_partition xs hs v
  constructor
  · intro e he hev
    rw [← hbeq] at he
    have hbl : b < xs.length := (List.get?_eq_some.mp he).1
    have heq : compare e.1 v = Ordering.eq := compare_eq_iff_eq.mpr hev
    obtain ⟨o2, hrun, hd2, C2⟩ :=
      ordered_insert_replace_spec compare C v level hbl he h1 h2 heq hdup
    rw [← hbeq]
    refine ⟨o2, hrun, ?_, C2⟩
    rw [C2.len_eq, List.length_set, C.len_eq]
  · intro hnm
    have hE : hasEq = false := by
      rcases hB : hasEq with _ | _
      · rfl
      · exfalso
        have hbl : b < xs.length := h4 hB
        rcases hfb : xs.get? b with _ | e
        · rw [List.get?_eq_none] at hfb
          omega
        · have heq : e.1 = v := compare_eq_iff_eq.mp ((h3 e hfb).mpr hB)
          exact hnm (heq ▸ List.mem_map_of_mem Prod.fst (List.get?_mem hfb))
    obtain ⟨o2, hrun, hd2, C2⟩ :=
      ordered_insert_new_spec compare C v level hble h1 h2 h3 h5 h4
        (Or.inl hE)
    rw [← hbeq]
    refine ⟨o2, hrun, ?_, C2⟩
    rw [C2.len_eq, List.length_insertIdx b xs hble, C.len_eq]

theorem C3_witness :
    ∃ o2, OrderedSkipList.insert compare
        (⟨oneElemState, false⟩ : OrderedSkipList Nat) 42 1 =
        some (some 42, o2) ∧ o2.sk.length = oneElemState.length := by
  obtain ⟨o2, hrun, hlen, -⟩ :=
    (@C3_nondup_insert Nat _ 1 [1] [(42, 0)] ⟨oneElemState, false⟩
      canonical_oneElem (by decide) rfl 42 1).1 (42, 0) (by decide) rfl
  exact ⟨o2, hrun, hlen⟩

/-- The replace path of a non-duplicatable ordered insert is not free of
structural change: the head sentinel grows to the drawn level first, so a
replacing insert of 42 at level 1 into a one-element level-0 list returns
`Some 42` and keeps the length, yet doubles the head link array. -/
theorem C3_counterexample :
    ((OrderedSkipList.insert compare
        (⟨oneElemState, false⟩ : OrderedSkipList Nat) 42 1).map
      (fun r => (r.1, r.2.sk.length, (getN r.2.sk 0).links.length))) =
      some (some 42, 1, 2) ∧
    (getN oneElemState 0).links.length = 1 := by
  exact ⟨by decide, rfl⟩

/-- **C4 (corrected).** Inserting `v` into a duplicatable ordered skip list
always succeeds, returns `None`, grows the length by one, and places the
new element at the index counting the elements strictly below `v` — that
is, *before* any existing elements equal to `v`, not after them. -/
theorem C4_dup_insert {V : Type} [LinearOrder V] {hh : Nat} {ids : List Nat}
    {xs : List (V × Nat)} {o : OrderedSkipList V}
    (C : Canonical o.sk hh ids xs)
    (hs : (xs.map Prod.fst).Sorted (· ≤ ·))
    (hdup : o.duplicatable = true) (v : V) (level : Nat) :
    ∃ o2, OrderedSkipList.insert compare o v level = some (none, o2) ∧
      o2.sk.length = o.sk.length + 1 ∧
      Canonical o2.sk (max hh (level + 1))
        (ids.insertIdx ((xs.map Prod.fst).countP (fun x => decide (x < v)))
          o.sk.arena.length)
        (xs.insertIdx ((xs.map Prod.fst).countP (fun x => decide (x < v)))
          (v, level)) := by
  obtain ⟨b, hasEq, hble, hbeq, h1, h2, h3, h5, h4⟩ :=
    wsorted_partition xs hs v
  obtain ⟨o2, hrun, hd2, C2⟩ :=
    ordered_insert_new_spec compare C v level hble h1 h2 h3 h5 h4
      (Or.inr hdup)
  rw [← hbeq]
  refine ⟨o2, hrun, ?_, C2⟩
  rw [C2.len_eq, List.length_insertIdx b xs hble, C.len_eq]

theorem C4_witness :
    ∃ o2, OrderedSkipList.insert compare
        (⟨oneElemState, true⟩ : OrderedSkipList Nat) 42 0 =
        some (none, o2) ∧ o2.sk.length = oneElemState.length + 1 := by
  obtain ⟨o2, hrun, hlen, -⟩ :=
    @C4_dup_insert Nat _ 1 [1] [(42, 0)] ⟨oneElemState, true⟩
      canonical_oneElem (by decide) rfl 42 0
  exact ⟨o2, hrun, hlen⟩

/-- Comparator on the first component only, to make equal-but-distinct
elements observable. -/
def cmpFst : Nat × Nat → Nat × Nat → Ordering := fun x y => compare x.1 y.1

/-- Duplicate insertion is *not* stable in the append-after sense: after
inserting `(7, 1)` and then the equal element `(7, 2)` into a duplicatable
list ordered by the first component, iteration yields the newer `(7, 2)`
*before* the older `(7, 1)`. -/
theorem C4_counterexample :
    ((OrderedSkipList.insert cmpFst
        (⟨SkipList.new (Nat × Nat), true⟩ : OrderedSkipList (Nat × Nat))
        (7, 1) 0).bind
      (fun r => (OrderedSkipList.insert cmpFst r.2 (7, 2) 0).map
        (fun r2 => r2.2.sk.toList))) = some [(7, 2), (7, 1)] ∧
    [(7, 2), (7, 1)] ≠ [(7, 1), (7, 2)] := by
  exact ⟨by decide, by decide⟩




theorem window_get? {A : Type} (zs : List A) (wl wr : Nat) (hlr : wl ≤ wr)
    (hr : wr ≤ zs.length) (k : Nat) :
    (zs.take wl ++ zs.drop wr).get? k =
      if k < wl then zs.get? k else zs.get? (k + (wr - wl)) := by
  have htl : (zs.take wl).length = wl := by
    rw [List.length_take]
    omega
  by_cases hk : k < wl
  · rw [if_pos hk, List.get?_append (by omega), List.get?_take hk]
  · rw [if_neg hk, List.get?_append_right (by omega), List.get?_drop, htl]
    congr 1
    omega

theorem window_length {A : Type} (zs : List A) (wl wr : Nat) (hlr : wl ≤ wr)
    (hr : wr ≤ zs.length) :
    (zs.take wl ++ zs.drop wr).length = zs.length - (wr - wl) := by
  rw [List.length_append, List.length_take, List.length_drop]
  omega

theorem window_sublist {A : Type} (zs : List A) (wl wr : Nat) (hlr : wl ≤ wr) :
    (zs.take wl ++ zs.drop wr).Sublist zs := by
  have h1 : (zs.drop wr).Sublist (zs.drop wl) := by
    have h0 : zs.drop wr = (zs.drop wl).drop (wr - wl) := by
      rw [List.drop_drop]
      congr 1
      omega
    rw [h0]
    exact List.drop_sublist _ _
  have h2 := List.Sublist.append (List.Sublist.refl (zs.take wl)) h1
  rw [List.take_append_drop] at h2
  exact h2

theorem fid_window (ids : List Nat) (wl wr : Nat) (hlr : wl ≤ wr)
    (hr : wr ≤ ids.length) (k : Nat) :
    fid (ids.take wl ++ ids.drop wr) k =
      if k ≤ wl then fid ids k else fid ids (k + (wr - wl)) := by
  rcases k with _ | k
  · rw [if_pos (by omega)]
    rfl
  · rw [fid_succ, List.getD_eq_getElem?_getD, ← List.get?_eq_getElem?,
      window_get? ids wl wr hlr hr k]
    by_cases hk : k < wl
    · rw [if_pos hk, if_pos (by omega), fid_succ, List.getD_eq_getElem?_getD,
        ← List.get?_eq_getElem?]
    · rw [if_neg hk, if_neg (by omega)]
      rw [show k + 1 + (wr - wl) = (k + (wr - wl)) + 1 from by omega, fid_succ,
        List.getD_eq_getElem?_getD, ← List.get?_eq_getElem?]

theorem entryHeight_window {V : Type} (xs : List (V × Nat)) (wl wr : Nat)
    (hlr : wl ≤ wr) (hr : wr ≤ xs.length) (q : Nat) :
    entryHeight (xs.take wl ++ xs.drop wr) q =
      if q ≤ wl then entryHeight xs q else entryHeight xs (q + (wr - wl)) := by
  rcases q with _ | q
  · rw [if_pos (by omega)]
    rfl
  · simp only [entryHeight]
    rw [window_get? xs wl wr hlr hr q]
    by_cases hk : q < wl
    · rw [if_pos hk, if_pos (by omega)]
    · rw [if_neg hk, if_neg (by omega)]
      have he : q + 1 + (wr - wl) = (q + (wr - wl)) + 1 := by omega
      rw [he]

theorem heightAt_window {V : Type} (xs : List (V × Nat)) (hh wl wr : Nat)
    (hlr : wl ≤ wr) (hr : wr ≤ xs.length) (k : Nat) :
    heightAt hh (xs.take wl ++ xs.drop wr) k =
      if k ≤ wl then heightAt hh xs k
      else entryHeight xs (k + (wr - wl)) := by
  by_cases hkl : k ≤ wl
  · rw [if_pos hkl]
    rcases Nat.eq_zero_or_pos k with rfl | hk
    · rfl
    · rw [heightAt, heightAt, if_neg (by omega), if_neg (by omega),
        entryHeight_window xs wl wr hlr hr k, if_pos hkl]
  · rw [if_neg hkl]
    rw [heightAt, if_neg (by omega),
      entryHeight_window xs wl wr hlr hr k, if_neg hkl]

theorem nextAbove_window_keep {V : Type} {xs : List (V × Nat)} {wl wr : Nat}
    (hlr : wl ≤ wr) (hr : wr ≤ xs.length) {lv k q : Nat}
    (hq : nextAbove xs lv k = some q) (hql : q ≤ wl) :
    nextAbove (xs.take wl ++ xs.drop wr) lv k = some q := by
  obtain ⟨h1, h2, h3⟩ := (nextAbove_some_iff xs lv k q).mp hq
  rw [nextAbove_some_iff]
  refine ⟨h1, ?_, ?_⟩
  · rw [entryHeight_window xs wl wr hlr hr q, if_pos hql]
    exact h2
  · intro r hr1 hr2
    rw [entryHeight_window xs wl wr hlr hr r, if_pos (by omega)]
    exact h3 r hr1 hr2

theorem nextAbove_window_cross {V : Type} {xs : List (V × Nat)} {wl wr : Nat}
    (hlr : wl ≤ wr) (hr : wr ≤ xs.length) {lv k : Nat} (hk : k ≤ wl)
    (hgap : ∀ r2, k < r2 → r2 ≤ wl → entryHeight xs r2 ≤ lv) :
    nextAbove (xs.take wl ++ xs.drop wr) lv k =
      (nextAbove xs lv wr).map (fun q => q - (wr - wl)) := by
  rcases hx : nextAbove xs lv wr with _ | q
  · simp only [Option.map_none']
    rw [nextAbove_none_iff]
    intro q2 hq2
    rw [entryHeight_window xs wl wr hlr hr q2]
    by_cases hq2l : q2 ≤ wl
    · rw [if_pos hq2l]
      exact hgap q2 hq2 hq2l
    · rw [if_neg hq2l]
      exact (nextAbove_none_iff ..).mp hx (q2 + (wr - wl)) (by omega)
  · obtain ⟨h1, h2, h3⟩ := (nextAbove_some_iff xs lv wr q).mp hx
    simp only [Option.map_some']
    rw [nextAbove_some_iff]
    refine ⟨by omega, ?_, ?_⟩
    · rw [entryHeight_window xs wl wr hlr hr (q - (wr - wl)),
        if_neg (by omega), show q - (wr - wl) + (wr - wl) = q from by omega]
      exact h2
    · intro r2 hr1 hr2
      rw [entryHeight_window xs wl wr hlr hr r2]
      by_cases hr2l : r2 ≤ wl
      · rw [if_pos hr2l]
        exact hgap r2 hr1 hr2l
      · rw [if_neg hr2l]
        exact h3 (r2 + (wr - wl)) (by omega) (by omega)

theorem nextAbove_window_high {V : Type} {xs : List (V × Nat)} {wl wr : Nat}
    (hlr : wl ≤ wr) (hr : wr ≤ xs.length) {lv k : Nat} (hk : wl ≤ k) :
    nextAbove (xs.take wl ++ xs.drop wr) lv k =
      (nextAbove xs lv (k + (wr - wl))).map (fun q => q - (wr - wl)) := by
  rcases hx : nextAbove xs lv (k + (wr - wl)) with _ | q
  · simp only [Option.map_none']
    rw [nextAbove_none_iff]
    intro q2 hq2
    rw [entryHeight_window xs wl wr hlr hr q2, if_neg (by omega)]
    exact (nextAbove_none_iff ..).mp hx (q2 + (wr - wl)) (by omega)
  · obtain ⟨h1, h2, h3⟩ := (nextAbove_some_iff xs lv (k + (wr - wl)) q).mp hx
    simp only [Option.map_some']
    rw [nextAbove_some_iff]
    refine ⟨by omega, ?_, ?_⟩
    · rw [entryHeight_window xs wl wr hlr hr (q - (wr - wl)),
        if_neg (by omega), show q - (wr - wl) + (wr - wl) = q from by omega]
      exact h2
    · intro r2 hr1 hr2
      rw [entryHeight_window xs wl wr hlr hr r2, if_neg (by omega)]
      exact h3 (r2 + (wr - wl)) (by omega) (by omega)

theorem rrWalk_go {V : Type} {s : SkipList V} {hh : Nat} {ids : List Nat}
    {xs : List (V × Nat)} (C : Canonical s hh ids xs) {b : Nat}
    (hble : b ≤ xs.length) :
    ∀ fuel cp cl pp pi,
      cp ≤ b → cl < heightAt hh xs cp →
      pp.length = hh → pi.length = hh →
      (b - cp) + cl + 1 ≤ fuel →
      ∃ ppf pif,
        rrWalk fuel s (b + 1) (fid ids cp) cp cl pp pi = some (ppf, pif) ∧
        ppf.length = hh ∧ pif.length = hh ∧
        (∀ i, i < hh → i ≤ cl →
          ppf.get? i = some (some (fid ids (levelPred xs i (b + 1)))) ∧
          pif.get? i = some (levelPred xs i (b + 1))) ∧
        (∀ i, cl < i →
          ppf.get? i = pp.get? i ∧ pif.get? i = pi.get? i) := by
  intro fuel
  induction fuel with
  | zero => intro cp cl pp pi _ _ _ _ hf; omega
  | succ fuel ih =>
    intro cp cl pp pi hcp hcl hpp hpi hf
    have hkn : cp ≤ xs.length := by omega
    have hclh : cl < hh := lt_of_lt_of_le hcl (C.heightAt_le_hh hkn)
    obtain ⟨hlink, hspan⟩ := C.links_ok cp hkn cl hcl
    have hpred2 : cp = 0 ∨ cl < entryHeight xs cp := by
      rcases Nat.eq_zero_or_pos cp with rfl | hcp0
      · exact Or.inl rfl
      · right
        simpa [heightAt, Nat.pos_iff_ne_zero.mp hcp0] using hcl
    rcases hna : nextAbove xs cl cp with _ | q2
    · -- null link at this level
      rw [hna] at hlink hspan
      simp only [Option.map_none', Option.getD_none] at hlink hspan
      have hp : levelPred xs cl (b + 1) = cp := by
        refine levelPred_eq xs cl (b + 1) cp (by omega) hpred2 ?_
        intro r hr1 _
        exact (nextAbove_none_iff ..).mp hna r hr1
      rw [rrWalk]
      rw [hlink]
      simp only
      by_cases hcl0 : cl = 0
      · subst hcl0
        rw [if_pos rfl]
        refine ⟨pp.set 0 (some (fid ids cp)), pi.set 0 cp, rfl, by simp [hpp],
          by simp [hpi], ?_, ?_⟩
        · intro i hi hi0
          have hi0x : i = 0 := by omega
          subst hi0x
          rw [hp, get?_set_self _ _ _ (by omega), get?_set_self _ _ _ (by omega)]
          exact ⟨rfl, rfl⟩
        · intro i hi
          rw [get?_set_other _ _ _ _ (by omega),
            get?_set_other _ _ _ _ (by omega)]
          exact ⟨rfl, rfl⟩
      · rw [if_neg hcl0]
        obtain ⟨ppf, pif, hrun, hl1, hl2, hset, hkeep⟩ :=
          ih cp (cl - 1) (pp.set cl (some (fid ids cp))) (pi.set cl cp)
            hcp (by omega) (by simp [hpp]) (by simp [hpi]) (by omega)
        refine ⟨ppf, pif, hrun, hl1, hl2, ?_, ?_⟩
        · intro i hi hicl
          by_cases hie : i ≤ cl - 1
          · exact hset i hi hie
          · have hie2 : i = cl := by omega
            subst hie2
            obtain ⟨k1, k2⟩ := hkeep i (by omega)
            rw [k1, k2, get?_set_self _ _ _ (by omega),
              get?_set_self _ _ _ (by omega), hp]
            exact ⟨rfl, rfl⟩
        · intro i hi
          obtain ⟨k1, k2⟩ := hkeep i (by omega)
          rw [k1, k2, get?_set_other _ _ _ _ (by omega),
            get?_set_other _ _ _ _ (by omega)]
          exact ⟨rfl, rfl⟩
    · -- link to position q2
      rw [hna] at hlink hspan
      simp only [Option.map_some', Option.getD_some] at hlink hspan
      obtain ⟨hq1, hq2b⟩ := nextAbove_pos_le hna
      rw [rrWalk]
      rw [hlink]
      simp only
      rw [hspan]
      simp only
      have hqe : cp + (q2 - cp) = q2 := by omega
      rw [hqe]
      rcases Nat.lt_or_ge q2 (b + 1) with hqb | hqb
      · -- the target is before the window: advance
        rw [if_pos hqb]
        have hqh : cl < heightAt hh xs q2 := by
          have hq0 : q2 ≠ 0 := by omega
          simp only [heightAt, if_neg hq0]
          exact ((nextAbove_some_iff ..).mp hna).2.1
        obtain ⟨ppf, pif, hrun, hl1, hl2, hset, hkeep⟩ :=
          ih q2 cl (pp.set cl (some (fid ids cp))) (pi.set cl cp)
            (by omega) hqh (by simp [hpp]) (by simp [hpi]) (by omega)
        refine ⟨ppf, pif, hrun, hl1, hl2, hset, ?_⟩
        intro i hi
        obtain ⟨k1, k2⟩ := hkeep i hi
        rw [k1, k2, get?_set_other _ _ _ _ (by omega),
          get?_set_other _ _ _ _ (by omega)]
        exact ⟨rfl, rfl⟩
      · -- the target is at or past the window start: settle this level
        rw [if_neg (by omega)]
        have hp : levelPred xs cl (b + 1) = cp := by
          refine levelPred_eq xs cl (b + 1) cp (by omega) hpred2 ?_
          intro r hr1 hr2
          exact ((nextAbove_some_iff ..).mp hna).2.2 r hr1 (by omega)
        by_cases hcl0 : cl = 0
        · subst hcl0
          rw [if_pos rfl]
          refine ⟨pp.set 0 (some (fid ids cp)), pi.set 0 cp, rfl,
            by simp [hpp], by simp [hpi], ?_, ?_⟩
          · intro i hi hi0
            have hi0x : i = 0 := by omega
            subst hi0x
            rw [hp, get?_set_self _ _ _ (by omega),
              get?_set_self _ _ _ (by omega)]
            exact ⟨rfl, rfl⟩
          · intro i hi
            rw [get?_set_other _ _ _ _ (by omega),
              get?_set_other _ _ _ _ (by omega)]
            exact ⟨rfl, rfl⟩
        · rw [if_neg hcl0]
          obtain ⟨ppf, pif, hrun, hl1, hl2, hset, hkeep⟩ :=
            ih cp (cl - 1) (pp.set cl (some (fid ids cp))) (pi.set cl cp)
              hcp (by omega) (by simp [hpp]) (by simp [hpi]) (by omega)
          refine ⟨ppf, pif, hrun, hl1, hl2, ?_, ?_⟩
          · intro i hi hicl
            by_cases hie : i ≤ cl - 1
            · exact hset i hi hie
            · have hie2 : i = cl := by omega
              subst hie2
              obtain ⟨k1, k2⟩ := hkeep i (by omega)
              rw [k1, k2, get?_set_self _ _ _ (by omega),
                get?_set_self _ _ _ (by omega), hp]
              exact ⟨rfl, rfl⟩
          · intro i hi
            obtain ⟨k1, k2⟩ := hkeep i (by omega)
            rw [k1, k2, get?_set_other _ _ _ _ (by omega),
              get?_set_other _ _ _ _ (by omega)]
            exact ⟨rfl, rfl⟩


end SkipListVerif
